import Mathlib

/-!
IP-Glasma event driver (`src/main.cpp`).

A shallow embedding of the control driver in `main`: seed derivation, the
retry loop around the initializer, the evolution call, the barrier and the
export calls.  One worker (one MPI rank) is modelled; what it does is
recorded as a trace of actions.

Conventions.
* `int` arithmetic is two's-complement 32-bit (`wrapInt`); `unsigned long long`
  arithmetic is reduction modulo `2 ^ 64`; conversions go through `toULL`.
* Classes whose sources are not part of `main.cpp` (`Parameters`, `Random`,
  `Init`, `Evolution`, `Setup`, the stream library) enter as parameters or are
  modelled as documented at the definition.
* Console messages that carry no value are not recorded in the trace.
* Allocation with `new` is taken to succeed.
-/

namespace IPGlasma

/-! ## Machine arithmetic -/

/-- Modulus of `unsigned long long`. -/
def ULLMOD : Nat := 2 ^ 64

/-- Largest value of `int`. -/
def INT_MAX : Int := 2147483647

/-- Result of an `int` operation whose mathematical value is `z`
(two's-complement wrap to 32 bits). -/
def wrapInt (z : Int) : Int := (z + 2 ^ 31) % 2 ^ 32 - 2 ^ 31

/-- Conversion of a signed integer to `unsigned long long`. -/
def toULL (z : Int) : Nat := (z % 2 ^ 64).toNat

/-- Sum of two `unsigned long long` values. -/
def addULL (a b : Nat) : Nat := (a + b) % ULLMOD

/-- Difference of two `unsigned long long` values. -/
def subULL (a b : Nat) : Nat := (a + (ULLMOD - b % ULLMOD)) % ULLMOD

/-- Product of two `unsigned long long` values. -/
def mulULL (a b : Nat) : Nat := (a * b) % ULLMOD

/-- The expression `rank*1000`: an `int` product. -/
def rankOffset (rank : Int) : Int := wrapInt (rank * 1000)

/-! ## Input stream (`std::ifstream`) as far as `main` uses it -/

/-- State of an opened `ifstream`: unread characters and the two state bits
`main` depends on. -/
structure IStream where
  rest : List Char
  eofbit : Bool
  failbit : Bool
  deriving DecidableEq, Repr

/-- A freshly opened stream over the given content. -/
def IStream.opened (content : List Char) : IStream :=
  { rest := content, eofbit := false, failbit := false }

/-- Member `eof()`. -/
def IStream.eof (s : IStream) : Bool := s.eofbit

/-- The `isspace` test of the classic locale. -/
def isSpace (c : Char) : Bool :=
  c.toNat = 32 || (9 ≤ c.toNat && c.toNat ≤ 13)

/-- Decimal digit test. -/
def isDigit (c : Char) : Bool := 48 ≤ c.toNat && c.toNat ≤ 57

/-- Value of a decimal digit character. -/
def digitVal (c : Char) : Nat := c.toNat - 48

/-- Skips leading white space (the stream sentry with `skipws`). -/
def skipSpace : List Char → List Char
  | [] => []
  | c :: cs => if isSpace c then skipSpace cs else c :: cs

/-- Accumulates the leading decimal digits onto `acc`; returns the value, the
number of digits consumed and the unread rest. -/
def takeDigits : List Char → Nat → Nat → Nat × Nat × List Char
  | [], acc, n => (acc, n, [])
  | c :: cs, acc, n =>
    if isDigit c then takeDigits cs (acc * 10 + digitVal c) (n + 1) else (acc, n, c :: cs)

/-- Formatted extraction `fin >> x` for `unsigned long long x`, following the
standard library: a stream that is not good fails at once and leaves `x` as it
was; white space is skipped, and meeting the end there sets `eofbit` and
`failbit` and leaves `x` as it was; then an optional sign and decimal digits
are read, meeting the end sets `eofbit`; no digit gives `0` with `failbit`, a
value beyond the type gives the largest value with `failbit`, a leading minus
negates modulo `2 ^ 64`. -/
def IStream.extractULL (s : IStream) (old : Nat) : IStream × Nat :=
  if s.eofbit || s.failbit then ({ s with failbit := true }, old)
  else
    match skipSpace s.rest with
    | [] => ({ rest := [], eofbit := true, failbit := true }, old)
    | c :: cs =>
      let signed : Bool := c = Char.ofNat 45 || c = Char.ofNat 43
      let body : List Char := if signed then cs else c :: cs
      let r := takeDigits body 0 0
      let atEnd : Bool := r.2.2.isEmpty
      if r.2.1 = 0 then
        ({ rest := r.2.2, eofbit := atEnd, failbit := true }, 0)
      else if ULLMOD ≤ r.1 then
        ({ rest := r.2.2, eofbit := atEnd, failbit := true }, ULLMOD - 1)
      else if c = Char.ofNat 45 then
        ({ rest := r.2.2, eofbit := atEnd, failbit := false }, (ULLMOD - r.1) % ULLMOD)
      else
        ({ rest := r.2.2, eofbit := atEnd, failbit := false }, r.1)

/-- The loop `for (int i = 0; i < size; i++)` over the opened seed list, started
at index `i` with `n` iterations left: `none` is the branch that prints "Not
enough random seeds" and calls `exit(1)`.  The array is a function from index to
value; an entry never written keeps its indeterminate initial value. -/
def readSeedLoop : Nat → Nat → IStream → (Nat → Nat) → Option (IStream × (Nat → Nat))
  | 0, _, s, a => some (s, a)
  | n + 1, i, s, a =>
    if !s.eof then
      let r := s.extractULL (a i)
      readSeedLoop n (i + 1) r.1 (Function.update a i r.2)
    else none

/-! ## Configuration object and collaborators -/

/-- Values `readInput` loads from the configuration resource, restricted to the
fields `main` reads afterwards.  `seed` is read with `ULLIFind`, the flags with
`IFind`. -/
structure Config where
  seed : Nat
  useSeedList : Int
  useTimeForSeed : Int
  size : Int
  Nc : Int
  readMultFromFile : Int
  writeOutputsToHDF5 : Int
  deriving DecidableEq, Repr

/-- The `Parameters` object `param` that `main` hands to every stage.
Modelled from the spec: the class declaration (`Parameters.h`) is not among the
sources; the derived seed is a 64-bit unsigned value, event id and success flag
are `int`. -/
structure Parameters where
  cfg : Config
  MPIRank : Int
  MPISize : Int
  eventId : Int
  success : Int
  randomSeed : Nat
  deriving DecidableEq, Repr

/-- Heap objects `main` creates with `new`. -/
inductive Obj where
  | myEigen | init | group | glauber | evolution | lattice | bufferLattice
  deriving DecidableEq, Repr

/-- External code called by `main`.  `R` is the state of the random stream, `X`
the state of everything else outside the driver (lattice contents, files the
stages write, the glauber and evolution objects).  `init` is
`Init::init(lat, group, param, random, glauber, READFROMFILE)` and `run` is
`Evolution::run(lat, bufferlat, group, param)`: both receive the pointer `param`
and may write any of its fields, so they return a new `Parameters`; only `init`
receives `random`.  The constructors `Lattice(param, Nc, size)` and
`BufferLattice(param, Nc, size)` and the call `evolution->readNkt(param)` also
receive `param`; following the spec (storage is sized from the configuration)
they are taken to read it only.  `system` is the C library call and returns the
status. -/
structure Collaborators (R X : Type) where
  init_genrand64 : Nat → R → R
  initGlauber : Parameters → Int → X → X
  readNkt : Parameters → X → X
  init : R → X → Parameters → R × X × Parameters
  run : X → Parameters → X × Parameters
  system : String → X → X × Int

/-- What one worker does, in program order. -/
inductive Action (R : Type) where
  /-- Write of the parameter dump by `readInput`, which opens
  `usedParameters<eventId>.dat` with `ios::out`. -/
  | writeDump (eventId : Int)
  /-- Message "Random seed = v - entered directly +rank*1000.". -/
  | logDirect (v : Nat)
  /-- Message "Random seed = seed made from time t and argument (+1000*rank) a". -/
  | logTime (seed fromTime argument : Nat)
  /-- Message "Random seed on rank r = v read from list.". -/
  | logList (rank : Int) (v : Nat)
  | setRandomSeed (v : Nat)
  /-- Call `random->init_genrand64(v)`. -/
  | seedStream (v : Nat)
  | setEventId (v : Int)
  /-- Append of the line "Random seed used on rank r: s" to
  `usedParameters<eventId>.dat` (opened with `ios::app`). -/
  | appendAudit (eventId : Int) (rank : Int) (seed : Nat)
  | construct (o : Obj) (id : Nat)
  | destroy (o : Obj) (id : Nat)
  | initGlauber
  | readNkt
  /-- Call `init->init(...)` through object `initObj` on lattice `lat`, with the
  stream state before and after and the success flag it left. -/
  | initCall (initObj lat : Nat) (before after : R) (success : Int)
  /-- Call `evolution->run(lat, bufferlat, group, param)`. -/
  | run (lat buf : Nat)
  | barrier
  /-- Call `system(cmd)` and the message with its status. -/
  | system (cmd : String) (status : Int)
  | finalize
  deriving DecidableEq, Repr

/-- Mutable state of the worker inside the event loop. -/
structure St (R X : Type) where
  rng : R
  ext : X
  param : Parameters
  nextId : Nat

/-! ## Seed derivation (`main`, lines 61-106) -/

/-- Outcome of the seed stage: the actions taken, and either the updated
`param` and stream or `none` when `exit(1)` was called. -/
structure SeedStage (R : Type) where
  trace : List (Action R)
  result : Option (Parameters × R)

/-- The seed stage of `main` for a worker of the given rank. -/
def seedStage {R X : Type} (c : Collaborators R X) (rank size : Int) (time : Int)
    (seedList : Option (List Char)) (garbage : Nat → Nat) (param : Parameters) (rng : R) :
    SeedStage R :=
  if param.cfg.useSeedList = 0 then
    let rnum : Nat :=
      if param.cfg.useTimeForSeed = 1 then addULL (toULL time) (mulULL param.cfg.seed 10000)
      else param.cfg.seed % ULLMOD
    let derived : Nat := addULL rnum (toULL (rankOffset rank))
    let log1 : List (Action R) :=
      if param.cfg.useTimeForSeed = 1 then [] else [Action.logDirect derived]
    let param1 : Parameters := { param with randomSeed := derived }
    let log2 : List (Action R) :=
      if param.cfg.useTimeForSeed = 1 then
        [Action.logTime param1.randomSeed
          (subULL (subULL rnum (param.cfg.seed % ULLMOD)) (toULL (rankOffset rank)))
          (addULL param.cfg.seed (toULL (rankOffset rank)))]
      else []
    { trace := log1 ++ [Action.setRandomSeed derived] ++ log2 ++ [Action.seedStream derived],
      result := some (param1, c.init_genrand64 derived rng) }
  else
    match seedList with
    | none => { trace := [], result := none }
    | some content =>
      match readSeedLoop size.toNat 0 (IStream.opened content) garbage with
      | none => { trace := [], result := none }
      | some r =>
        let v : Nat := r.2 rank.toNat
        { trace := [Action.setRandomSeed v, Action.seedStream v, Action.logList rank v],
          result := some ({ param with randomSeed := v }, c.init_genrand64 v rng) }

/-! ## Event loop (`main`, lines 109-362) -/

/-- The loop `while (param->getSuccess() == 0)` of one event, with at most `fuel`
iterations.  `initObj` and `glauberObj` are the objects `init` and `glauber`
point to.  Each iteration sets the flag to 0, creates the lattice and the buffer
lattice, calls `init->init`; when the flag is still 0 it deletes both and
continues; otherwise it deletes `init` and `glauber`, calls `evolution->run` and
deletes the buffer lattice and the lattice, and the loop condition is read
again.  When the flag is not 0 then, the loop has ended.  When it is 0 again
(the evolver has reset it), the loop is entered once more and its next iteration
calls `init->init` through the object deleted at line 331: from there on the
behaviour of the program is undefined, so the trace stops after the evolution
stage and the loop is reported as not ended.  The result is whether the loop
ended, the actions and the state. -/
def attemptLoop {R X : Type} (c : Collaborators R X) (initObj glauberObj : Nat) :
    Nat → St R X → Bool × List (Action R) × St R X
  | fuel, s =>
    if s.param.success = 0 then
      match fuel with
      | 0 => (false, [], s)
      | fuel + 1 =>
        let lat := s.nextId
        let buf := s.nextId + 1
        let r := c.init s.rng s.ext { s.param with success := 0 }
        let head : List (Action R) :=
          [Action.construct Obj.lattice lat, Action.construct Obj.bufferLattice buf,
           Action.initCall initObj lat s.rng r.1 r.2.2.success]
        if r.2.2.success = 0 then
          let rest := attemptLoop c initObj glauberObj fuel
            { rng := r.1, ext := r.2.1, param := r.2.2, nextId := s.nextId + 2 }
          (rest.1,
            head ++ [Action.destroy Obj.lattice lat, Action.destroy Obj.bufferLattice buf]
              ++ rest.2.1,
            rest.2.2)
        else
          let e := c.run r.2.1 r.2.2
          (decide (e.2.success ≠ 0),
            head ++ [Action.destroy Obj.init initObj, Action.destroy Obj.glauber glauberObj,
              Action.run lat buf, Action.destroy Obj.bufferLattice buf,
              Action.destroy Obj.lattice lat],
            { rng := r.1, ext := e.1, param := e.2, nextId := s.nextId + 2 })
    else (true, [], s)

/-- The command line of the per-event export. -/
def collectCommand (rank eventId : Int) : String :=
  "python3 utilities/combine_events_into_hdf5.py ." ++ " --output_filename " ++
    ("RESULTS_rank" ++ toString rank) ++ " --event_id " ++ toString eventId

/-- The command line of the run-level merge. -/
def combineCommand : String :=
  "python3 utilities/combine_events_into_hdf5.py ." ++ " --output_filename RESULTS" ++
    " --combine_hdf5_files_only"

/-- Name of the audit resource of an event. -/
def auditName (eventId : Int) : String :=
  "usedParameters" ++ toString eventId ++ ".dat"

/-- The line the event loop appends to the audit resource. -/
def auditLine (rank : Int) (seed : Nat) : String :=
  "Random seed used on rank " ++ toString rank ++ ": " ++ toString seed

/-- Body of the event loop up to and including the attempt loop (lines 110-339)
for event index `iev`: the actions before the attempt loop, then the loop. -/
def eventHead {R X : Type} (c : Collaborators R X) (fuel : Nat) (rank size iev : Int)
    (s : St R X) : Bool × List (Action R) × St R X :=
  let myeigen := s.nextId
  let p1 : Parameters := { s.param with eventId := wrapInt (rank + wrapInt (iev * size)) }
  let p2 : Parameters := { p1 with success := 0 }
  let initObj := s.nextId + 1
  let group := s.nextId + 2
  let glauber := s.nextId + 3
  let x1 := c.initGlauber p2 rank s.ext
  let evolution := s.nextId + 4
  let reads : Bool := p2.cfg.readMultFromFile = 1
  let x2 := if reads then c.readNkt p2 x1 else x1
  let before : List (Action R) :=
    [Action.construct Obj.myEigen myeigen, Action.setEventId p1.eventId,
     Action.appendAudit p2.eventId rank p2.randomSeed,
     Action.construct Obj.init initObj, Action.construct Obj.group group,
     Action.construct Obj.glauber glauber, Action.initGlauber,
     Action.construct Obj.evolution evolution] ++ (if reads then [Action.readNkt] else [])
  let loop := attemptLoop c initObj glauber fuel
    { rng := s.rng, ext := x2, param := p2, nextId := s.nextId + 5 }
  (loop.1, before ++ loop.2.1, loop.2.2)

/-- What follows the attempt loop in the body of the event loop (lines 341-361):
the barrier, the per-event export when `writeOutputsToHDF5 == 1`, the deletion
of `group`, `evolution` and `myeigen`.  Returns the actions, the state and the
new value of `h5Flag`. -/
def eventTail {R X : Type} (c : Collaborators R X) (rank : Int) (first : Nat)
    (s : St R X) (h5Flag : Int) : List (Action R) × St R X × Int :=
  let closing : List (Action R) :=
    [Action.destroy Obj.group (first + 2), Action.destroy Obj.evolution (first + 4),
     Action.destroy Obj.myEigen first]
  if s.param.cfg.writeOutputsToHDF5 = 1 then
    let cmd := collectCommand rank s.param.eventId
    let r := c.system cmd s.ext
    ([Action.barrier, Action.system cmd r.2] ++ closing, { s with ext := r.1 }, 1)
  else ([Action.barrier] ++ closing, s, h5Flag)

/-- State of the worker between events: the loop state and `h5Flag`; `ended` is
false when some attempt loop did not end: it ran out of fuel, or was entered
again after the evolution stage. -/
structure LoopResult (R X : Type) where
  ended : Bool
  trace : List (Action R)
  state : St R X
  h5Flag : Int

/-- The loop `for (int iev = 0; iev < nev; iev++)` from index `iev` with `n`
iterations left; every attempt loop gets `fuel` iterations. -/
def eventLoop {R X : Type} (c : Collaborators R X) (fuel : Nat) (rank size : Int) :
    Nat → Int → St R X → Int → LoopResult R X
  | 0, _, s, h5Flag => { ended := true, trace := [], state := s, h5Flag := h5Flag }
  | n + 1, iev, s, h5Flag =>
    let h := eventHead c fuel rank size iev s
    if h.1 then
      let t := eventTail c rank s.nextId h.2.2 h5Flag
      let rest := eventLoop c fuel rank size n (iev + 1) t.2.1 t.2.2
      { rest with trace := h.2.1 ++ t.1 ++ rest.trace }
    else { ended := false, trace := h.2.1, state := h.2.2, h5Flag := h5Flag }

/-! ## The program (`main` and `readInput`) -/

/-- C library `atoi` on the characters of an argument: leading white space, an
optional sign, decimal digits; the value is that of `strtol` (clamped to the
range of `long`) converted to `int`. -/
def atoi (arg : List Char) : Int :=
  match skipSpace arg with
  | [] => 0
  | c :: cs =>
    let signed : Bool := c = Char.ofNat 45 || c = Char.ofNat 43
    let r := takeDigits (if signed then cs else c :: cs) 0 0
    let v : Int := if c = Char.ofNat 45 then -(r.1 : Int) else (r.1 : Int)
    wrapInt (max (-(2 ^ 63)) (min v (2 ^ 63 - 1)))

/-- Everything the process receives from outside.  `argv` includes the program
name; `param0` is the object `new Parameters()` builds; `setup` gives the values
the `Setup` finders return for a configuration resource; `time` is the reading
of `time(0)` in `main`; `seedList` is the content of the resource `seedList`, or
`none` when it cannot be opened; `garbage` is the indeterminate initial content
of the array `seedList[size]`. -/
structure Input (R X : Type) where
  argv : List String
  rank : Int
  size : Int
  param0 : Parameters
  setup : String → Config
  time : Int
  seedList : Option (List Char)
  garbage : Nat → Nat
  rng0 : R
  ext0 : X

/-- The requested event count: `nev = 1; if (argc == 3) nev = atoi(argv[2]);`. -/
def requestedEvents (argv : List String) : Int :=
  if argv.length = 3 then atoi (argv.getD 2 "").data else 1

/-- The configuration path `readInput` resolves. -/
def configPath (argv : List String) : String :=
  if 1 < argv.length then argv.getD 1 "" else "input"

/-- Function `readInput`: loads the configuration into `param` and writes the
dump to `usedParameters<eventId>.dat`, opened with `ios::out`, where `eventId`
is what `param` holds at that moment. -/
def readInput {R : Type} (setup : String → Config) (argv : List String) (param : Parameters) :
    List (Action R) × Parameters :=
  ([Action.writeDump param.eventId], { param with cfg := setup (configPath argv) })

/-- Result of a run of `main` on one worker: the actions in order and the exit
status, `none` when an attempt loop did not end (out of fuel, or entered again
after the evolution stage, where the behaviour of the program is undefined). -/
structure Result (R : Type) where
  trace : List (Action R)
  status : Option Int
  deriving DecidableEq

/-- Function `main` for one worker; every attempt loop gets `fuel` iterations. -/
def main {R X : Type} (c : Collaborators R X) (fuel : Nat) (inp : Input R X) : Result R :=
  let nev := requestedEvents inp.argv
  let param : Parameters := { inp.param0 with MPIRank := inp.rank, MPISize := inp.size }
  let ri := readInput (R := R) inp.setup inp.argv param
  let sd := seedStage c inp.rank inp.size inp.time inp.seedList inp.garbage ri.2 inp.rng0
  match sd.result with
  | none => { trace := ri.1 ++ sd.trace, status := some 1 }
  | some ps =>
    let lp := eventLoop c fuel inp.rank inp.size nev.toNat 0
      { rng := ps.2, ext := inp.ext0, param := ps.1, nextId := 0 } 0
    if lp.ended then
      if lp.h5Flag = 1 ∧ inp.rank = 0 then
        let r := c.system combineCommand lp.state.ext
        { trace := ri.1 ++ sd.trace ++ lp.trace ++
            [Action.system combineCommand r.2, Action.finalize],
          status := some 1 }
      else
        { trace := ri.1 ++ sd.trace ++ lp.trace ++ [Action.finalize], status := some 1 }
    else { trace := ri.1 ++ sd.trace ++ lp.trace, status := none }

/-! ## Observations on traces -/

/-- Actions that derive or install a seed: `setRandomSeed` and the seeding call
of the random stream. -/
def Action.isSeeding {R : Type} : Action R → Bool
  | Action.setRandomSeed _ => true
  | Action.seedStream _ => true
  | _ => false

/-- Calls of `evolution->run`. -/
def Action.isRun {R : Type} : Action R → Bool
  | Action.run _ _ => true
  | _ => false

/-- Calls of `init->init`. -/
def Action.isInitCall {R : Type} : Action R → Bool
  | Action.initCall _ _ _ _ _ => true
  | _ => false

/-- Creations of an object of kind `o`. -/
def Action.isConstruct {R : Type} (o : Obj) : Action R → Bool
  | Action.construct k _ => k = o
  | _ => false

/-- Deletions of an object of kind `o`. -/
def Action.isDestroy {R : Type} (o : Obj) : Action R → Bool
  | Action.destroy k _ => k = o
  | _ => false

/-- Effect of one action on the list of live objects of kind `o`. -/
def liveStep {R : Type} (o : Obj) (l : List Nat) : Action R → List Nat
  | Action.construct k id => if k = o then id :: l else l
  | Action.destroy k id => if k = o then l.erase id else l
  | _ => l

/-- Objects of kind `o` live after the actions `tr`, starting from `l`. -/
def liveFrom {R : Type} (o : Obj) (l : List Nat) (tr : List (Action R)) : List Nat :=
  tr.foldl (liveStep o) l

/-- Objects of kind `o` live after the actions `tr` of a worker that started
with none. -/
def liveAfter {R : Type} (o : Obj) (tr : List (Action R)) : List Nat := liveFrom o [] tr

/-! ## Well-formed seed lists -/

/-- A non-empty string of decimal digits. -/
def IsNumeral (l : List Char) : Prop := l ≠ [] ∧ ∀ c ∈ l, isDigit c = true

instance (l : List Char) : Decidable (IsNumeral l) := by
  unfold IsNumeral
  exact inferInstance

/-- Value of a string of decimal digits. -/
def numeralVal (l : List Char) : Nat := l.foldl (fun acc c => acc * 10 + digitVal c) 0

/-- The text of a seed list: one numeral per line, lines separated by a newline,
the last line ending with a newline when `trailing` is set. -/
def seedListText : List (List Char) → Bool → List Char
  | [], _ => []
  | [l], trailing => if trailing then l ++ [Char.ofNat 10] else l
  | l :: l2 :: ls, trailing => l ++ [Char.ofNat 10] ++ seedListText (l2 :: ls) trailing

/-! ## Concrete collaborators used to exercise the driver -/

/-- A test initializer that fails `K` times and then succeeds, in every event;
it draws one value per attempt (`R` counts the draws, `X` the failures since
the last success).  The evolver leaves `param` alone. -/
def retryCollab (K : Nat) : Collaborators Nat Nat where
  init_genrand64 := fun _ _ => 0
  initGlauber := fun _ _ x => x
  readNkt := fun _ x => x
  init := fun r x p =>
    if x < K then (r + 1, x + 1, { p with success := 0 })
    else (r + 1, 0, { p with success := 1 })
  run := fun x p => (x, p)
  system := fun _ x => (x, 0)

/-- A configuration with the given seed and seed flags, no export. -/
def sampleConfig (seed : Nat) (useSeedList useTimeForSeed : Int) : Config :=
  { seed := seed, useSeedList := useSeedList, useTimeForSeed := useTimeForSeed,
    size := 4, Nc := 3, readMultFromFile := 0, writeOutputsToHDF5 := 0 }

/-- A freshly constructed `Parameters` object with all fields zero. -/
def sampleParam : Parameters :=
  { cfg := sampleConfig 0 0 0, MPIRank := 0, MPISize := 0, eventId := 0, success := 0,
    randomSeed := 0 }

/-- A run on the given rank of `size` workers, with `nev` requested events given
as second argument, the given configuration and seed list. -/
def sampleInput (rank size : Int) (nev : String) (cfg : Config)
    (seedList : Option (List Char)) : Input Nat Nat :=
  { argv := ["ipglasma", "input", nev], rank := rank, size := size, param0 := sampleParam,
    setup := fun _ => cfg, time := 1700000000, seedList := seedList, garbage := fun _ => 77,
    rng0 := 0, ext0 := 0 }

/-! ## The attempt loop seen from outside -/

/-- Success flag that `init->init` leaves when an iteration of the attempt loop
starts in state `s`. -/
def attemptOutcome {R X : Type} (c : Collaborators R X) (s : St R X) : Int :=
  (c.init s.rng s.ext { s.param with success := 0 }).2.2.success

/-- State after an iteration of the attempt loop in which the flag stayed 0. -/
def failStep {R X : Type} (c : Collaborators R X) (s : St R X) : St R X :=
  { rng := (c.init s.rng s.ext { s.param with success := 0 }).1,
    ext := (c.init s.rng s.ext { s.param with success := 0 }).2.1,
    param := (c.init s.rng s.ext { s.param with success := 0 }).2.2,
    nextId := s.nextId + 2 }

/-- State after an iteration of the attempt loop in which the flag was set:
the state `evolution->run` leaves. -/
def successStep {R X : Type} (c : Collaborators R X) (s : St R X) : St R X :=
  { rng := (c.init s.rng s.ext { s.param with success := 0 }).1,
    ext := (c.run (c.init s.rng s.ext { s.param with success := 0 }).2.1
            (c.init s.rng s.ext { s.param with success := 0 }).2.2).1,
    param := (c.run (c.init s.rng s.ext { s.param with success := 0 }).2.1
            (c.init s.rng s.ext { s.param with success := 0 }).2.2).2,
    nextId := s.nextId + 2 }

/-- Actions of an iteration of the attempt loop from state `s` up to and with
the call of `init->init`. -/
def attemptActions {R X : Type} (c : Collaborators R X) (initObj : Nat) (s : St R X) :
    List (Action R) :=
  [Action.construct Obj.lattice s.nextId, Action.construct Obj.bufferLattice (s.nextId + 1),
   Action.initCall initObj s.nextId s.rng
     (c.init s.rng s.ext { s.param with success := 0 }).1 (attemptOutcome c s)]

/-- Actions of an iteration of the attempt loop that fails: allocation, the
call, release of the lattice and of the buffer lattice. -/
def failCycle {R X : Type} (c : Collaborators R X) (initObj : Nat) (s : St R X) :
    List (Action R) :=
  attemptActions c initObj s ++
    [Action.destroy Obj.lattice s.nextId, Action.destroy Obj.bufferLattice (s.nextId + 1)]

/-- Actions that follow a successful call of `init->init` in the same
iteration. -/
def evolveActions {R : Type} (initObj glauberObj lat : Nat) : List (Action R) :=
  [Action.destroy Obj.init initObj, Action.destroy Obj.glauber glauberObj,
   Action.run lat (lat + 1), Action.destroy Obj.bufferLattice (lat + 1),
   Action.destroy Obj.lattice lat]

/-- Actions of an iteration of the attempt loop that succeeds. -/
def successCycle {R X : Type} (c : Collaborators R X) (initObj glauberObj : Nat)
    (s : St R X) : List (Action R) :=
  attemptActions c initObj s ++ evolveActions initObj glauberObj s.nextId

/-- State in which the attempt loop of event `iev` is entered, when the event
starts in state `s`: event id set, success flag reset, five helper objects
created. -/
def loopEntry {R X : Type} (c : Collaborators R X) (rank size iev : Int) (s : St R X) :
    St R X :=
  { rng := s.rng,
    ext :=
      if s.param.cfg.readMultFromFile = 1 then
        c.readNkt
          { s.param with eventId := wrapInt (rank + wrapInt (iev * size)), success := 0 }
          (c.initGlauber
            { s.param with eventId := wrapInt (rank + wrapInt (iev * size)), success := 0 }
            rank s.ext)
      else
        c.initGlauber
          { s.param with eventId := wrapInt (rank + wrapInt (iev * size)), success := 0 }
          rank s.ext,
    param := { s.param with eventId := wrapInt (rank + wrapInt (iev * size)), success := 0 },
    nextId := s.nextId + 5 }

/-- Actions of an event before its attempt loop. -/
def preamble {R X : Type} (rank size iev : Int) (s : St R X) : List (Action R) :=
  [Action.construct Obj.myEigen s.nextId,
   Action.setEventId (wrapInt (rank + wrapInt (iev * size))),
   Action.appendAudit (wrapInt (rank + wrapInt (iev * size))) rank s.param.randomSeed,
   Action.construct Obj.init (s.nextId + 1), Action.construct Obj.group (s.nextId + 2),
   Action.construct Obj.glauber (s.nextId + 3), Action.initGlauber,
   Action.construct Obj.evolution (s.nextId + 4)] ++
    (if s.param.cfg.readMultFromFile = 1 then [Action.readNkt] else [])

/-- The latest call of `init->init` so far: its lattice and the flag it left. -/
def lastInitStep {R : Type} (l : Option (Nat × Int)) : Action R → Option (Nat × Int)
  | Action.initCall _ lat _ _ flag => some (lat, flag)
  | _ => l

/-- Stream states before and after a call of `init->init`. -/
def Action.streamStates {R : Type} : Action R → Option (R × R)
  | Action.initCall _ _ before after _ => some (before, after)
  | _ => none

/-- Stream states before and after each call of `init->init`, in order. -/
def initCalls {R : Type} (tr : List (Action R)) : List (R × R) :=
  tr.filterMap Action.streamStates

/-- Seed written by an audit line. -/
def Action.auditSeed {R : Type} : Action R → Option Nat
  | Action.appendAudit _ _ seed => some seed
  | _ => none

/-- Seeds written by the audit lines, in order. -/
def auditSeeds {R : Type} (tr : List (Action R)) : List Nat :=
  tr.filterMap Action.auditSeed

/-! ## A monitor for the life cycle of the lattice pair -/

/-- State of the monitor: the live lattices and buffer lattices, the latest
call of `init->init`, and the deletions the driver owes next. -/
structure Mon where
  lat : List Nat
  buf : List Nat
  last : Option (Nat × Int)
  owed : List (Obj × Nat)

/-- Deletions owed after an action. -/
def owedStep {R : Type} (m : Mon) : Action R → List (Obj × Nat)
  | Action.initCall _ lat _ _ flag =>
    if flag = 0 then (Obj.lattice, lat) :: m.buf.map (fun b => (Obj.bufferLattice, b))
    else m.owed
  | Action.run lat buf => [(Obj.bufferLattice, buf), (Obj.lattice, lat)]
  | Action.destroy _ _ => m.owed.tail
  | _ => m.owed

/-- Monitor state after an action. -/
def monStep {R : Type} (m : Mon) (a : Action R) : Mon :=
  { lat := liveStep Obj.lattice m.lat a, buf := liveStep Obj.bufferLattice m.buf a,
    last := lastInitStep m.last a, owed := owedStep m a }

/-- Monitor state after a list of actions. -/
def monAfter {R : Type} (m : Mon) (tr : List (Action R)) : Mon := tr.foldl monStep m

/-- What the monitor demands of an action taken in state `m`: an owed deletion
comes first; a lattice is created when no lattice and no buffer lattice is live;
a deletion hits the live object; the initializer is called on the live lattice;
the evolver is called on the live pair, and the latest initializer call was on
that lattice and left a non-zero flag; the barrier is reached with nothing
live; after the action at most one lattice and one buffer lattice are live. -/
def stepOk {R : Type} (m : Mon) (a : Action R) : Prop :=
  (match m.owed with
   | [] => True
   | (o, id) :: _ => a = Action.destroy o id) ∧
  (liveStep Obj.lattice m.lat a).length ≤ 1 ∧
  (liveStep Obj.bufferLattice m.buf a).length ≤ 1 ∧
  (match a with
   | Action.construct Obj.lattice _ => m.lat = [] ∧ m.buf = []
   | Action.construct Obj.bufferLattice _ => m.buf = []
   | Action.destroy Obj.lattice id => m.lat = [id]
   | Action.destroy Obj.bufferLattice id => m.buf = [id]
   | Action.initCall _ lat _ _ _ => m.lat = [lat] ∧ m.buf.length = 1
   | Action.run lat buf =>
     m.lat = [lat] ∧ m.buf = [buf] ∧ ∃ flag, m.last = some (lat, flag) ∧ flag ≠ 0
   | Action.barrier => m.lat = [] ∧ m.buf = []
   | _ => True)

/-- Every action of `tr` is accepted by the monitor started in `m`. -/
def Sound {R : Type} : Mon → List (Action R) → Prop
  | _, [] => True
  | m, a :: tr => stepOk m a ∧ Sound (monStep m a) tr

/-- Monitor states between iterations: nothing live, nothing owed. -/
def Mon.Clean (m : Mon) : Prop := m.lat = [] ∧ m.buf = [] ∧ m.owed = []

/-- Actions that neither create nor delete an object, nor call a stage, nor
reach the barrier. -/
def Action.inert {R : Type} : Action R → Bool
  | Action.construct _ _ => false
  | Action.destroy _ _ => false
  | Action.initCall _ _ _ _ _ => false
  | Action.run _ _ => false
  | Action.barrier => false
  | _ => true

/-- State after `K` failed iterations of the attempt loop entered in `s`. -/
def afterFailures {R X : Type} (c : Collaborators R X) : Nat → St R X → St R X
  | 0, s => s
  | K + 1, s => afterFailures c K (failStep c s)

/-- Actions of `K` failed iterations of the attempt loop entered in `s`. -/
def failCycles {R X : Type} (c : Collaborators R X) (initObj : Nat) :
    Nat → St R X → List (Action R)
  | 0, _ => []
  | K + 1, s => failCycle c initObj s ++ failCycles c initObj K (failStep c s)

/-- The monitor state of a worker that has done nothing yet. -/
def Mon.start : Mon := { lat := [], buf := [], last := none, owed := [] }

/-- Actions of the start-up of `main`: the dump, the seed messages and the
store of the derived seed. -/
def Action.isStartup {R : Type} : Action R → Bool
  | Action.writeDump _ => true
  | Action.logDirect _ => true
  | Action.logTime _ _ _ => true
  | Action.logList _ _ => true
  | Action.setRandomSeed _ => true
  | _ => false

/-- The object `param` as `readInput` leaves it. -/
def loadedParam {R X : Type} (inp : Input R X) : Parameters :=
  { inp.param0 with MPIRank := inp.rank, MPISize := inp.size,
                    cfg := inp.setup (configPath inp.argv) }

/-- The seed stage of the run on input `inp`. -/
def seedOf {R X : Type} (c : Collaborators R X) (inp : Input R X) : SeedStage R :=
  seedStage c inp.rank inp.size inp.time inp.seedList inp.garbage (loadedParam inp) inp.rng0

/-- The event loop of the run on input `inp`, entered with `param` and the
random stream as the seed stage left them. -/
def eventsOf {R X : Type} (c : Collaborators R X) (fuel : Nat) (inp : Input R X)
    (ps : Parameters × R) : LoopResult R X :=
  eventLoop c fuel inp.rank inp.size (requestedEvents inp.argv).toNat 0
    { rng := ps.2, ext := inp.ext0, param := ps.1, nextId := 0 } 0

/-- The stream states of successive initializer calls thread from `r0` to
`r1`: each call starts in the state the previous one left, and leaves a state
that `init->init` returns from its start state. -/
def Threaded {R X : Type} (c : Collaborators R X) : R → List (R × R) → R → Prop
  | r0, [], r1 => r0 = r1
  | r0, call :: rest, r1 =>
    call.1 = r0 ∧ (∃ x p, call.2 = (c.init call.1 x p).1) ∧ Threaded c call.2 rest r1

/-- A worker state at the start of an event: fresh stream, `param` of all
zeros. -/
def sampleState : St Nat Nat := { rng := 0, ext := 0, param := sampleParam, nextId := 0 }

/-- A worker state as an earlier event leaves it: success flag set, ten objects
created so far. -/
def laterState : St Nat Nat :=
  { rng := 4, ext := 0, param := { sampleParam with success := 1 }, nextId := 10 }

/-- A run of one event on the single worker of a direct-seed run with
configured seed 5. -/
def sampleRun : Input Nat Nat := sampleInput 0 1 "1" (sampleConfig 5 0 0) none

/-! ## Audit resources and what the events leave behind -/

/-- A store of text resources: the lines of each named resource, `none` for a
resource that does not exist. -/
def Files : Type := String → Option (List String)

/-- Effect of an action on the `usedParameters` resources.  The dump of
`readInput` is written through a stream opened with `ios::out`: the resource is
created or emptied and then holds the lines `dump` of the dump.  The audit line
is written through a stream opened with `ios::app`: it is added after what the
resource holds, and the resource is created when it does not exist. -/
def writeEffect {R : Type} (dump : List String) (fs : Files) : Action R → Files
  | Action.writeDump e => Function.update fs (auditName e) (some dump)
  | Action.appendAudit e r s =>
    Function.update fs (auditName e) (some ((fs (auditName e)).getD [] ++ [auditLine r s]))
  | _ => fs

/-- The store after the actions `tr`. -/
def filesAfter {R : Type} (dump : List String) (fs : Files) (tr : List (Action R)) : Files :=
  tr.foldl (writeEffect dump) fs

/-- Name of the `usedParameters` resource an action writes. -/
def Action.target {R : Type} : Action R → Option String
  | Action.writeDump e => some (auditName e)
  | Action.appendAudit e _ _ => some (auditName e)
  | _ => none

/-- Names of the `usedParameters` resources written, in order. -/
def written {R : Type} (tr : List (Action R)) : List String := tr.filterMap Action.target

/-- Event id set by an action. -/
def Action.eventIdSet {R : Type} : Action R → Option Int
  | Action.setEventId v => some v
  | _ => none

/-- Event ids set by `param->setEventId`, in order. -/
def eventIds {R : Type} (tr : List (Action R)) : List Int := tr.filterMap Action.eventIdSet

/-- Name of the resource an audit line is appended to. -/
def Action.auditTarget {R : Type} : Action R → Option String
  | Action.appendAudit e _ _ => some (auditName e)
  | _ => none

/-- Names of the resources the audit lines are appended to, in order. -/
def auditTargets {R : Type} (tr : List (Action R)) : List String :=
  tr.filterMap Action.auditTarget

/-- The audit line an action appends. -/
def Action.auditText {R : Type} : Action R → Option String
  | Action.appendAudit _ r s => some (auditLine r s)
  | _ => none

/-- The audit lines appended, in order. -/
def auditTexts {R : Type} (tr : List (Action R)) : List String :=
  tr.filterMap Action.auditText

/-- The event id `rank + iev*size` as the `int` expression of `main` yields it. -/
def eventIdOf (rank size iev : Int) : Int := wrapInt (rank + wrapInt (iev * size))

/-- Steps of the finalizer as seen from outside: the barrier, and a spawned
command. -/
inductive Sync where
  | barrier
  | spawn (cmd : String)
  deriving DecidableEq, Repr

/-- The finalizer step an action is, if any. -/
def Action.sync {R : Type} : Action R → Option Sync
  | Action.barrier => some Sync.barrier
  | Action.system cmd _ => some (Sync.spawn cmd)
  | _ => none

/-- The barrier calls and spawned commands of a trace, in order. -/
def syncs {R : Type} (tr : List (Action R)) : List Sync := tr.filterMap Action.sync

/-- The finalizer steps of `n` events from index `iev` on: the barrier, and with
the export enabled the per-event command with the event id of that index. -/
def eventSyncs (exports : Bool) (rank size : Int) : Nat → Int → List Sync
  | 0, _ => []
  | n + 1, iev =>
    (if exports then [Sync.barrier, Sync.spawn (collectCommand rank (eventIdOf rank size iev))]
     else [Sync.barrier]) ++ eventSyncs exports rank size n (iev + 1)

/-- The collaborators `c` with the status that `system` returns replaced by
`status`; what the spawned program does to the outside is unchanged. -/
def withStatus {R X : Type} (c : Collaborators R X) (status : String → X → Int) :
    Collaborators R X :=
  { c with system := fun cmd x => ((c.system cmd x).1, status cmd x) }

/-- An action with the status of a spawned command blanked. -/
def Action.eraseStatus {R : Type} : Action R → Action R
  | Action.system cmd _ => Action.system cmd 0
  | a => a

/-- The initializer and the evolver write no field of `param` that `main` reads
other than the success flag. -/
def OnlyFlag {R X : Type} (c : Collaborators R X) : Prop :=
  (∀ r x p, (c.init r x p).2.2 = { p with success := (c.init r x p).2.2.success }) ∧
  (∀ x p, (c.run x p).2 = { p with success := (c.run x p).2.success })

/-- A store left by an earlier run of one event on rank 0 with seed 5:
`usedParameters0.dat` holds a dump and the audit line. -/
def earlierStore : Files := fun name =>
  if name = "usedParameters0.dat" then
    some ["File created on an earlier day", "Random seed used on rank 0: 5"]
  else none

/-- The empty store. -/
def emptyStore : Files := fun _ => none

/-- Actions of the body of the event loop. -/
def Action.isEventAction {R : Type} : Action R → Bool
  | Action.setEventId _ => true
  | Action.appendAudit _ _ _ => true
  | Action.construct _ _ => true
  | Action.destroy _ _ => true
  | Action.initGlauber => true
  | Action.readNkt => true
  | Action.initCall _ _ _ _ _ => true
  | Action.run _ _ => true
  | Action.barrier => true
  | Action.system _ _ => true
  | _ => false

/-- The dump of `readInput`. -/
def Action.isDump {R : Type} : Action R → Bool
  | Action.writeDump _ => true
  | _ => false

/-- The end-to-end example of the spec: two requested events on a single worker
with direct seed 5. -/
def twoEventRun : Input Nat Nat := sampleInput 0 1 "2" (sampleConfig 5 0 0) none


/-- The barrier call. -/
def Action.isBarrier {R : Type} : Action R → Bool
  | Action.barrier => true
  | _ => false

/-- A spawned subprocess (a call of `system`). -/
def Action.isSpawn {R : Type} : Action R → Bool
  | Action.system _ _ => true
  | _ => false

/-- The sample configuration with direct seed 5 and the per-event export
enabled. -/
def exportConfig : Config := { sampleConfig 5 0 0 with writeOutputsToHDF5 := 1 }

/-! ## Seed modes -/

/-- The three seed derivations of `main`. -/
inductive SeedMode where
  | direct
  | timeBased
  | seedList
  deriving DecidableEq, Repr

/-- The derivation that a message of the seed stage reports: "entered directly",
"made from time", "read from list". -/
def Action.seedMode {R : Type} : Action R → Option SeedMode
  | Action.logDirect _ => some SeedMode.direct
  | Action.logTime _ _ _ => some SeedMode.timeBased
  | Action.logList _ _ => some SeedMode.seedList
  | _ => none

/-- The derivations a trace reports, in order. -/
def modesApplied {R : Type} (tr : List (Action R)) : List SeedMode :=
  tr.filterMap Action.seedMode

/-- The mode that the specification assigns to a pair of flag values: seed-list
when `useSeedList` is not 0, time-based when `useSeedList` is 0 and
`useTimeForSeed` is 1, direct in every other case. -/
def specSeedMode (useSeedList useTimeForSeed : Int) : SeedMode :=
  if useSeedList ≠ 0 then SeedMode.seedList
  else if useTimeForSeed = 1 then SeedMode.timeBased
  else SeedMode.direct

/-- The seeding call `random->init_genrand64`. -/
def Action.isSeedStream {R : Type} : Action R → Bool
  | Action.seedStream _ => true
  | _ => false

/-- A run of one event on rank 1 of 4 whose seed list cannot be opened. -/
def fatalRun : Input Nat Nat := sampleInput 1 4 "1" (sampleConfig 9 1 0) none

/-! ## Fragmentation functions (`Fragmentation.cpp`) -/

/-- The functions of `<cmath>` that `Fragmentation::kkp` calls. -/
structure Cmath (F : Type) where
  log : F → F
  pow : F → F → F
  sqrt : F → F

/-- The expression that `Fragmentation::kkp` evaluates for a parton, with the
coefficients `b[1..3]`, `a[1..11]` set just before and the evolution variable
`s` (or `sc`, `sb`):
`(b[1] + a[1]*s + a[2]*s*s + a[3]*s*s*s) * pow(x, b[2] + a[4]*s + a[5]*s*s + a[6]*s*s*s)
 * pow(1.-x, b[3] + a[7]*s + a[8]*s*s + a[9]*s*s*s) * (1. + (a[10]*s + a[11]*s*s)/x)`.
The type `double` is idealised as a linear ordered field `F`: rounding,
infinities and NaN are left out. -/
def kkpTerm {F : Type} [LinearOrderedField F] (m : Cmath F)
    (b1 b2 b3 a1 a2 a3 a4 a5 a6 a7 a8 a9 a10 a11 s x : F) : F :=
  (b1 + a1 * s + a2 * s * s + a3 * s * s * s) *
    m.pow x (b2 + a4 * s + a5 * s * s + a6 * s * s * s) *
    m.pow (1 - x) (b3 + a7 * s + a8 * s * s + a9 * s * s * s) *
    (1 + (a10 * s + a11 * s * s) / x)

/-- The fifteen parton fragmentation values `dpg` ... `dprb` that
`Fragmentation::kkp` computes before it selects by `ih`. -/
structure KkpParts (F : Type) where
  dpg : F
  dpu : F
  dps : F
  dpc : F
  dpb : F
  dkg : F
  dku : F
  dkd : F
  dkc : F
  dkb : F
  dprg : F
  dpru : F
  dprs : F
  dprc : F
  dprb : F

/-- The leading-order parametrisations (lines 82-382). -/
def kkpLO {F : Type} [LinearOrderedField F] (m : Cmath F) (s sc sb x : F) : KkpParts F :=
  { dpg :=
      kkpTerm m 6.04510 (-0.71378) 2.92133
        (-6.61523) (-1.64978) 2.68223 0.14705 (-1.08423) (-0.43182)
        1.48429 1.32887 (-1.78696) 0.23086 (-0.29182) s x,
    dpu :=
      kkpTerm m 0.54610 (-1.46616) 1.01864
        (-0.22946) (-0.22594) 0.21119 (-0.45404) (-0.12684) 0.27646
        0.95367 (-1.09835) 0.74657 (-0.01877) 0.02949 s x,
    dps :=
      kkpTerm m 22.2815 0.12732 6.13697
        (-20.8125) (-11.5725) 15.5372 0.23075 (-2.71424) 1.72456
        2.18849 (-5.04475) 3.29117 0.09044 (-0.07589) s x,
    dpc :=
      kkpTerm m 8.75500 (-0.38611) 5.61846
        (-9.32277) 1.80600 2.02179 (-0.41190) (-0.48496) 0.42525
        0.74035 (-0.64929) 0.66788 0.06652 (-0.05531) sc x,
    dpb :=
      kkpTerm m 0.31147 (-1.92993) 3.47086
        (-0.19319) (-0.10487) 0.18824 (-0.44692) (-0.08271) 0.30441
        0.79775 (-0.28091) 0.39504 (-0.04887) 0.03212 sb x,
    dkg :=
      kkpTerm m 0.02862 (-2.94091) 2.73474
        (-0.02113) 0.00389 0.00901 0.66881 (-0.29670) 0.20574
        (-0.58222) 0.04329 0.78033 0.03586 (-0.01220) s x,
    dku :=
      kkpTerm m 0.25937 (-0.61925) 0.85946
        (-0.10502) 0.00572 (-0.00269) 0.09956 0.07389 (-0.00070)
        0.57965 0.26397 (-0.12764) 0.15303 0.14807 s x,
    dkd :=
      kkpTerm m 5.38115 (-0.00321) 3.07632
        (-3.05084) (-1.10056) 1.31207 (-0.25889) (-0.18494) 0.13994
        1.13745 (-0.90413) 0.56581 0.05141 (-0.00697) s x,
    dkc :=
      kkpTerm m 5.18266 (-0.17751) 4.30306
        (-3.48519) (-1.00982) 1.17996 0.02309 (-0.61327) (-0.03532)
        1.00547 (-0.51779) 0.20683 0.13514 (-0.17778) sc x,
    dkb :=
      kkpTerm m 1.57044 (-0.84143) 6.01488
        (-1.78340) 0.57100 0.15469 (-0.43448) (-0.05314) (-0.36621)
        0.72953 (-0.64433) 0.92351 0.01024 (-0.06160) sb x,
    dprg :=
      (0.73953 + (-1.64519) * s + 1.01189 * s * s + (-0.10175) * s * s * s) *
        m.pow x ((-0.76986) + (-3.58787) * s + 13.8025 * s * s + (-13.8902) * s * s * s) *
        m.pow (1 - x) (7.69079 + (-2.84470) * s + (-0.36719) * s * s + (-2.21825) * s * s * s) *
        (1 + (1.26515 * s + (-1.96117) * s * s + 0.54769 * s * s * s) / x),
    dpru :=
      kkpTerm m 0.40211 (-0.85973) 2.80160
        (-0.21633) (-0.07045) 0.07831 0.13987 (-0.82412) 0.43114
        0.78923 (-0.05344) 0.01460 0.05198 (-0.04623) s x,
    dprs :=
      kkpTerm m 4.07885 (-0.09735) 4.99191
        (-2.97392) (-0.92973) 1.23517 0.25834 (-1.52246) 0.77060
        1.14379 (-0.85320) 0.45607 0.07174 (-0.08321) s x,
    dprc :=
      kkpTerm m 0.11061 (-1.54340) 2.20681
        (-0.07726) 0.05422 (-0.03364) (-0.20804) 0.29038 (-0.23662)
        0.62274 0.29713 (-0.21861) 0.00831 0.00065 sc x,
    dprb :=
      kkpTerm m 40.0971 0.74249 12.3729
        (-123.531) 128.666 (-29.1808) (-1.29639) (-3.65003) 3.05340
        (-1.04932) 0.34662 (-1.34412) (-0.04290) (-0.30359) sb x }

/-- The next-to-leading-order parametrisations (lines 393-697). -/
def kkpNLO {F : Type} [LinearOrderedField F] (m : Cmath F) (s sc sb x : F) : KkpParts F :=
  { dpg :=
      kkpTerm m 3.73331 (-0.74159) 2.33092
        (-3.16946) (-0.47683) 0.70270 (-0.51377) (-0.19705) (-0.17917)
        2.03394 (-0.50764) (-0.08565) 0.09466 (-0.10222) s x,
    dpu :=
      kkpTerm m 0.44809 (-1.47598) 0.91338
        (-0.13828) (-0.06951) 0.01354 (-0.30498) (-0.01863) (-0.12529)
        0.64145 0.07270 (-0.16989) 0.07396 (-0.07757) s x,
    dps :=
      kkpTerm m 16.5987 0.13345 5.89903
        (-18.3856) 2.44225 2.13225 0.22712 (-0.83625) 0.38526
        (-0.16911) 0.59886 (-0.25630) (-0.18619) 0.87362 s x,
    dpc :=
      kkpTerm m 6.17173 (-0.53618) 5.60108
        (-4.82450) (-1.30844) 1.95527 (-0.27879) (-0.51337) 0.10900
        0.83571 (-1.15141) 0.77027 0.09268 (-0.11267) sc x,
    dpb :=
      kkpTerm m 0.25944 (-1.98713) 3.52857
        (-0.11449) 0.03733 (-0.18028) (-0.35858) 0.22277 (-0.66413)
        0.72303 0.46260 (-0.99235) (-0.02701) (-0.02089) sb x,
    dkg :=
      kkpTerm m 0.23140 (-1.36400) 1.79761
        (-0.33644) 0.16204 (-0.02598) 0.97182 (-0.02908) (-0.43195)
        1.57116 0.71847 (-0.68331) 0.36906 2.39060 s x,
    dku :=
      kkpTerm m 0.17806 (-0.53733) 0.75940
        (-0.10988) (-0.02524) 0.03142 (-0.60058) 0.07863 0.13276
        0.61356 (-0.43886) 0.23942 0.10742 0.12800 s x,
    dkd :=
      kkpTerm m 4.96269 0.05562 2.79926
        1.54098 (-9.06376) 4.94791 1.88660 (-2.94350) 1.04227
        3.02991 (-4.14807) 1.91494 0.85450 (-0.61016) s x,
    dkc :=
      kkpTerm m 4.25954 (-0.24144) 4.21265
        (-5.44309) 6.11031 (-3.13973) (-1.07757) 1.52364 (-0.74308)
        0.25590 0.98423 (-0.52839) (-0.04000) 0.08695 sc x,
    dkb :=
      kkpTerm m 1.32443 (-0.88351) 6.15221
        (-1.41156) (-0.04809) 0.79066 (-0.44818) (-0.60073) 0.45526
        0.46679 (-0.50792) 0.67006 (-0.00477) (-0.05503) sb x,
    dprg :=
      kkpTerm m 1.56255 0.01567 3.57583
        (-1.48158) (-0.39439) 0.51249 (-2.16232) 2.47127 (-0.93259)
        3.33958 (-3.05265) 1.21042 (-0.84816) 1.23583 s x,
    dpru :=
      kkpTerm m 1.25946 0.07124 4.12795
        (-1.17505) 0.37550 (-0.01416) (-0.29533) (-0.24540) 0.16543
        0.98867 (-0.46846) 0.20750 0.18957 (-0.01116) s x,
    dprs :=
      kkpTerm m 4.01135 0.17258 5.20766
        8.67124 (-22.7888) 11.4720 4.57608 (-9.64835) 4.61792
        7.25144 (-12.6313) 6.07314 0.16931 (-0.09541) s x,
    dprc :=
      kkpTerm m 0.08250 (-1.61290) 2.01255
        (-0.04512) (-0.00565) 0.00900 (-0.38012) (-0.06840) 0.08888
        0.63782 (-0.14146) 0.06083 (-0.02958) 0.01130 sc x,
    dprb :=
      kkpTerm m 24.2916 0.57939 12.1207
        (-88.3524) 93.1056 (-17.4089) (-0.80783) (-5.07200) (-2.45377)
        (-3.27370) 1.21188 (-5.50374) 0.14628 (-0.78634) sb x }

/-- The evolution variable `log(log(qs*qs/(rlam*rlam))/log(q*q/(rlam*rlam)))`
for the reference scale `q` (`q0`, `rmcc` or `rmbb`). -/
def kkpScale {F : Type} [LinearOrderedField F] (m : Cmath F) (rlam q qs : F) : F :=
  m.log (m.log (qs * qs / (rlam * rlam)) / m.log (q * q / (rlam * rlam)))

/-- The array `dh[0..10]` that the selector `ih` fills from the parton values
(lines 717-814), with `dpd`, `dks`, `dprd` as set at lines 702-704. -/
def kkpSelect {F : Type} [LinearOrderedField F] (ih : Int)
    (dpg dpu dps dpc dpb dkg dku dkd dkc dkb dprg dpru dprs dprc dprb : F) : List F :=
  let dpd := dpu
  let dks := dku
  let dprd := 0.5 * dpru
  if ih = 1 then
    [dpg / 2, dpu / 2, dpu / 2, dpd / 2, dpd / 2, dps / 2, dps / 2, dpc / 2, dpc / 2,
     dpb / 2, dpb / 2]
  else if ih = 2 then
    [dkg / 2, dku / 2, dku / 2, dkd / 2, dkd / 2, dks / 2, dks / 2, dkc / 2, dkc / 2,
     dkb / 2, dkb / 2]
  else if ih = 3 then
    [dkg / 2, dkd / 2, dkd / 2, dku / 2, dku / 2, dks / 2, dks / 2, dkc / 2, dkc / 2,
     dkb / 2, dkb / 2]
  else if ih = 4 then
    [dprg / 2, dpru / 2, dpru / 2, dprd / 2, dprd / 2, dprs / 2, dprs / 2, dprc / 2,
     dprc / 2, dprb / 2, dprb / 2]
  else if ih = 5 then
    [dpg / 2, dpu / 2, dpu / 2, dpd / 2, dpd / 2, dps / 2, dps / 2, dpc / 2, dpc / 2,
     dpb / 2, dpb / 2]
  else if ih = 6 then
    [dprg / 2, dpru / 4, dpru / 4, dprd, dprd, dprs / 2, dprs / 2, dprc / 2, dprc / 2,
     dprb / 2, dprb / 2]
  else
    [dpg + dkg + dprg, dpu + dku + dpru, dpu + dku + dpru, dpd + dkd + dprd,
     dpd + dkd + dprd, dps + dks + dprs, dps + dks + dprs, dpc + dkc + dprc,
     dpc + dkc + dprc, dpb + dkb + dprb, dpb + dkb + dprb]

/-- What a call of `Fragmentation::kkp` leaves: the lines written to `cerr` and
the array `dh`. -/
structure KkpRun (F : Type) where
  cerr : List String
  dh : List F

/-- The body of `Fragmentation::kkp` with the mass thresholds `rmcc`, `rmbb` as
parameters: the scale is raised to `q0 = sqrt(2.)`; `iset == 0` takes the
leading-order set with `rlam = 0.088`, every other `iset` the next-to-leading
set with `rlam = 0.213`, after a message on `cerr` when `iset != 1`; the bottom
and charm values are zeroed below their thresholds; `dh` is filled by `ih`. -/
def kkpRun {F : Type} [LinearOrderedField F] (m : Cmath F) (rmcc rmbb : F) (ih iset : Int)
    (x qs : F) : KkpRun F :=
  let q0 := m.sqrt 2
  let qs := if qs < q0 then q0 else qs
  let cerr : List String :=
    if iset = 0 then []
    else if iset ≠ 1 then ["ERROR [Fragmentation::kkp]: iset must be 0 (LO) or 1 (NLO)"]
    else []
  let p : KkpParts F :=
    if iset = 0 then
      kkpLO m (kkpScale m 0.088 q0 qs) (kkpScale m 0.088 rmcc qs) (kkpScale m 0.088 rmbb qs) x
    else
      kkpNLO m (kkpScale m 0.213 q0 qs) (kkpScale m 0.213 rmcc qs) (kkpScale m 0.213 rmbb qs) x
  let dpb := if qs < rmbb then 0 else p.dpb
  let dkb := if qs < rmbb then 0 else p.dkb
  let dprb := if qs < rmbb then 0 else p.dprb
  let dpc := if qs < rmcc then 0 else p.dpc
  let dkc := if qs < rmcc then 0 else p.dkc
  let dprc := if qs < rmcc then 0 else p.dprc
  { cerr := cerr,
    dh := kkpSelect ih p.dpg p.dpu p.dps dpc dpb p.dkg p.dku p.dkd dkc dkb p.dprg p.dpru
      p.dprs dprc dprb }

/-- Function `Fragmentation::kkp`: the gluon part `dh[0]`, with the thresholds
`rmcc = 2.9788` and `rmbb = 9.46037`. -/
def kkp {F : Type} [LinearOrderedField F] (m : Cmath F) (ih iset : Int) (x qs : F) : F :=
  (kkpRun m 2.9788 9.46037 ih iset x qs).dh.getD 0 0

/-- The lines a call of `Fragmentation::kkp` writes to `cerr`. -/
def kkpCerr {F : Type} [LinearOrderedField F] (m : Cmath F) (ih iset : Int) (x qs : F) :
    List String :=
  (kkpRun m 2.9788 9.46037 ih iset x qs).cerr

/-! ## Workers and the barrier -/

/-- Stages of an event as seen from outside: the event id is set, the evolver
has run, the barrier call, a spawned command. -/
inductive Phase where
  | start (eventId : Int)
  | evolved
  | barrier
  | spawn (cmd : String)
  deriving DecidableEq, Repr

/-- The stage an action marks, if any. -/
def Action.phase {R : Type} : Action R → Option Phase
  | Action.setEventId e => some (Phase.start e)
  | Action.run _ _ => some Phase.evolved
  | Action.barrier => some Phase.barrier
  | Action.system cmd _ => some (Phase.spawn cmd)
  | _ => none

/-- The stages of a trace, in order. -/
def phases {R : Type} (tr : List (Action R)) : List Phase := tr.filterMap Action.phase

/-- The stages of `n` events from index `iev` on, as the specification has
them: for each event its id is set, the evolver runs (at least once), then
comes the barrier, then at most one spawned command, the per-event export. -/
def EventPhases (rank size : Int) : Nat → Int → List Phase → Prop
  | 0, _, l => l = []
  | n + 1, iev, l =>
    ∃ (r : Nat) (cmds : List Phase) (rest : List Phase),
      1 ≤ r ∧
      (cmds = [] ∨ ∃ cmd, cmds = [Phase.spawn cmd]) ∧
      l = Phase.start (eventIdOf rank size iev) :: List.replicate r Phase.evolved ++
        Phase.barrier :: cmds ++ rest ∧
      EventPhases rank size n (iev + 1) rest

/-- Barrier calls among the first `p` actions of a trace: the barriers a worker
standing at position `p` has passed. -/
def barriersPassed {R : Type} (tr : List (Action R)) (p : Nat) : Nat :=
  (tr.take p).countP Action.isBarrier

/-- Barrier calls a worker standing at position `p` has reached: those passed,
and the one it stands at, if it stands at one. -/
def barriersReached {R : Type} (tr : List (Action R)) (p : Nat) : Nat :=
  (tr.take (p + 1)).countP Action.isBarrier

/-- Modelled from the spec: the workers run independently and meet only at
`MPI_Barrier`, which blocks a worker until every other worker has reached it.
Worker `w`, standing at position `pos[w]` of its trace, may perform its next
action unless that action is a barrier call which some worker has not reached:
the `k`-th barrier call of a worker is passed only when every worker has made
its `k`-th barrier call. -/
def mayStep {R : Type} (traces : List (List (Action R))) (pos : List Nat) (w : Nat) : Bool :=
  match (traces.getD w [])[pos.getD w 0]? with
  | none => false
  | some a =>
    if a.isBarrier then
      (List.range traces.length).all fun v =>
        decide (barriersPassed (traces.getD w []) (pos.getD w 0) + 1 ≤
          barriersReached (traces.getD v []) (pos.getD v 0))
    else true

/-- One step of worker `w`, when it may step. -/
def stepWorker {R : Type} (traces : List (List (Action R))) (pos : List Nat) (w : Nat) :
    Option (List Nat) :=
  if mayStep traces pos w then some (pos.set w (pos.getD w 0 + 1)) else none

/-- The positions after the workers step in the order of the schedule; `none`
when the schedule asks a worker to step that may not. -/
def runSchedule {R : Type} (traces : List (List (Action R))) :
    List Nat → List Nat → Option (List Nat)
  | [], pos => some pos
  | w :: ws, pos =>
    match stepWorker traces pos w with
    | none => none
    | some pos2 => runSchedule traces ws pos2

/-- The traces of the workers of a run, one input per worker. -/
def workerTraces {R X : Type} (c : Collaborators R X) (fuel : Nat) (inputs : List (Input R X)) :
    List (List (Action R)) :=
  inputs.map (fun inp => (main c fuel inp).trace)

/-- A run of one event on two workers with the per-event export enabled: the
inputs of rank 0 and rank 1. -/
def raceInputs : List (Input Nat Nat) :=
  [sampleInput 0 2 "1" exportConfig none, sampleInput 1 2 "1" exportConfig none]

/-- No worker has passed a barrier that some worker has not reached. -/
def Aligned {R : Type} (traces : List (List (Action R))) (pos : List Nat) : Prop :=
  pos.length = traces.length ∧
  ∀ w v, w < traces.length → v < traces.length →
    barriersPassed (traces.getD w []) (pos.getD w 0) ≤
      barriersReached (traces.getD v []) (pos.getD v 0)

/-! ## Lemmas on machine arithmetic -/

theorem rankOffset_in_range (r : Int) (h0 : 0 ≤ r) (h1 : r * 1000 ≤ INT_MAX) :
    toULL (rankOffset r) = r.toNat * 1000 := by
  unfold INT_MAX at h1
  have hw : rankOffset r = r * 1000 := by
    unfold rankOffset wrapInt
    rw [Int.emod_eq_of_lt (by omega) (by omega)]
    omega
  rw [hw]
  unfold toULL
  rw [Int.emod_eq_of_lt (by omega) (by omega)]
  omega

theorem addULL_mod_left (a b : Nat) : addULL (a % ULLMOD) b = (a + b) % 2 ^ 64 := by
  unfold addULL ULLMOD
  omega

/-! ## Lemmas on the loops -/

theorem attemptLoop_done {R X : Type} (c : Collaborators R X) (i g fuel : Nat) (s : St R X)
    (h : s.param.success ≠ 0) : attemptLoop c i g fuel s = (true, [], s) := by
  unfold attemptLoop
  simp [h]

theorem attemptLoop_zero {R X : Type} (c : Collaborators R X) (i g : Nat) (s : St R X)
    (h : s.param.success = 0) : attemptLoop c i g 0 s = (false, [], s) := by
  unfold attemptLoop
  simp [h]

theorem attemptLoop_noSeeding {R X : Type} (c : Collaborators R X) (i g : Nat) :
    ∀ (fuel : Nat) (s : St R X), ∀ a ∈ (attemptLoop c i g fuel s).2.1,
      Action.isSeeding a = false := by
  intro fuel
  induction fuel with
  | zero =>
    intro s a ha
    unfold attemptLoop at ha
    split at ha <;> simp at ha
  | succ n ih =>
    intro s a ha
    unfold attemptLoop at ha
    split at ha
    · simp only at ha
      split at ha
      · simp only [List.mem_append, List.mem_cons] at ha
        rcases ha with ((h | h | h | h) | (h | h | h)) | h
        all_goals first | (subst h; rfl) | exact ih _ a h | simp at h
      · simp only [List.mem_append, List.mem_cons] at ha
        rcases ha with (h | h | h | h) | (h | h | h | h | h | h)
        all_goals first | (subst h; rfl) | simp at h
    · simp at ha
theorem eventHead_noSeeding {R X : Type} (c : Collaborators R X) (fuel : Nat)
    (rank size iev : Int) (s : St R X) :
    ∀ a ∈ (eventHead c fuel rank size iev s).2.1, Action.isSeeding a = false := by
  intro a ha
  unfold eventHead at ha
  simp only [List.mem_append, List.mem_cons] at ha
  rcases ha with ((h | h | h | h | h | h | h | h | h) | h) | h
  all_goals first | (subst h; rfl) | exact attemptLoop_noSeeding c _ _ _ _ a h | skip
  · simp at h
  · split at h
    · simp only [List.mem_singleton] at h
      subst h; rfl
    · simp at h

theorem eventTail_noSeeding {R X : Type} (c : Collaborators R X) (rank : Int) (first : Nat)
    (s : St R X) (h5Flag : Int) :
    ∀ a ∈ (eventTail c rank first s h5Flag).1, Action.isSeeding a = false := by
  intro a ha
  unfold eventTail at ha
  split at ha
  · simp only [List.mem_append, List.mem_cons] at ha
    rcases ha with (h | h | h) | (h | h | h | h)
    all_goals first | (subst h; rfl) | simp at h
  · simp only [List.mem_append, List.mem_cons] at ha
    rcases ha with (h | h) | (h | h | h | h)
    all_goals first | (subst h; rfl) | simp at h

theorem eventLoop_noSeeding {R X : Type} (c : Collaborators R X) (fuel : Nat)
    (rank size : Int) :
    ∀ (n : Nat) (iev : Int) (s : St R X) (h5Flag : Int),
      ∀ a ∈ (eventLoop c fuel rank size n iev s h5Flag).trace, Action.isSeeding a = false := by
  intro n
  induction n with
  | zero =>
    intro iev s h5Flag a ha
    simp [eventLoop] at ha
  | succ n ih =>
    intro iev s h5Flag a ha
    unfold eventLoop at ha
    simp only at ha
    split at ha
    · simp only [List.mem_append] at ha
      rcases ha with (h | h) | h
      · exact eventHead_noSeeding c fuel rank size iev s a h
      · exact eventTail_noSeeding c rank _ _ _ a h
      · exact ih _ _ _ a h
    · exact eventHead_noSeeding c fuel rank size iev s a ha

/-- Everything `main` does after the seed stage: the event loop, the run-level
merge and the finalize call. -/
theorem main_trace_split {R X : Type} (c : Collaborators R X) (fuel : Nat) (inp : Input R X) :
    ∃ rest : List (Action R),
      (main c fuel inp).trace =
        [Action.writeDump inp.param0.eventId] ++
          (seedStage c inp.rank inp.size inp.time inp.seedList inp.garbage
            { inp.param0 with MPIRank := inp.rank, MPISize := inp.size,
                              cfg := inp.setup (configPath inp.argv) } inp.rng0).trace ++ rest ∧
      ∀ a ∈ rest, Action.isSeeding a = false := by
  unfold main
  simp only [readInput]
  split
  · exact ⟨[], by simp, by simp⟩
  · split
    · split
      · refine ⟨_, by rw [List.append_assoc], ?_⟩
        intro a ha
        simp only [List.mem_append, List.mem_cons] at ha
        rcases ha with h | h | h | h
        · exact eventLoop_noSeeding c fuel _ _ _ _ _ _ a h
        · subst h; rfl
        · subst h; rfl
        · simp at h
      · refine ⟨_, by rw [List.append_assoc], ?_⟩
        intro a ha
        simp only [List.mem_append, List.mem_cons] at ha
        rcases ha with h | h | h
        · exact eventLoop_noSeeding c fuel _ _ _ _ _ _ a h
        · subst h; rfl
        · simp at h
    · exact ⟨_, rfl, fun a ha => eventLoop_noSeeding c fuel _ _ _ _ _ _ a ha⟩
/-! ## Lemmas on reading the seed list -/

theorem isSpace_of_isDigit (c : Char) (h : isDigit c = true) : isSpace c = false := by
  unfold isDigit at h
  unfold isSpace
  simp only [Bool.and_eq_true, decide_eq_true_eq] at h
  simp only [Bool.or_eq_false_iff, decide_eq_false_iff_not, Bool.and_eq_false_iff]
  omega

theorem not_sign_of_isDigit (c : Char) (h : isDigit c = true) :
    c ≠ Char.ofNat 45 ∧ c ≠ Char.ofNat 43 := by
  constructor
  · intro hc
    subst hc
    revert h
    decide
  · intro hc
    subst hc
    revert h
    decide

theorem takeDigits_numeral (l : List Char) (hl : ∀ c ∈ l, isDigit c = true) (more : List Char)
    (hmore : ∀ d ∈ more.head?, isDigit d = false) :
    ∀ (acc n : Nat), takeDigits (l ++ more) acc n =
      (l.foldl (fun a c => a * 10 + digitVal c) acc, n + l.length, more) := by
  induction l with
  | nil =>
    intro acc n
    cases more with
    | nil => simp [takeDigits]
    | cons d ds =>
      have hd : isDigit d = false := hmore d (by simp)
      simp [takeDigits, hd]
  | cons c cs ih =>
    intro acc n
    have hc : isDigit c = true := hl c (by simp)
    have hcs : ∀ x ∈ cs, isDigit x = true := fun x hx => hl x (by simp [hx])
    simp only [List.cons_append, takeDigits, hc, if_true, List.foldl_cons, List.length_cons]
    have happ : cs.append more = cs ++ more := rfl
    rw [happ, ih hcs]
    simp only [Prod.mk.injEq, and_true, true_and]
    omega

theorem extractULL_numeral (ws l more : List Char) (old : Nat)
    (hws : ws = [] ∨ ws = [Char.ofNat 10]) (hl : IsNumeral l) (hv : numeralVal l < ULLMOD)
    (hmore : ∀ d ∈ more.head?, isDigit d = false) :
    IStream.extractULL { rest := ws ++ (l ++ more), eofbit := false, failbit := false } old =
      ({ rest := more, eofbit := more.isEmpty, failbit := false }, numeralVal l) := by
  obtain ⟨hne, hdig⟩ := hl
  cases l with
  | nil => exact absurd rfl hne
  | cons c cs =>
    have hc : isDigit c = true := hdig c (by simp)
    have hsp : isSpace c = false := isSpace_of_isDigit c hc
    have hskip : skipSpace (ws ++ (c :: cs ++ more)) = c :: (cs ++ more) := by
      rcases hws with h | h
      · subst h
        simp [skipSpace, hsp]
      · subst h
        have : isSpace (Char.ofNat 10) = true := by decide
        simp [skipSpace, hsp, this]
    obtain ⟨hm, hp⟩ := not_sign_of_isDigit c hc
    have htd := takeDigits_numeral (c :: cs) hdig more hmore 0 0
    have hcons : c :: (cs ++ more) = (c :: cs) ++ more := rfl
    unfold IStream.extractULL
    simp only [Bool.or_self, Bool.false_eq_true, if_false, hskip]
    simp only [hm, hp, decide_False, Bool.or_self, Bool.false_eq_true, if_false, hcons, htd]
    have hlen : ¬ (0 + (c :: cs).length = 0) := by simp
    have hlt : ¬ (ULLMOD ≤ List.foldl (fun a c => a * 10 + digitVal c) 0 (c :: cs)) := by
      unfold numeralVal at hv
      omega
    simp only [hlen, hlt, if_false]
    rfl
theorem seedListText_cons (l : List Char) (rest : List (List Char)) (trailing : Bool) :
    ∃ more : List Char, seedListText (l :: rest) trailing = l ++ more ∧
      (∀ d ∈ more.head?, isDigit d = false) ∧
      (∀ l2 rest2, rest = l2 :: rest2 →
        more = [Char.ofNat 10] ++ seedListText (l2 :: rest2) trailing) := by
  cases rest with
  | nil =>
    cases trailing with
    | false => exact ⟨[], by simp [seedListText], by simp, by simp⟩
    | true =>
      refine ⟨[Char.ofNat 10], by simp [seedListText], ?_, by simp⟩
      intro d hd
      simp only [List.head?_cons, Option.mem_def, Option.some.injEq] at hd
      subst hd
      decide
  | cons l2 rest2 =>
    refine ⟨[Char.ofNat 10] ++ seedListText (l2 :: rest2) trailing, ?_, ?_, ?_⟩
    · simp [seedListText]
    · intro d hd
      simp only [List.singleton_append, List.head?_cons, Option.mem_def,
        Option.some.injEq] at hd
      subst hd
      decide
    · intro a b hab
      simp only [List.cons.injEq] at hab
      obtain ⟨h1, h2⟩ := hab
      subst h1
      subst h2
      rfl

theorem readSeedLoop_lines (trailing : Bool) :
    ∀ (n : Nat) (ls : List (List Char)) (i : Nat) (a : Nat → Nat) (ws : List Char),
      n + 1 ≤ ls.length → (∀ l ∈ ls, IsNumeral l ∧ numeralVal l < ULLMOD) →
      (ws = [] ∨ ws = [Char.ofNat 10]) →
      ∃ (s' : IStream) (a' : Nat → Nat),
        readSeedLoop (n + 1) i
          { rest := ws ++ seedListText ls trailing, eofbit := false, failbit := false } a
          = some (s', a') ∧
        ∀ k, a' k = if i ≤ k ∧ k < i + (n + 1) then numeralVal (ls.getD (k - i) []) else a k := by
  intro n
  induction n with
  | zero =>
    intro ls i a ws hlen hnum hws
    cases ls with
    | nil => simp at hlen
    | cons l rest =>
      obtain ⟨more, htext, hhead, _⟩ := seedListText_cons l rest trailing
      have hl := hnum l (by simp)
      have hx := extractULL_numeral ws l more (a i) hws hl.1 hl.2 hhead
      refine ⟨{ rest := more, eofbit := more.isEmpty, failbit := false },
        Function.update a i (numeralVal l), ?_, ?_⟩
      · simp only [readSeedLoop, IStream.eof, Bool.not_false, if_true, htext, hx]
      · intro k
        by_cases hk : k = i
        · subst hk
          simp
        · rw [Function.update_noteq hk]
          have : ¬ (i ≤ k ∧ k < i + (0 + 1)) := by omega
          simp [this]
  | succ n ih =>
    intro ls i a ws hlen hnum hws
    cases ls with
    | nil => simp at hlen
    | cons l rest =>
      cases rest with
      | nil => simp at hlen
      | cons l2 rest2 =>
        obtain ⟨more, htext, hhead, hmore⟩ := seedListText_cons l (l2 :: rest2) trailing
        have hl := hnum l (by simp)
        have hx := extractULL_numeral ws l more (a i) hws hl.1 hl.2 hhead
        have hm := hmore l2 rest2 rfl
        have hlen2 : n + 1 ≤ (l2 :: rest2).length := by
          simp only [List.length_cons] at hlen ⊢
          omega
        have hnum2 : ∀ x ∈ l2 :: rest2, IsNumeral x ∧ numeralVal x < ULLMOD :=
          fun x hx2 => hnum x (List.mem_cons_of_mem _ hx2)
        obtain ⟨s', a', hrun, hval⟩ :=
          ih (l2 :: rest2) (i + 1) (Function.update a i (numeralVal l)) [Char.ofNat 10]
            hlen2 hnum2 (Or.inr rfl)
        refine ⟨s', a', ?_, ?_⟩
        · rw [readSeedLoop]
          simp only [IStream.eof, Bool.not_false, if_true, htext, hx]
          rw [hm]
          simpa using hrun
        · intro k
          rw [hval k]
          by_cases hk : k = i
          · subst hk
            have : ¬ (k + 1 ≤ k ∧ k < k + 1 + (n + 1)) := by omega
            simp [this]
          · rw [Function.update_noteq hk]
            by_cases hlt : i + 1 ≤ k ∧ k < i + 1 + (n + 1)
            · have h2 : i ≤ k ∧ k < i + (n + 1 + 1) := by omega
              have h3 : k - i = (k - (i + 1)) + 1 := by omega
              simp only [hlt, h2, and_self, if_true]
              rw [h3]
              simp
            · have h2 : ¬ (i ≤ k ∧ k < i + (n + 1 + 1)) := by omega
              simp [hlt, h2]
/-! ## Seed derivation: the claims -/

/-- C1 (as stated, refuted): on rank 2147484 the `int` product `rank*1000`
leaves the range of `int`; with configured seed 5 the value stored and passed to
the seeding call is 18446744071562068325, not (5 + 2147484*1000) mod 2^64. -/
theorem direct_seed_rank_overflow :
    (main (retryCollab 0) 1
        (sampleInput 2147484 2147485 "0" (sampleConfig 5 0 0) none)).trace =
      [Action.writeDump 0, Action.logDirect 18446744071562068325,
       Action.setRandomSeed 18446744071562068325, Action.seedStream 18446744071562068325,
       Action.finalize] ∧
    (18446744071562068325 : Nat) ≠ (5 + 2147484 * 1000) % 2 ^ 64 := by
  constructor
  · decide
  · decide

/-- C1 (amended): in direct mode (`useSeedList = 0`, `useTimeForSeed != 1`), for
every configured seed `S` and every worker id `r` with `0 <= r` and `r*1000`
within `int`, the run starts with the parameter dump, then logs, stores and
passes to the seeding call the one value `(S + r*1000) mod 2^64`; nothing the
worker does afterwards, in any event, stores or installs a seed again. -/
theorem direct_seed_derivation {R X : Type} (c : Collaborators R X) (fuel : Nat)
    (inp : Input R X)
    (hlist : (inp.setup (configPath inp.argv)).useSeedList = 0)
    (htime : (inp.setup (configPath inp.argv)).useTimeForSeed ≠ 1)
    (h0 : 0 ≤ inp.rank) (h1 : inp.rank * 1000 ≤ INT_MAX) :
    ∃ rest : List (Action R),
      (main c fuel inp).trace =
        [Action.writeDump inp.param0.eventId,
         Action.logDirect
           (((inp.setup (configPath inp.argv)).seed + inp.rank.toNat * 1000) % 2 ^ 64),
         Action.setRandomSeed
           (((inp.setup (configPath inp.argv)).seed + inp.rank.toNat * 1000) % 2 ^ 64),
         Action.seedStream
           (((inp.setup (configPath inp.argv)).seed + inp.rank.toNat * 1000) % 2 ^ 64)] ++ rest ∧
      ∀ a ∈ rest, Action.isSeeding a = false := by
  obtain ⟨rest, htr, hrest⟩ := main_trace_split c fuel inp
  refine ⟨rest, ?_, hrest⟩
  rw [htr]
  unfold seedStage
  simp only [hlist, htime, if_true, if_false, rankOffset_in_range inp.rank h0 h1,
    addULL_mod_left]
  rfl

/-- Witness for `direct_seed_derivation`: rank 3, configured seed 5, two events. -/
theorem direct_seed_derivation_witness :
    ∃ rest : List (Action Nat),
      (main (retryCollab 1) 4 (sampleInput 3 4 "2" (sampleConfig 5 0 0) none)).trace =
        [Action.writeDump 0, Action.logDirect 3005, Action.setRandomSeed 3005,
         Action.seedStream 3005] ++ rest ∧
      ∀ a ∈ rest, Action.isSeeding a = false :=
  direct_seed_derivation (retryCollab 1) 4 (sampleInput 3 4 "2" (sampleConfig 5 0 0) none)
    (by decide) (by decide) (by decide) (by decide)

/-- C2: in seed-list mode, when the seed list holds at least `size` numerals of
64-bit range, one per line (the last line with or without a newline), worker
`rank` with `0 <= rank < size` stores the entry at index `rank` as its seed and
seeds the random stream with it. -/
theorem seed_list_entry {R X : Type} (c : Collaborators R X) (rank size time : Int)
    (lines : List (List Char)) (trailing : Bool) (garbage : Nat → Nat) (param : Parameters)
    (rng : R) (hmode : param.cfg.useSeedList ≠ 0) (h0 : 0 ≤ rank) (h1 : rank < size)
    (hlen : size.toNat ≤ lines.length)
    (hnum : ∀ l ∈ lines, IsNumeral l ∧ numeralVal l < 2 ^ 64) :
    seedStage c rank size time (some (seedListText lines trailing)) garbage param rng =
      { trace := [Action.setRandomSeed (numeralVal (lines.getD rank.toNat [])),
                  Action.seedStream (numeralVal (lines.getD rank.toNat [])),
                  Action.logList rank (numeralVal (lines.getD rank.toNat []))],
        result := some ({ param with randomSeed := numeralVal (lines.getD rank.toNat []) },
                        c.init_genrand64 (numeralVal (lines.getD rank.toNat [])) rng) } := by
  obtain ⟨n, hn⟩ : ∃ n, size.toNat = n + 1 := ⟨size.toNat - 1, by omega⟩
  obtain ⟨s', a', hrun, hval⟩ :=
    readSeedLoop_lines trailing n lines 0 garbage [] (by omega) hnum (Or.inl rfl)
  have hidx : a' rank.toNat = numeralVal (lines.getD rank.toNat []) := by
    rw [hval]
    have hin : 0 ≤ rank.toNat ∧ rank.toNat < 0 + (n + 1) := by omega
    rw [if_pos hin, Nat.sub_zero]
  unfold seedStage
  simp only [hmode, if_false, IStream.opened, hn]
  simp only [List.nil_append] at hrun
  rw [hrun]
  simp only [hidx]

/-- Witness for `seed_list_entry`, the example of the spec: four workers and the
entries 10, 20, 30, 40; worker 2 derives seed 30. -/
theorem seed_list_entry_witness :
    seedStage (retryCollab 0) 2 4 0 (some "10\n20\n30\n40".data) (fun _ => 77)
        { sampleParam with cfg := sampleConfig 0 1 0 } (0 : Nat) =
      { trace := [Action.setRandomSeed 30, Action.seedStream 30, Action.logList 2 30],
        result := some ({ sampleParam with cfg := sampleConfig 0 1 0, randomSeed := 30 }, 0) } :=
  seed_list_entry (retryCollab 0) 2 4 0 ["10".data, "20".data, "30".data, "40".data] false
    (fun _ => 77) { sampleParam with cfg := sampleConfig 0 1 0 } 0
    (by decide) (by decide) (by decide) (by decide) (by decide)
/-- C3 (failing inputs): with `useSeedList = 1` the guard `!fin.eof()` is read
before each extraction, so a list that is one entry short and ends with a
newline, or an empty list for a single worker, is not detected: the stage does
not exit, the last worker's seed is the indeterminate content `g` of its array
slot, and the run goes on into the event loop up to the finalize call.  The
same two entries without the final newline are detected. -/
theorem short_seed_list_not_fatal (g : Nat → Nat) :
    (seedStage (retryCollab 0) 0 1 0 (some []) g
        { sampleParam with cfg := sampleConfig 0 1 0 } (0 : Nat)).result =
      some ({ sampleParam with cfg := sampleConfig 0 1 0, randomSeed := g 0 }, 0) ∧
    (seedStage (retryCollab 0) 2 3 0 (some "10\n20\n".data) g
        { sampleParam with cfg := sampleConfig 0 1 0 } (0 : Nat)).result =
      some ({ sampleParam with cfg := sampleConfig 0 1 0, randomSeed := g 2 }, 0) ∧
    (seedStage (retryCollab 0) 2 3 0 (some "10\n20".data) g
        { sampleParam with cfg := sampleConfig 0 1 0 } (0 : Nat)).result = none ∧
    main (retryCollab 0) 1 (sampleInput 0 1 "1" (sampleConfig 0 1 0) (some [])) =
      { trace :=
          [Action.writeDump 0, Action.setRandomSeed 77, Action.seedStream 77,
           Action.logList 0 77, Action.construct Obj.myEigen 0, Action.setEventId 0,
           Action.appendAudit 0 0 77, Action.construct Obj.init 1,
           Action.construct Obj.group 2, Action.construct Obj.glauber 3, Action.initGlauber,
           Action.construct Obj.evolution 4, Action.construct Obj.lattice 5,
           Action.construct Obj.bufferLattice 6, Action.initCall 1 5 0 1 1,
           Action.destroy Obj.init 1, Action.destroy Obj.glauber 3, Action.run 5 6,
           Action.destroy Obj.bufferLattice 6, Action.destroy Obj.lattice 5,
           Action.barrier, Action.destroy Obj.group 2, Action.destroy Obj.evolution 4,
           Action.destroy Obj.myEigen 0, Action.finalize],
        status := some 1 } := by
  refine ⟨rfl, rfl, rfl, rfl⟩

/-- C4: in seed-list mode (`useSeedList != 0`), when the resource `seedList`
cannot be opened, the process ends with exit status 1 and all it has done is
the parameter dump of `readInput`: no seed is stored, the random stream is not
seeded, no event iteration is started and the finalize call is not reached. -/
theorem seed_list_missing_exits {R X : Type} (c : Collaborators R X) (fuel : Nat)
    (inp : Input R X) (hmode : (inp.setup (configPath inp.argv)).useSeedList ≠ 0)
    (hfile : inp.seedList = none) :
    main c fuel inp =
      { trace := [Action.writeDump inp.param0.eventId], status := some 1 } := by
  unfold main seedStage
  simp [readInput, hmode, hfile]

/-- Witness for `seed_list_missing_exits`: two requested events on rank 1 of 4
workers, seed-list mode, no resource `seedList`. -/
theorem seed_list_missing_exits_witness :
    main (retryCollab 0) 3 (sampleInput 1 4 "2" (sampleConfig 9 1 0) none) =
      { trace := [Action.writeDump 0], status := some 1 } :=
  seed_list_missing_exits (retryCollab 0) 3 (sampleInput 1 4 "2" (sampleConfig 9 1 0) none)
    (by decide) rfl

/-! ## The attempt loop, one iteration at a time -/

theorem attemptLoop_fail {R X : Type} (c : Collaborators R X) (i g fuel : Nat) (s : St R X)
    (hs : s.param.success = 0) (hout : attemptOutcome c s = 0) :
    attemptLoop c i g (fuel + 1) s =
      ((attemptLoop c i g fuel (failStep c s)).1,
       failCycle c i s ++ (attemptLoop c i g fuel (failStep c s)).2.1,
       (attemptLoop c i g fuel (failStep c s)).2.2) := by
  unfold attemptOutcome at hout
  rw [attemptLoop]
  simp only [hs, hout, if_true]
  simp [failCycle, attemptActions, attemptOutcome, failStep, hout]

theorem attemptLoop_success {R X : Type} (c : Collaborators R X) (i g fuel : Nat)
    (s : St R X) (hs : s.param.success = 0) (hout : attemptOutcome c s ≠ 0) :
    attemptLoop c i g (fuel + 1) s =
      (decide ((successStep c s).param.success ≠ 0), successCycle c i g s,
       successStep c s) := by
  unfold attemptOutcome at hout
  rw [attemptLoop]
  simp only [hs, hout, if_true, if_false]
  simp [successCycle, attemptActions, evolveActions, attemptOutcome, successStep]

theorem eventHead_eq {R X : Type} (c : Collaborators R X) (fuel : Nat) (rank size iev : Int)
    (s : St R X) :
    eventHead c fuel rank size iev s =
      ((attemptLoop c (s.nextId + 1) (s.nextId + 3) fuel (loopEntry c rank size iev s)).1,
       preamble rank size iev s ++
         (attemptLoop c (s.nextId + 1) (s.nextId + 3) fuel (loopEntry c rank size iev s)).2.1,
       (attemptLoop c (s.nextId + 1) (s.nextId + 3) fuel (loopEntry c rank size iev s)).2.2) := by
  unfold eventHead loopEntry preamble
  by_cases h : s.param.cfg.readMultFromFile = 1 <;> simp [h]

/-- Induction principle for the attempt loop: a property of the result that holds
when the loop stops (done, out of fuel, or entered again after the evolution
stage) and is carried over an iteration of either kind holds of every run of
the loop. -/
theorem attemptLoop_induction {R X : Type} (c : Collaborators R X) (i g : Nat)
    (P : St R X → Bool × List (Action R) × St R X → Prop)
    (hdone : ∀ s, s.param.success ≠ 0 → P s (true, [], s))
    (hfuel : ∀ s, s.param.success = 0 → P s (false, [], s))
    (hfail : ∀ s res, s.param.success = 0 → attemptOutcome c s = 0 →
      P (failStep c s) res → P s (res.1, failCycle c i s ++ res.2.1, res.2.2))
    (hsucc : ∀ s res, s.param.success = 0 → attemptOutcome c s ≠ 0 →
      P (successStep c s) res → P s (res.1, successCycle c i g s ++ res.2.1, res.2.2)) :
    ∀ (fuel : Nat) (s : St R X), P s (attemptLoop c i g fuel s) := by
  intro fuel
  induction fuel with
  | zero =>
    intro s
    by_cases hs : s.param.success = 0
    · rw [attemptLoop_zero c i g s hs]
      exact hfuel s hs
    · rw [attemptLoop_done c i g 0 s hs]
      exact hdone s hs
  | succ n ih =>
    intro s
    by_cases hs : s.param.success = 0
    · by_cases hout : attemptOutcome c s = 0
      · rw [attemptLoop_fail c i g n s hs hout]
        exact hfail s _ hs hout (ih _)
      · rw [attemptLoop_success c i g n s hs hout]
        by_cases hflag : (successStep c s).param.success = 0
        · have h := hsucc s (false, [], successStep c s) hs hout (hfuel _ hflag)
          simpa [hflag] using h
        · have h := hsucc s (true, [], successStep c s) hs hout (hdone _ hflag)
          simpa [hflag] using h
    · rw [attemptLoop_done c i g (n + 1) s hs]
      exact hdone s hs
/-! ## Lemmas on the monitor -/

theorem monAfter_append {R : Type} (m : Mon) (a b : List (Action R)) :
    monAfter m (a ++ b) = monAfter (monAfter m a) b := by
  simp [monAfter, List.foldl_append]

theorem Sound_append {R : Type} (a b : List (Action R)) :
    ∀ m : Mon, Sound m (a ++ b) ↔ Sound m a ∧ Sound (monAfter m a) b := by
  induction a with
  | nil => intro m; simp [Sound, monAfter]
  | cons x xs ih =>
    intro m
    have h := ih (monStep m x)
    show stepOk m x ∧ Sound (monStep m x) (xs ++ b) ↔ _
    rw [h]
    simp only [Sound, monAfter, List.foldl_cons, and_assoc]

theorem monAfter_lat {R : Type} (tr : List (Action R)) :
    ∀ m : Mon, (monAfter m tr).lat = liveFrom Obj.lattice m.lat tr := by
  induction tr with
  | nil => intro m; rfl
  | cons x xs ih =>
    intro m
    simp only [monAfter, List.foldl_cons, liveFrom] at ih ⊢
    rw [ih]
    rfl

theorem monAfter_buf {R : Type} (tr : List (Action R)) :
    ∀ m : Mon, (monAfter m tr).buf = liveFrom Obj.bufferLattice m.buf tr := by
  induction tr with
  | nil => intro m; rfl
  | cons x xs ih =>
    intro m
    simp only [monAfter, List.foldl_cons, liveFrom] at ih ⊢
    rw [ih]
    rfl

/-- The monitor's demand holds of the action at every position. -/
theorem Sound_at {R : Type} (tr : List (Action R)) :
    ∀ (m : Mon) (k : Nat) (a : Action R), Sound m tr → tr[k]? = some a →
      stepOk (monAfter m (tr.take k)) a := by
  induction tr with
  | nil => intro m k a _ h; simp at h
  | cons x xs ih =>
    intro m k a hs h
    cases k with
    | zero =>
      simp only [List.getElem?_cons_zero, Option.some.injEq] at h
      subst h
      exact hs.1
    | succ k =>
      simp only [List.getElem?_cons_succ] at h
      simpa [monAfter] using ih (monStep m x) k a hs.2 h

/-- The rest of an accepted list is accepted from the state reached. -/
theorem Sound_drop {R : Type} (tr : List (Action R)) :
    ∀ (m : Mon) (k : Nat), Sound m tr → Sound (monAfter m (tr.take k)) (tr.drop k) := by
  induction tr with
  | nil => intro m k _; simp [Sound]
  | cons x xs ih =>
    intro m k hs
    cases k with
    | zero => simpa [monAfter] using hs
    | succ k => simpa [monAfter] using ih (monStep m x) k hs.2

theorem Sound_inert {R : Type} (tr : List (Action R)) (hin : ∀ a ∈ tr, Action.inert a = true) :
    ∀ m : Mon, m.owed = [] → m.lat.length ≤ 1 → m.buf.length ≤ 1 →
      Sound m tr ∧ monAfter m tr = m := by
  induction tr with
  | nil => intro m _ _ _; exact ⟨trivial, rfl⟩
  | cons x xs ih =>
    intro m ho hl hb
    have hx : Action.inert x = true := hin x (by simp)
    have hstep : monStep m x = m := by
      cases x <;> simp [Action.inert] at hx <;>
        simp [monStep, liveStep, lastInitStep, owedStep]
    have hok : stepOk m x := by
      cases x <;> simp [Action.inert] at hx <;>
        simp [stepOk, ho, liveStep, hl, hb]
    have hrest := ih (fun a ha => hin a (by simp [ha])) m ho hl hb
    refine ⟨⟨hok, by rw [hstep]; exact hrest.1⟩, ?_⟩
    simp only [monAfter, List.foldl_cons, hstep]
    exact hrest.2
theorem failCycle_sound {R X : Type} (c : Collaborators R X) (i : Nat) (s : St R X) (m : Mon)
    (hm : m.Clean) (hout : attemptOutcome c s = 0) :
    Sound m (failCycle c i s) ∧ (monAfter m (failCycle c i s)).Clean := by
  obtain ⟨hl, hb, ho⟩ := hm
  simp [failCycle, attemptActions, Sound, stepOk, monStep, liveStep, owedStep, lastInitStep,
    hl, hb, ho, hout, Mon.Clean, monAfter]

theorem successCycle_sound {R X : Type} (c : Collaborators R X) (i g : Nat) (s : St R X)
    (m : Mon) (hm : m.Clean) (hout : attemptOutcome c s ≠ 0) :
    Sound m (successCycle c i g s) ∧ (monAfter m (successCycle c i g s)).Clean := by
  obtain ⟨hl, hb, ho⟩ := hm
  simp [successCycle, attemptActions, evolveActions, Sound, stepOk, monStep, liveStep,
    owedStep, lastInitStep, hl, hb, ho, hout, Mon.Clean, monAfter]

theorem preamble_sound {R X : Type} (rank size iev : Int) (s : St R X) (m : Mon)
    (hm : m.Clean) :
    Sound m (preamble (R := R) rank size iev s) ∧
      (monAfter m (preamble (R := R) rank size iev s)).Clean := by
  obtain ⟨hl, hb, ho⟩ := hm
  by_cases h : s.param.cfg.readMultFromFile = 1 <;>
    simp [preamble, h, Sound, stepOk, monStep, liveStep, owedStep, lastInitStep,
      hl, hb, ho, Mon.Clean, monAfter]

theorem eventTail_sound {R X : Type} (c : Collaborators R X) (rank : Int) (first : Nat)
    (s : St R X) (h5Flag : Int) (m : Mon) (hm : m.Clean) :
    Sound m (eventTail c rank first s h5Flag).1 ∧
      (monAfter m (eventTail c rank first s h5Flag).1).Clean := by
  obtain ⟨hl, hb, ho⟩ := hm
  by_cases h : s.param.cfg.writeOutputsToHDF5 = 1 <;>
    simp [eventTail, h, Sound, stepOk, monStep, liveStep, owedStep, lastInitStep,
      hl, hb, ho, Mon.Clean, monAfter]

theorem attemptLoop_sound {R X : Type} (c : Collaborators R X) (i g fuel : Nat) (s : St R X) :
    ∀ m : Mon, m.Clean →
      Sound m (attemptLoop c i g fuel s).2.1 ∧
        (monAfter m (attemptLoop c i g fuel s).2.1).Clean := by
  refine attemptLoop_induction c i g
    (fun _ res => ∀ m : Mon, m.Clean → Sound m res.2.1 ∧ (monAfter m res.2.1).Clean)
    ?_ ?_ ?_ ?_ fuel s
  · intro s _ m hm
    exact ⟨trivial, hm⟩
  · intro s _ m hm
    exact ⟨trivial, hm⟩
  · intro s res _ hout ih m hm
    obtain ⟨h1, h2⟩ := failCycle_sound c i s m hm hout
    obtain ⟨h3, h4⟩ := ih _ h2
    exact ⟨(Sound_append _ _ m).2 ⟨h1, h3⟩, by rw [monAfter_append]; exact h4⟩
  · intro s res _ hout ih m hm
    obtain ⟨h1, h2⟩ := successCycle_sound c i g s m hm hout
    obtain ⟨h3, h4⟩ := ih _ h2
    exact ⟨(Sound_append _ _ m).2 ⟨h1, h3⟩, by rw [monAfter_append]; exact h4⟩

theorem eventHead_sound {R X : Type} (c : Collaborators R X) (fuel : Nat)
    (rank size iev : Int) (s : St R X) (m : Mon) (hm : m.Clean) :
    Sound m (eventHead c fuel rank size iev s).2.1 ∧
      (monAfter m (eventHead c fuel rank size iev s).2.1).Clean := by
  rw [eventHead_eq]
  obtain ⟨h1, h2⟩ := preamble_sound (R := R) rank size iev s m hm
  obtain ⟨h3, h4⟩ := attemptLoop_sound c (s.nextId + 1) (s.nextId + 3) fuel
    (loopEntry c rank size iev s) _ h2
  exact ⟨(Sound_append _ _ m).2 ⟨h1, h3⟩, by rw [monAfter_append]; exact h4⟩

theorem eventLoop_sound {R X : Type} (c : Collaborators R X) (fuel : Nat) (rank size : Int) :
    ∀ (n : Nat) (iev : Int) (s : St R X) (h5Flag : Int) (m : Mon), m.Clean →
      Sound m (eventLoop c fuel rank size n iev s h5Flag).trace ∧
        (monAfter m (eventLoop c fuel rank size n iev s h5Flag).trace).Clean := by
  intro n
  induction n with
  | zero =>
    intro iev s h5Flag m hm
    exact ⟨trivial, hm⟩
  | succ n ih =>
    intro iev s h5Flag m hm
    obtain ⟨h1, h2⟩ := eventHead_sound c fuel rank size iev s m hm
    unfold eventLoop
    simp only
    split
    · obtain ⟨h3, h4⟩ := eventTail_sound c rank s.nextId
        (eventHead c fuel rank size iev s).2.2 h5Flag _ h2
      obtain ⟨h5, h6⟩ := ih (iev + 1) (eventTail c rank s.nextId
        (eventHead c fuel rank size iev s).2.2 h5Flag).2.1 (eventTail c rank s.nextId
        (eventHead c fuel rank size iev s).2.2 h5Flag).2.2 _ h4
      refine ⟨?_, ?_⟩
      · exact (Sound_append _ _ m).2 ⟨(Sound_append _ _ m).2 ⟨h1, h3⟩,
          by rw [monAfter_append]; exact h5⟩
      · rw [monAfter_append, monAfter_append]
        exact h6
    · exact ⟨h1, h2⟩
theorem seedStage_inert {R X : Type} (c : Collaborators R X) (rank size time : Int)
    (seedList : Option (List Char)) (garbage : Nat → Nat) (param : Parameters) (rng : R) :
    ∀ a ∈ (seedStage c rank size time seedList garbage param rng).trace,
      Action.inert a = true := by
  intro a ha
  unfold seedStage at ha
  split at ha
  · by_cases ht : param.cfg.useTimeForSeed = 1
    · simp only [ht, if_true, List.nil_append, List.mem_append, List.mem_cons] at ha
      rcases ha with ((h | h) | (h | h)) | (h | h)
      all_goals first | (subst h; rfl) | simp at h
    · simp only [ht, if_false, List.append_nil, List.mem_append, List.mem_cons] at ha
      rcases ha with ((h | h) | (h | h)) | (h | h)
      all_goals first | (subst h; rfl) | simp at h
  · split at ha
    · simp at ha
    · split at ha
      · simp at ha
      · simp only [List.mem_cons] at ha
        rcases ha with h | h | h | h
        all_goals first | (subst h; rfl) | simp at h

/-- Shape of a run of `main`: the dump and the seed stage; when the seed stage
does not exit, the event loop and a tail with the run-level merge call, if any,
and the finalize call (no tail when an attempt loop did not end). -/
theorem main_shape {R X : Type} (c : Collaborators R X) (fuel : Nat) (inp : Input R X) :
    ((seedOf c inp).result = none ∧
      main c fuel inp =
        { trace := [Action.writeDump inp.param0.eventId] ++ (seedOf c inp).trace,
          status := some 1 }) ∨
    (∃ (ps : Parameters × R) (post : List (Action R)),
      (seedOf c inp).result = some ps ∧
      (main c fuel inp).trace =
        [Action.writeDump inp.param0.eventId] ++ (seedOf c inp).trace ++
          (eventsOf c fuel inp ps).trace ++ post ∧
      (∀ a ∈ post, a = Action.finalize ∨ ∃ st, a = Action.system combineCommand st) ∧
      ((eventsOf c fuel inp ps).ended = true →
        (main c fuel inp).status = some 1 ∧ Action.finalize ∈ post)) := by
  unfold main seedOf eventsOf loadedParam
  simp only [readInput]
  split
  · rename_i h
    exact Or.inl ⟨h, rfl⟩
  · rename_i ps h
    refine Or.inr ⟨ps, ?_⟩
    split
    · split
      · refine ⟨_, h, rfl, ?_, fun _ => ⟨rfl, by simp⟩⟩
        intro a ha
        simp only [List.mem_cons] at ha
        rcases ha with h | h | h
        · exact Or.inr ⟨_, h⟩
        · exact Or.inl h
        · simp at h
      · refine ⟨_, h, rfl, ?_, fun _ => ⟨rfl, by simp⟩⟩
        intro a ha
        simp only [List.mem_cons] at ha
        rcases ha with h | h
        · exact Or.inl h
        · simp at h
    · rename_i hne
      refine ⟨[], h, by simp, by simp, fun he => absurd he hne⟩

theorem main_sound {R X : Type} (c : Collaborators R X) (fuel : Nat) (inp : Input R X) :
    Sound Mon.start (main c fuel inp).trace ∧
      (monAfter Mon.start (main c fuel inp).trace).Clean := by
  have hstart : Mon.start.Clean := ⟨rfl, rfl, rfl⟩
  have hhead : ∀ a ∈ [Action.writeDump inp.param0.eventId] ++ (seedOf c inp).trace,
      Action.inert a = true := by
    intro a ha
    simp only [List.mem_append, List.mem_singleton] at ha
    rcases ha with h | h
    · subst h
      rfl
    · exact seedStage_inert c _ _ _ _ _ _ _ a h
  obtain ⟨h1, h2⟩ := Sound_inert _ hhead Mon.start rfl (by simp [Mon.start])
    (by simp [Mon.start])
  rcases main_shape c fuel inp with ⟨_, hm⟩ | ⟨ps, post, _, htr, hpost, _⟩
  · rw [hm]
    simp only
    rw [h2]
    exact ⟨h1, hstart⟩
  · rw [htr]
    obtain ⟨h3, h4⟩ := eventLoop_sound c fuel inp.rank inp.size
      (requestedEvents inp.argv).toNat 0
      { rng := ps.2, ext := inp.ext0, param := ps.1, nextId := 0 } 0 Mon.start hstart
    have h5 : Sound Mon.start ([Action.writeDump inp.param0.eventId] ++ (seedOf c inp).trace ++
        (eventsOf c fuel inp ps).trace) :=
      (Sound_append _ _ _).2 ⟨h1, by rw [h2]; exact h3⟩
    have h6 : (monAfter Mon.start ([Action.writeDump inp.param0.eventId] ++
        (seedOf c inp).trace ++ (eventsOf c fuel inp ps).trace)).Clean := by
      rw [monAfter_append, h2]
      exact h4
    have hin : ∀ a ∈ post, Action.inert a = true := by
      intro a ha
      rcases hpost a ha with h | ⟨st, h⟩ <;> (subst h; rfl)
    obtain ⟨h7, h8⟩ := Sound_inert post hin _ h6.2.2
      (by rw [h6.1]; simp) (by rw [h6.2.1]; simp)
    refine ⟨(Sound_append _ _ _).2 ⟨h5, h7⟩, ?_⟩
    rw [monAfter_append, h8]
    exact h6
/-! ## Life cycle of the lattice pair: the claims -/

theorem Sound_bounds {R : Type} (tr : List (Action R)) :
    ∀ (m : Mon) (k : Nat), Sound m tr → m.lat.length ≤ 1 → m.buf.length ≤ 1 →
      (monAfter m (tr.take k)).lat.length ≤ 1 ∧ (monAfter m (tr.take k)).buf.length ≤ 1 := by
  induction tr with
  | nil => intro m k _ hl hb; simpa [monAfter] using ⟨hl, hb⟩
  | cons x xs ih =>
    intro m k hs hl hb
    cases k with
    | zero => simpa [monAfter] using ⟨hl, hb⟩
    | succ k =>
      have h := ih (monStep m x) k hs.2 hs.1.2.1 hs.1.2.2.1
      simpa [monAfter] using h

theorem liveAfter_eq_lat {R : Type} (tr : List (Action R)) :
    liveAfter Obj.lattice tr = (monAfter Mon.start tr).lat := by
  rw [monAfter_lat]
  rfl

theorem liveAfter_eq_buf {R : Type} (tr : List (Action R)) :
    liveAfter Obj.bufferLattice tr = (monAfter Mon.start tr).buf := by
  rw [monAfter_buf]
  rfl

/-- In an accepted list that ends with nothing owed, a deletion owed after the
action at position `k` is the action at position `k + 1`. -/
theorem Sound_owed_next {R : Type} (tr : List (Action R)) (m : Mon) (k : Nat) (a : Action R)
    (o : Obj) (id : Nat) (rest : List (Obj × Nat)) (hs : Sound m tr)
    (hend : (monAfter m tr).owed = []) (ha : tr[k]? = some a)
    (ho : (monStep (monAfter m (tr.take k)) a).owed = (o, id) :: rest) :
    tr[k + 1]? = some (Action.destroy o id) := by
  have htake : tr.take (k + 1) = tr.take k ++ [a] := by
    rw [List.take_succ, ha]
    rfl
  have hmon : monAfter m (tr.take (k + 1)) = monStep (monAfter m (tr.take k)) a := by
    rw [htake, monAfter_append]
    rfl
  have hd := Sound_drop tr m (k + 1) hs
  rw [hmon] at hd
  cases hdrop : tr.drop (k + 1) with
  | nil =>
    have hall : tr.take (k + 1) = tr := by
      have := List.take_append_drop (k + 1) tr
      rw [hdrop, List.append_nil] at this
      exact this
    rw [hall] at hmon
    rw [hmon, ho] at hend
    simp at hend
  | cons y ys =>
    rw [hdrop] at hd
    have hy : y = Action.destroy o id := by
      have := hd.1.1
      rw [ho] at this
      exact this
    have hget : tr[k + 1]? = (tr.drop (k + 1))[0]? := by
      rw [List.getElem?_drop]
    rw [hget, hdrop, ← hy]
    simp

/-- C6: at every step of a worker's run at most one lattice and at most one
buffer lattice are live, whatever the initializer and the evolver do; a lattice
is created only when no lattice and no buffer lattice is live, and a buffer
lattice only when no buffer lattice is live. -/
theorem one_pair_live {R X : Type} (c : Collaborators R X) (fuel : Nat) (inp : Input R X)
    (k : Nat) :
    (liveAfter Obj.lattice ((main c fuel inp).trace.take k)).length ≤ 1 ∧
    (liveAfter Obj.bufferLattice ((main c fuel inp).trace.take k)).length ≤ 1 ∧
    (∀ id, (main c fuel inp).trace[k]? = some (Action.construct Obj.lattice id) →
      liveAfter Obj.lattice ((main c fuel inp).trace.take k) = [] ∧
      liveAfter Obj.bufferLattice ((main c fuel inp).trace.take k) = []) ∧
    (∀ id, (main c fuel inp).trace[k]? = some (Action.construct Obj.bufferLattice id) →
      liveAfter Obj.bufferLattice ((main c fuel inp).trace.take k) = []) := by
  obtain ⟨hs, _⟩ := main_sound c fuel inp
  have hb := Sound_bounds (main c fuel inp).trace Mon.start k hs (by simp [Mon.start])
    (by simp [Mon.start])
  rw [liveAfter_eq_lat, liveAfter_eq_buf]
  refine ⟨hb.1, hb.2, ?_, ?_⟩
  · intro id hk
    exact (Sound_at _ Mon.start k _ hs hk).2.2.2
  · intro id hk
    exact (Sound_at _ Mon.start k _ hs hk).2.2.2

/-- C8: in every run of a worker, the two actions after a call of
`evolution->run` on a pair are the deletion of its buffer lattice and of its
lattice; when the barrier is reached no lattice and no buffer lattice is live;
and every deletion of a lattice or buffer lattice deletes the one object of its
kind that is live, so nothing is released twice and nothing is left. -/
theorem pair_released_at_barrier {R X : Type} (c : Collaborators R X) (fuel : Nat)
    (inp : Input R X) (k : Nat) :
    (∀ lat buf, (main c fuel inp).trace[k]? = some (Action.run lat buf) →
      (main c fuel inp).trace[k + 1]? = some (Action.destroy Obj.bufferLattice buf) ∧
      (main c fuel inp).trace[k + 2]? = some (Action.destroy Obj.lattice lat)) ∧
    ((main c fuel inp).trace[k]? = some Action.barrier →
      liveAfter Obj.lattice ((main c fuel inp).trace.take k) = [] ∧
      liveAfter Obj.bufferLattice ((main c fuel inp).trace.take k) = []) ∧
    (∀ id, (main c fuel inp).trace[k]? = some (Action.destroy Obj.lattice id) →
      liveAfter Obj.lattice ((main c fuel inp).trace.take k) = [id]) ∧
    (∀ id, (main c fuel inp).trace[k]? = some (Action.destroy Obj.bufferLattice id) →
      liveAfter Obj.bufferLattice ((main c fuel inp).trace.take k) = [id]) := by
  obtain ⟨hs, hc⟩ := main_sound c fuel inp
  rw [liveAfter_eq_lat, liveAfter_eq_buf]
  refine ⟨?_, ?_, ?_, ?_⟩
  · intro lat buf hk
    have h1 := Sound_owed_next _ Mon.start k _ Obj.bufferLattice buf [(Obj.lattice, lat)]
      hs hc.2.2 hk rfl
    refine ⟨h1, ?_⟩
    have htake : (main c fuel inp).trace.take (k + 1) =
        (main c fuel inp).trace.take k ++ [Action.run lat buf] := by
      rw [List.take_succ, hk]
      rfl
    refine Sound_owed_next _ Mon.start (k + 1) _ Obj.lattice lat [] hs hc.2.2 h1 ?_
    rw [htake, monAfter_append]
    rfl
  · intro hk
    exact (Sound_at _ Mon.start k _ hs hk).2.2.2
  · intro id hk
    exact (Sound_at _ Mon.start k _ hs hk).2.2.2
  · intro id hk
    exact (Sound_at _ Mon.start k _ hs hk).2.2.2
/-! ## Attempts and evolution: the claims -/

theorem loopEntry_success {R X : Type} (c : Collaborators R X) (rank size iev : Int)
    (s : St R X) : (loopEntry c rank size iev s).param.success = 0 := rfl

theorem failStep_success {R X : Type} (c : Collaborators R X) (s : St R X) :
    (failStep c s).param.success = attemptOutcome c s := rfl

theorem attemptLoop_retry {R X : Type} (c : Collaborators R X) (i g extra : Nat) :
    ∀ (K : Nat) (s : St R X), s.param.success = 0 →
      (∀ j < K, attemptOutcome c (afterFailures c j s) = 0) →
      attemptOutcome c (afterFailures c K s) ≠ 0 →
      attemptLoop c i g (K + 1 + extra) s =
        (decide ((successStep c (afterFailures c K s)).param.success ≠ 0),
         failCycles c i K s ++ successCycle c i g (afterFailures c K s),
         successStep c (afterFailures c K s)) := by
  intro K
  induction K with
  | zero =>
    intro s hs _ hok
    have h := attemptLoop_success c i g extra s hs hok
    simpa [afterFailures, failCycles, Nat.add_comm] using h
  | succ K ih =>
    intro s hs hfail hok
    have h0 : attemptOutcome c s = 0 := hfail 0 (Nat.succ_pos K)
    have hfuel : K + 1 + 1 + extra = (K + 1 + extra) + 1 := by omega
    rw [hfuel, attemptLoop_fail c i g (K + 1 + extra) s hs h0]
    have hs2 : (failStep c s).param.success = 0 := h0
    have hfail2 : ∀ j < K, attemptOutcome c (afterFailures c j (failStep c s)) = 0 :=
      fun j hj => hfail (j + 1) (Nat.succ_lt_succ hj)
    rw [ih (failStep c s) hs2 hfail2 hok]
    simp [afterFailures, failCycles, List.append_assoc]

theorem failCycles_counts {R X : Type} (c : Collaborators R X) (i : Nat) :
    ∀ (K : Nat) (s : St R X),
      (failCycles c i K s).countP (Action.isConstruct Obj.lattice) = K ∧
      (failCycles c i K s).countP (Action.isConstruct Obj.bufferLattice) = K ∧
      (failCycles c i K s).countP Action.isInitCall = K ∧
      (failCycles c i K s).countP (Action.isDestroy Obj.lattice) = K ∧
      (failCycles c i K s).countP (Action.isDestroy Obj.bufferLattice) = K := by
  intro K
  induction K with
  | zero => intro s; simp [failCycles]
  | succ K ih =>
    intro s
    obtain ⟨h1, h2, h3, h4, h5⟩ := ih (failStep c s)
    simp only [failCycles, List.countP_append, h1, h2, h3, h4, h5]
    simp [failCycle, attemptActions, List.countP_cons, Action.isConstruct, Action.isInitCall,
      Action.isDestroy, Nat.add_comm]

theorem failCycles_sound {R X : Type} (c : Collaborators R X) (i : Nat) :
    ∀ (K : Nat) (s : St R X) (m : Mon), m.Clean →
      (∀ j < K, attemptOutcome c (afterFailures c j s) = 0) →
      (monAfter m (failCycles c i K s)).Clean := by
  intro K
  induction K with
  | zero => intro s m hm _; exact hm
  | succ K ih =>
    intro s m hm hfail
    have h0 : attemptOutcome c s = 0 := hfail 0 (Nat.succ_pos K)
    obtain ⟨_, h2⟩ := failCycle_sound c i s m hm h0
    simp only [failCycles, monAfter_append]
    exact ih (failStep c s) _ h2 (fun j hj => hfail (j + 1) (Nat.succ_lt_succ hj))

theorem attemptActions_live {R X : Type} (c : Collaborators R X) (i : Nat) (s : St R X)
    (m : Mon) (hm : m.Clean) :
    (monAfter m (attemptActions c i s)).lat = [s.nextId] ∧
      (monAfter m (attemptActions c i s)).buf = [s.nextId + 1] := by
  obtain ⟨hl, hb, _⟩ := hm
  simp [attemptActions, monAfter, monStep, liveStep, hl, hb]

/-- C5: an event started in any state `s` (whatever flag the previous event
left) resets the flag before its attempt loop; with an initializer that fails
`K` times from the loop entry and then succeeds, and fuel for at least `K + 1`
iterations, the event consists of the preamble, `K` cycles
allocate-attempt-release, and one more allocation and attempt followed by the
evolution stage.  Up to the successful attempt there are exactly `K + 1`
creations of a lattice and of a buffer lattice, `K + 1` initializer calls and
`K` deletions of each kind, and exactly one lattice and one buffer lattice are
live.  When the evolver leaves a non-zero flag non-zero nothing follows: the
loop ends there, and these are the counts of the whole event. -/
theorem retry_until_success {R X : Type} (c : Collaborators R X) (K extra : Nat)
    (rank size iev : Int) (s : St R X)
    (hfail : ∀ j < K, attemptOutcome c (afterFailures c j (loopEntry c rank size iev s)) = 0)
    (hok : attemptOutcome c (afterFailures c K (loopEntry c rank size iev s)) ≠ 0) :
    (∃ rest : List (Action R),
      (eventHead c (K + 1 + extra) rank size iev s).2.1 =
        preamble rank size iev s ++
          failCycles c (s.nextId + 1) K (loopEntry c rank size iev s) ++
          attemptActions c (s.nextId + 1) (afterFailures c K (loopEntry c rank size iev s)) ++
          evolveActions (s.nextId + 1) (s.nextId + 3)
            (afterFailures c K (loopEntry c rank size iev s)).nextId ++ rest) ∧
    (preamble rank size iev s ++
        failCycles c (s.nextId + 1) K (loopEntry c rank size iev s) ++
        attemptActions c (s.nextId + 1)
          (afterFailures c K (loopEntry c rank size iev s))).countP
      (Action.isConstruct Obj.lattice) = K + 1 ∧
    (preamble rank size iev s ++
        failCycles c (s.nextId + 1) K (loopEntry c rank size iev s) ++
        attemptActions c (s.nextId + 1)
          (afterFailures c K (loopEntry c rank size iev s))).countP
      (Action.isConstruct Obj.bufferLattice) = K + 1 ∧
    (preamble rank size iev s ++
        failCycles c (s.nextId + 1) K (loopEntry c rank size iev s) ++
        attemptActions c (s.nextId + 1)
          (afterFailures c K (loopEntry c rank size iev s))).countP
      Action.isInitCall = K + 1 ∧
    (preamble rank size iev s ++
        failCycles c (s.nextId + 1) K (loopEntry c rank size iev s) ++
        attemptActions c (s.nextId + 1)
          (afterFailures c K (loopEntry c rank size iev s))).countP
      (Action.isDestroy Obj.lattice) = K ∧
    (preamble rank size iev s ++
        failCycles c (s.nextId + 1) K (loopEntry c rank size iev s) ++
        attemptActions c (s.nextId + 1)
          (afterFailures c K (loopEntry c rank size iev s))).countP
      (Action.isDestroy Obj.bufferLattice) = K ∧
    liveAfter Obj.lattice
      (preamble rank size iev s ++
        failCycles c (s.nextId + 1) K (loopEntry c rank size iev s) ++
        attemptActions c (s.nextId + 1) (afterFailures c K (loopEntry c rank size iev s))) =
      [(afterFailures c K (loopEntry c rank size iev s)).nextId] ∧
    liveAfter Obj.bufferLattice
      (preamble rank size iev s ++
        failCycles c (s.nextId + 1) K (loopEntry c rank size iev s) ++
        attemptActions c (s.nextId + 1) (afterFailures c K (loopEntry c rank size iev s))) =
      [(afterFailures c K (loopEntry c rank size iev s)).nextId + 1] ∧
    ((∀ x p, p.success ≠ 0 → (c.run x p).2.success ≠ 0) →
      eventHead c (K + 1 + extra) rank size iev s =
        (true,
         preamble rank size iev s ++
           failCycles c (s.nextId + 1) K (loopEntry c rank size iev s) ++
           successCycle c (s.nextId + 1) (s.nextId + 3)
             (afterFailures c K (loopEntry c rank size iev s)),
         successStep c (afterFailures c K (loopEntry c rank size iev s))) ∧
      (eventHead c (K + 1 + extra) rank size iev s).2.1.countP
        (Action.isConstruct Obj.lattice) = K + 1 ∧
      (eventHead c (K + 1 + extra) rank size iev s).2.1.countP
        (Action.isConstruct Obj.bufferLattice) = K + 1 ∧
      (eventHead c (K + 1 + extra) rank size iev s).2.1.countP Action.isInitCall = K + 1) := by
  have hloop := attemptLoop_retry c (s.nextId + 1) (s.nextId + 3) extra K
    (loopEntry c rank size iev s) rfl hfail hok
  obtain ⟨k1, k2, k3, k4, k5⟩ := failCycles_counts c (s.nextId + 1) K
    (loopEntry c rank size iev s)
  have hpre : (preamble (R := R) rank size iev s).countP (Action.isConstruct Obj.lattice) = 0 ∧
      (preamble (R := R) rank size iev s).countP (Action.isConstruct Obj.bufferLattice) = 0 ∧
      (preamble (R := R) rank size iev s).countP Action.isInitCall = 0 ∧
      (preamble (R := R) rank size iev s).countP (Action.isDestroy Obj.lattice) = 0 ∧
      (preamble (R := R) rank size iev s).countP (Action.isDestroy Obj.bufferLattice) = 0 := by
    unfold preamble
    by_cases hr : s.param.cfg.readMultFromFile = 1 <;>
      simp [hr, List.countP_cons, Action.isConstruct, Action.isInitCall, Action.isDestroy]
  obtain ⟨p1, p2, p3, p4, p5⟩ := hpre
  have hclean : (monAfter Mon.start (preamble (R := R) rank size iev s ++
      failCycles c (s.nextId + 1) K (loopEntry c rank size iev s))).Clean := by
    rw [monAfter_append]
    exact failCycles_sound c (s.nextId + 1) K (loopEntry c rank size iev s) _
      (preamble_sound rank size iev s Mon.start ⟨rfl, rfl, rfl⟩).2 hfail
  refine ⟨?_, ?_, ?_, ?_, ?_, ?_, ?_, ?_, ?_⟩
  · refine ⟨[], ?_⟩
    rw [eventHead_eq, hloop]
    simp [successCycle, List.append_assoc]
  · simp only [List.countP_append, p1, k1]
    simp [attemptActions, List.countP_cons, Action.isConstruct]
  · simp only [List.countP_append, p2, k2]
    simp [attemptActions, List.countP_cons, Action.isConstruct]
  · simp only [List.countP_append, p3, k3]
    simp [attemptActions, List.countP_cons, Action.isInitCall]
  · simp only [List.countP_append, p4, k4]
    simp [attemptActions, List.countP_cons, Action.isDestroy]
  · simp only [List.countP_append, p5, k5]
    simp [attemptActions, List.countP_cons, Action.isDestroy]
  · rw [liveAfter_eq_lat, monAfter_append]
    exact (attemptActions_live c _ _ _ hclean).1
  · rw [liveAfter_eq_buf, monAfter_append]
    exact (attemptActions_live c _ _ _ hclean).2
  · intro hrun
    have hflag : (successStep c (afterFailures c K (loopEntry c rank size iev s))).param.success
        ≠ 0 := hrun _ _ hok
    have heq : eventHead c (K + 1 + extra) rank size iev s =
        (true,
         preamble rank size iev s ++
           failCycles c (s.nextId + 1) K (loopEntry c rank size iev s) ++
           successCycle c (s.nextId + 1) (s.nextId + 3)
             (afterFailures c K (loopEntry c rank size iev s)),
         successStep c (afterFailures c K (loopEntry c rank size iev s))) := by
      rw [eventHead_eq, hloop]
      simp [hflag, List.append_assoc]
    refine ⟨heq, ?_, ?_, ?_⟩
    · rw [heq]
      simp only [List.countP_append, p1, k1]
      simp [successCycle, attemptActions, evolveActions, List.countP_cons, Action.isConstruct]
    · rw [heq]
      simp only [List.countP_append, p2, k2]
      simp [successCycle, attemptActions, evolveActions, List.countP_cons, Action.isConstruct]
    · rw [heq]
      simp only [List.countP_append, p3, k3]
      simp [successCycle, attemptActions, evolveActions, List.countP_cons, Action.isInitCall]
/-! ## Seeding and the random stream: the claims -/

theorem initCalls_append {R : Type} (a b : List (Action R)) :
    initCalls (a ++ b) = initCalls a ++ initCalls b := by
  simp [initCalls, List.filterMap_append]

theorem auditSeeds_append {R : Type} (a b : List (Action R)) :
    auditSeeds (a ++ b) = auditSeeds a ++ auditSeeds b := by
  simp [auditSeeds, List.filterMap_append]

theorem Threaded_append {R X : Type} (c : Collaborators R X) (l1 l2 : List (R × R)) :
    ∀ (r0 r1 r2 : R), Threaded c r0 l1 r1 → Threaded c r1 l2 r2 →
      Threaded c r0 (l1 ++ l2) r2 := by
  induction l1 with
  | nil =>
    intro r0 r1 r2 h1 h2
    simp only [Threaded] at h1
    subst h1
    simpa using h2
  | cons x xs ih =>
    intro r0 r1 r2 h1 h2
    obtain ⟨ha, hb, hc⟩ := h1
    exact ⟨ha, hb, ih _ _ _ hc h2⟩

theorem Threaded_index {R X : Type} (c : Collaborators R X) (l : List (R × R)) :
    ∀ (r0 r1 : R) (n : Nat) (b1 a1 b2 a2 : R), Threaded c r0 l r1 →
      l[n]? = some (b1, a1) → l[n + 1]? = some (b2, a2) →
      b2 = a1 ∧ ∃ x p, a1 = (c.init b1 x p).1 := by
  induction l with
  | nil => intro r0 r1 n b1 a1 b2 a2 _ h; simp at h
  | cons x xs ih =>
    intro r0 r1 n b1 a1 b2 a2 ht h1 h2
    obtain ⟨_, hb, hc⟩ := ht
    cases n with
    | zero =>
      simp only [List.getElem?_cons_zero, Option.some.injEq] at h1
      subst h1
      cases xs with
      | nil => simp at h2
      | cons y ys =>
        simp only [zero_add, List.getElem?_cons_succ, List.getElem?_cons_zero,
          Option.some.injEq] at h2
        subst h2
        exact ⟨hc.1, hb⟩
    | succ n =>
      simp only [List.getElem?_cons_succ] at h1 h2
      exact ih _ _ n b1 a1 b2 a2 hc h1 h2

theorem attemptLoop_thread {R X : Type} (c : Collaborators R X) (i g fuel : Nat)
    (s : St R X) :
    Threaded c s.rng (initCalls (attemptLoop c i g fuel s).2.1)
      (attemptLoop c i g fuel s).2.2.rng := by
  refine attemptLoop_induction c i g
    (fun s res => Threaded c s.rng (initCalls res.2.1) res.2.2.rng) ?_ ?_ ?_ ?_ fuel s
  · intro s _
    exact rfl
  · intro s _
    exact rfl
  · intro s res _ _ ih
    have h : initCalls (failCycle c i s) =
        [(s.rng, (c.init s.rng s.ext { s.param with success := 0 }).1)] := by
      simp [initCalls, failCycle, attemptActions, Action.streamStates]
    rw [initCalls_append, h]
    exact ⟨rfl, ⟨s.ext, { s.param with success := 0 }, rfl⟩, ih⟩
  · intro s res _ _ ih
    have h : initCalls (successCycle c i g s) =
        [(s.rng, (c.init s.rng s.ext { s.param with success := 0 }).1)] := by
      simp [initCalls, successCycle, attemptActions, evolveActions, Action.streamStates]
    rw [initCalls_append, h]
    exact ⟨rfl, ⟨s.ext, { s.param with success := 0 }, rfl⟩, ih⟩

theorem eventHead_thread {R X : Type} (c : Collaborators R X) (fuel : Nat)
    (rank size iev : Int) (s : St R X) :
    Threaded c s.rng (initCalls (eventHead c fuel rank size iev s).2.1)
      (eventHead c fuel rank size iev s).2.2.rng := by
  rw [eventHead_eq]
  have h : initCalls (preamble (R := R) rank size iev s) = [] := by
    unfold preamble
    by_cases hr : s.param.cfg.readMultFromFile = 1 <;>
      simp [hr, initCalls, Action.streamStates]
  rw [initCalls_append, h, List.nil_append]
  exact attemptLoop_thread c _ _ fuel (loopEntry c rank size iev s)

theorem eventTail_calls {R X : Type} (c : Collaborators R X) (rank : Int) (first : Nat)
    (s : St R X) (h5Flag : Int) :
    initCalls (eventTail c rank first s h5Flag).1 = [] ∧
      auditSeeds (eventTail c rank first s h5Flag).1 = [] ∧
      (eventTail c rank first s h5Flag).2.1.rng = s.rng ∧
      (eventTail c rank first s h5Flag).2.1.param = s.param := by
  unfold eventTail
  by_cases h : s.param.cfg.writeOutputsToHDF5 = 1 <;>
    simp [h, initCalls, auditSeeds, Action.streamStates, Action.auditSeed]

theorem eventLoop_thread {R X : Type} (c : Collaborators R X) (fuel : Nat)
    (rank size : Int) :
    ∀ (n : Nat) (iev : Int) (s : St R X) (h5Flag : Int),
      Threaded c s.rng (initCalls (eventLoop c fuel rank size n iev s h5Flag).trace)
        (eventLoop c fuel rank size n iev s h5Flag).state.rng := by
  intro n
  induction n with
  | zero => intro iev s h5Flag; exact rfl
  | succ n ih =>
    intro iev s h5Flag
    have hhead := eventHead_thread c fuel rank size iev s
    unfold eventLoop
    simp only
    split
    · obtain ⟨ht, _, hrng, _⟩ := eventTail_calls c rank s.nextId
        (eventHead c fuel rank size iev s).2.2 h5Flag
      have hrest := ih (iev + 1) (eventTail c rank s.nextId
        (eventHead c fuel rank size iev s).2.2 h5Flag).2.1 (eventTail c rank s.nextId
        (eventHead c fuel rank size iev s).2.2 h5Flag).2.2
      rw [hrng] at hrest
      simp only [initCalls_append, ht, List.append_nil]
      exact Threaded_append c _ _ _ _ _ hhead hrest
    · exact hhead

theorem seedStage_calls {R X : Type} (c : Collaborators R X) (rank size time : Int)
    (seedList : Option (List Char)) (garbage : Nat → Nat) (param : Parameters) (rng : R) :
    initCalls (seedStage c rank size time seedList garbage param rng).trace = [] ∧
      auditSeeds (seedStage c rank size time seedList garbage param rng).trace = [] := by
  unfold seedStage
  split
  · by_cases ht : param.cfg.useTimeForSeed = 1 <;>
      simp [ht, initCalls, auditSeeds, Action.streamStates, Action.auditSeed]
  · split
    · simp [initCalls, auditSeeds]
    · split <;> simp [initCalls, auditSeeds, Action.streamStates, Action.auditSeed]

theorem main_thread {R X : Type} (c : Collaborators R X) (fuel : Nat) (inp : Input R X) :
    ∃ r0 r1 : R, Threaded c r0 (initCalls (main c fuel inp).trace) r1 := by
  obtain ⟨hsc, _⟩ := seedStage_calls c inp.rank inp.size inp.time inp.seedList inp.garbage
    (loadedParam inp) inp.rng0
  rcases main_shape c fuel inp with ⟨_, hm⟩ | ⟨ps, post, _, htr, hpost, _⟩
  · refine ⟨inp.rng0, inp.rng0, ?_⟩
    rw [hm]
    simp only [initCalls_append]
    rw [show initCalls (seedOf c inp).trace = [] from hsc]
    exact rfl
  · have hp : initCalls post = [] := by
      unfold initCalls
      rw [List.filterMap_eq_nil_iff]
      intro a ha
      rcases hpost a ha with h | ⟨st, h⟩ <;> (subst h; rfl)
    refine ⟨ps.2, (eventsOf c fuel inp ps).state.rng, ?_⟩
    rw [htr]
    simp only [initCalls_append, hp, List.append_nil]
    rw [show initCalls (seedOf c inp).trace = [] from hsc]
    exact eventLoop_thread c fuel inp.rank inp.size _ 0
      { rng := ps.2, ext := inp.ext0, param := ps.1, nextId := 0 } 0

/-- C10: in a run of a worker, the stream state handed to an initializer call is
exactly the state the previous initializer call left: no step of the driver, a
failed attempt and the release that follows included, puts the stream back.
So with an initializer that draws at least one value per call, measured by any
draw counter `draws`, the count at the start of successive attempts is strictly
increasing. -/
theorem stream_not_rewound {R X : Type} (c : Collaborators R X) (fuel : Nat)
    (inp : Input R X) (n : Nat) (b1 a1 b2 a2 : R)
    (h1 : (initCalls (main c fuel inp).trace)[n]? = some (b1, a1))
    (h2 : (initCalls (main c fuel inp).trace)[n + 1]? = some (b2, a2)) :
    b2 = a1 ∧
    ∀ draws : R → Nat, (∀ r x p, draws r < draws (c.init r x p).1) → draws b1 < draws b2 := by
  obtain ⟨r0, r1, ht⟩ := main_thread c fuel inp
  obtain ⟨he, x, p, ha⟩ := Threaded_index c _ r0 r1 n b1 a1 b2 a2 ht h1 h2
  refine ⟨he, ?_⟩
  intro draws hd
  rw [he, ha]
  exact hd b1 x p
theorem seedStage_seeded {R X : Type} (c : Collaborators R X) (rank size time : Int)
    (seedList : Option (List Char)) (garbage : Nat → Nat) (param : Parameters) (rng : R)
    (ps : Parameters × R)
    (h : (seedStage c rank size time seedList garbage param rng).result = some ps) :
    ∃ pre post : List (Action R),
      (seedStage c rank size time seedList garbage param rng).trace =
        pre ++ [Action.seedStream ps.1.randomSeed] ++ post ∧
      (∀ a ∈ pre, Action.isStartup a = true) ∧ (∀ a ∈ post, Action.isSeeding a = false) := by
  unfold seedStage at h ⊢
  split at h
  · rename_i hl
    simp only [Option.some.injEq] at h
    subst h
    simp only [hl, if_true]
    by_cases ht : param.cfg.useTimeForSeed = 1
    · simp only [ht, if_true, List.nil_append]
      refine ⟨[_, _], [], rfl, ?_, by simp⟩
      intro a ha
      simp only [List.mem_cons] at ha
      rcases ha with h | h | h
      · subst h; rfl
      · subst h; rfl
      · simp at h
    · simp only [ht, if_false, List.append_nil]
      refine ⟨[_, _], [], rfl, ?_, by simp⟩
      intro a ha
      simp only [List.mem_cons] at ha
      rcases ha with h | h | h
      · subst h; rfl
      · subst h; rfl
      · simp at h
  · rename_i hl
    simp only [hl, if_false]
    split at h
    · simp at h
    · split at h
      · simp at h
      · rename_i content r hr
        simp only [Option.some.injEq] at h
        subst h
        simp only [hr]
        refine ⟨[Action.setRandomSeed (r.2 rank.toNat)], [Action.logList rank (r.2 rank.toNat)],
          rfl, ?_, ?_⟩
        · intro a ha
          simp only [List.mem_singleton] at ha
          subst ha
          rfl
        · intro a ha
          simp only [List.mem_singleton] at ha
          subst ha
          rfl

theorem attemptLoop_seedframe {R X : Type} (c : Collaborators R X) (i g fuel : Nat)
    (s : St R X) (hinit : ∀ r x p, (c.init r x p).2.2.randomSeed = p.randomSeed)
    (hrun : ∀ x p, (c.run x p).2.randomSeed = p.randomSeed) :
    auditSeeds (attemptLoop c i g fuel s).2.1 = [] ∧
      (attemptLoop c i g fuel s).2.2.param.randomSeed = s.param.randomSeed := by
  refine attemptLoop_induction c i g
    (fun s res => auditSeeds res.2.1 = [] ∧ res.2.2.param.randomSeed = s.param.randomSeed)
    ?_ ?_ ?_ ?_ fuel s
  · intro s _
    exact ⟨rfl, rfl⟩
  · intro s _
    exact ⟨rfl, rfl⟩
  · intro s res _ _ ih
    have h : auditSeeds (failCycle c i s) = [] := by
      simp [auditSeeds, failCycle, attemptActions, Action.auditSeed]
    refine ⟨by rw [auditSeeds_append, h, ih.1]; rfl, ?_⟩
    rw [ih.2]
    exact hinit _ _ _
  · intro s res _ _ ih
    have h : auditSeeds (successCycle c i g s) = [] := by
      simp [auditSeeds, successCycle, attemptActions, evolveActions, Action.auditSeed]
    refine ⟨by rw [auditSeeds_append, h, ih.1]; rfl, ?_⟩
    rw [ih.2]
    show (c.run _ _).2.randomSeed = _
    rw [hrun, hinit]

theorem eventHead_seedframe {R X : Type} (c : Collaborators R X) (fuel : Nat)
    (rank size iev : Int) (s : St R X)
    (hinit : ∀ r x p, (c.init r x p).2.2.randomSeed = p.randomSeed)
    (hrun : ∀ x p, (c.run x p).2.randomSeed = p.randomSeed) :
    auditSeeds (eventHead c fuel rank size iev s).2.1 = [s.param.randomSeed] ∧
      (eventHead c fuel rank size iev s).2.2.param.randomSeed = s.param.randomSeed := by
  rw [eventHead_eq]
  obtain ⟨h1, h2⟩ := attemptLoop_seedframe c (s.nextId + 1) (s.nextId + 3) fuel
    (loopEntry c rank size iev s) hinit hrun
  have h : auditSeeds (preamble (R := R) rank size iev s) = [s.param.randomSeed] := by
    unfold preamble
    by_cases hr : s.param.cfg.readMultFromFile = 1 <;>
      simp [hr, auditSeeds, Action.auditSeed]
  simp only [auditSeeds_append, h, h1, List.append_nil, true_and]
  rw [h2]
  rfl

theorem eventLoop_seedframe {R X : Type} (c : Collaborators R X) (fuel : Nat)
    (rank size : Int) (hinit : ∀ r x p, (c.init r x p).2.2.randomSeed = p.randomSeed)
    (hrun : ∀ x p, (c.run x p).2.randomSeed = p.randomSeed) :
    ∀ (n : Nat) (iev : Int) (s : St R X) (h5Flag : Int),
      ∀ v ∈ auditSeeds (eventLoop c fuel rank size n iev s h5Flag).trace,
        v = s.param.randomSeed := by
  intro n
  induction n with
  | zero =>
    intro iev s h5Flag v hv
    simp [eventLoop, auditSeeds] at hv
  | succ n ih =>
    intro iev s h5Flag v hv
    obtain ⟨h1, h2⟩ := eventHead_seedframe c fuel rank size iev s hinit hrun
    unfold eventLoop at hv
    simp only at hv
    split at hv
    · obtain ⟨_, ht, _, hparam⟩ := eventTail_calls c rank s.nextId
        (eventHead c fuel rank size iev s).2.2 h5Flag
      simp only [auditSeeds_append, h1, ht, List.append_nil, List.mem_append,
        List.mem_singleton] at hv
      rcases hv with h | h
      · exact h
      · have := ih _ _ _ v h
        rw [this, hparam, h2]
    · rw [h1] at hv
      simpa using hv

/-- C9: in every run that gets past the seed stage, the random stream is seeded
exactly once, with the derived seed stored in `param`: before the seeding call
the worker has done nothing but the start-up (dump, seed messages, store of the
seed), and nothing it does afterwards, in the event loop or the attempt loop,
stores or installs a seed.  When the initializer and the evolver do not
overwrite the stored seed, the audit line of every event records that one
seed. -/
theorem seeded_once_per_run {R X : Type} (c : Collaborators R X) (fuel : Nat)
    (inp : Input R X) (ps : Parameters × R) (hseed : (seedOf c inp).result = some ps) :
    (∃ pre rest : List (Action R),
      (main c fuel inp).trace = pre ++ [Action.seedStream ps.1.randomSeed] ++ rest ∧
      (∀ a ∈ pre, Action.isStartup a = true) ∧ (∀ a ∈ rest, Action.isSeeding a = false)) ∧
    ((∀ r x p, (c.init r x p).2.2.randomSeed = p.randomSeed) →
      (∀ x p, (c.run x p).2.randomSeed = p.randomSeed) →
      ∀ v ∈ auditSeeds (main c fuel inp).trace, v = ps.1.randomSeed) := by
  rcases main_shape c fuel inp with ⟨hnone, _⟩ | ⟨ps2, post, hsome, htr, hpost, _⟩
  · rw [hseed] at hnone
    simp at hnone
  · rw [hseed] at hsome
    simp only [Option.some.injEq] at hsome
    subst hsome
    obtain ⟨pre, post1, hsd, hpre, hpost1⟩ := seedStage_seeded c inp.rank inp.size inp.time
      inp.seedList inp.garbage (loadedParam inp) inp.rng0 ps hseed
    have hsd2 : (seedOf c inp).trace = pre ++ [Action.seedStream ps.1.randomSeed] ++ post1 := hsd
    constructor
    · refine ⟨[Action.writeDump inp.param0.eventId] ++ pre,
        post1 ++ (eventsOf c fuel inp ps).trace ++ post, ?_, ?_, ?_⟩
      · rw [htr, hsd2]
        simp [List.append_assoc]
      · intro a ha
        simp only [List.mem_append, List.mem_singleton] at ha
        rcases ha with h | h
        · subst h; rfl
        · exact hpre a h
      · intro a ha
        simp only [List.mem_append] at ha
        rcases ha with (h | h) | h
        · exact hpost1 a h
        · exact eventLoop_noSeeding c fuel _ _ _ _ _ _ a h
        · rcases hpost a h with h | ⟨st, h⟩ <;> (subst h; rfl)
    · intro hinit hrun v hv
      obtain ⟨_, hsa⟩ := seedStage_calls c inp.rank inp.size inp.time inp.seedList inp.garbage
        (loadedParam inp) inp.rng0
      have hsa2 : auditSeeds (seedOf c inp).trace = [] := hsa
      have hp : auditSeeds post = [] := by
        unfold auditSeeds
        rw [List.filterMap_eq_nil_iff]
        intro a ha
        rcases hpost a ha with h | ⟨st, h⟩ <;> (subst h; rfl)
      rw [htr] at hv
      simp only [auditSeeds_append, hsa2, hp, List.append_nil] at hv
      have hd : auditSeeds [Action.writeDump (R := R) inp.param0.eventId] = [] := rfl
      rw [hd, List.nil_append] at hv
      exact eventLoop_seedframe c fuel inp.rank inp.size hinit hrun _ 0
        { rng := ps.2, ext := inp.ext0, param := ps.1, nextId := 0 } 0 v hv
/-! ## Witnesses on concrete runs -/

set_option maxHeartbeats 4000000 in
/-- The run `sampleRun` with an initializer that fails once and then succeeds. -/
theorem sampleRun_result :
    main (retryCollab 1) 2 sampleRun =
      { trace :=
          [Action.writeDump 0, Action.logDirect 5, Action.setRandomSeed 5,
           Action.seedStream 5, Action.construct Obj.myEigen 0, Action.setEventId 0,
           Action.appendAudit 0 0 5, Action.construct Obj.init 1,
           Action.construct Obj.group 2, Action.construct Obj.glauber 3, Action.initGlauber,
           Action.construct Obj.evolution 4, Action.construct Obj.lattice 5,
           Action.construct Obj.bufferLattice 6, Action.initCall 1 5 0 1 0,
           Action.destroy Obj.lattice 5, Action.destroy Obj.bufferLattice 6,
           Action.construct Obj.lattice 7, Action.construct Obj.bufferLattice 8,
           Action.initCall 1 7 1 2 1, Action.destroy Obj.init 1,
           Action.destroy Obj.glauber 3, Action.run 7 8,
           Action.destroy Obj.bufferLattice 8, Action.destroy Obj.lattice 7,
           Action.barrier, Action.destroy Obj.group 2, Action.destroy Obj.evolution 4,
           Action.destroy Obj.myEigen 0, Action.finalize],
        status := some 1 } := by
  decide

theorem retryCollab_keeps_seed (K : Nat) (r x : Nat) (p : Parameters) :
    ((retryCollab K).init r x p).2.2.randomSeed = p.randomSeed := by
  unfold retryCollab
  simp only
  split <;> rfl

/-- Witness for `retry_until_success`: an event that starts with the flag left
set by the event before it, with an initializer that fails twice and then
succeeds. -/
theorem retry_until_success_witness :
    (∀ j < 2, attemptOutcome (retryCollab 2)
        (afterFailures (retryCollab 2) j (loopEntry (retryCollab 2) 0 1 1 laterState)) = 0) ∧
    attemptOutcome (retryCollab 2)
        (afterFailures (retryCollab 2) 2 (loopEntry (retryCollab 2) 0 1 1 laterState)) ≠ 0 ∧
    eventHead (retryCollab 2) 3 0 1 1 laterState =
      (true,
       preamble 0 1 1 laterState ++
         failCycles (retryCollab 2) 11 2 (loopEntry (retryCollab 2) 0 1 1 laterState) ++
         successCycle (retryCollab 2) 11 13
           (afterFailures (retryCollab 2) 2 (loopEntry (retryCollab 2) 0 1 1 laterState)),
       successStep (retryCollab 2)
         (afterFailures (retryCollab 2) 2 (loopEntry (retryCollab 2) 0 1 1 laterState))) :=
  ⟨by decide, by decide,
    ((retry_until_success (retryCollab 2) 2 0 0 1 1 laterState (by decide)
      (by decide)).2.2.2.2.2.2.2.2 (fun _ _ h => h)).1⟩

/-- Witness for `seeded_once_per_run`: the run `sampleRun`, seeded once with 5;
its one audit line records 5. -/
theorem seeded_once_per_run_witness :
    (seedOf (retryCollab 1) sampleRun).result =
      some ({ sampleParam with cfg := sampleConfig 5 0 0, MPISize := 1, randomSeed := 5 }, 0) ∧
    (∃ pre rest : List (Action Nat),
      (main (retryCollab 1) 2 sampleRun).trace = pre ++ [Action.seedStream 5] ++ rest ∧
      (∀ a ∈ pre, Action.isStartup a = true) ∧ (∀ a ∈ rest, Action.isSeeding a = false)) ∧
    ∀ v ∈ auditSeeds (main (retryCollab 1) 2 sampleRun).trace, v = 5 :=
  ⟨rfl,
   (seeded_once_per_run (retryCollab 1) 2 sampleRun
      ({ sampleParam with cfg := sampleConfig 5 0 0, MPISize := 1, randomSeed := 5 }, 0) rfl).1,
   (seeded_once_per_run (retryCollab 1) 2 sampleRun
      ({ sampleParam with cfg := sampleConfig 5 0 0, MPISize := 1, randomSeed := 5 }, 0) rfl).2
      (retryCollab_keeps_seed 1) (fun _ _ => rfl)⟩

theorem retryCollab_draws (K : Nat) (r x : Nat) (p : Parameters) :
    r < ((retryCollab K).init r x p).1 := by
  unfold retryCollab
  simp only
  split <;> simp

/-- Witness for `stream_not_rewound`: in the run `sampleRun` the failed first
attempt starts at draw count 0 and leaves 1; the second attempt starts at 1. -/
theorem stream_not_rewound_witness :
    (initCalls (main (retryCollab 1) 2 sampleRun).trace)[0]? = some (0, 1) ∧
    (initCalls (main (retryCollab 1) 2 sampleRun).trace)[0 + 1]? = some (1, 2) ∧
    (1 : Nat) = 1 ∧ (0 : Nat) < 1 :=
  ⟨by rw [sampleRun_result]; rfl, by rw [sampleRun_result]; rfl,
   (stream_not_rewound (retryCollab 1) 2 sampleRun 0 0 1 1 2
     (by rw [sampleRun_result]; rfl) (by rw [sampleRun_result]; rfl)).1,
   (stream_not_rewound (retryCollab 1) 2 sampleRun 0 0 1 1 2
     (by rw [sampleRun_result]; rfl) (by rw [sampleRun_result]; rfl)).2 (fun r => r)
     (retryCollab_draws 1)⟩
/-! ## Time-based seeds: the claims -/

theorem toULL_nonneg (z : Int) (h0 : 0 ≤ z) (h1 : z < 2 ^ 64) : toULL z = z.toNat := by
  unfold toULL
  rw [Int.emod_eq_of_lt h0 h1]

theorem time_seed_value (t : Int) (S : Nat) (r : Int) (h0 : 0 ≤ r)
    (h1 : r * 1000 ≤ INT_MAX) :
    addULL (addULL (toULL t) (mulULL S 10000)) (toULL (rankOffset r)) =
      ((t + S * 10000 + r * 1000) % 2 ^ 64).toNat := by
  rw [rankOffset_in_range r h0 h1]
  unfold addULL mulULL toULL ULLMOD
  have ht : 0 ≤ t % 2 ^ 64 := Int.emod_nonneg _ (by norm_num)
  have hcast : (((((t % 2 ^ 64).toNat + S * 10000 % 2 ^ 64) % 2 ^ 64 + r.toNat * 1000)
      % 2 ^ 64 : Nat) : Int) = (t + S * 10000 + r * 1000) % 2 ^ 64 := by
    push_cast
    omega
  rw [← hcast]
  rfl

theorem offset_seeds_ne (x1 x2 A o1 o2 : Nat) (hx1 : x1 < 9223372036854775808)
    (hx2 : x2 < 9223372036854775808) (ho1 : o1 * 1000 ≤ 2147483647)
    (ho2 : o2 * 1000 ≤ 2147483647) (hne : x1 + o1 * 1000 ≠ x2 + o2 * 1000) :
    addULL (addULL x1 A) (o1 * 1000) ≠ addULL (addULL x2 A) (o2 * 1000) := by
  unfold addULL ULLMOD
  norm_num
  omega

/-- C15 (as stated, refuted): in time-based mode on rank 2147484 the `int`
product `rank*1000` leaves the range of `int`; with clock reading 1700000000
and configured seed 5 the value stored and passed to the seeding call is
18446744073262118320, not (1700000000 + 5*10000 + 2147484*1000) mod 2^64. -/
theorem time_seed_rank_overflow :
    (main (retryCollab 0) 1
        (sampleInput 2147484 2147485 "0" (sampleConfig 5 0 1) none)).trace =
      [Action.writeDump 0, Action.setRandomSeed 18446744073262118320,
       Action.logTime 18446744073262118320 3847533291 18446744071562068325,
       Action.seedStream 18446744073262118320, Action.finalize] ∧
    (18446744073262118320 : Nat) ≠ (1700000000 + 5 * 10000 + 2147484 * 1000) % 2 ^ 64 := by
  constructor
  · decide
  · decide

/-- C15 (amended): in time-based mode (`useSeedList = 0`, `useTimeForSeed = 1`),
for every clock reading `t`, configured seed `S` and worker id `r` with `0 <= r`
and `r*1000` within `int`, the run starts with the parameter dump, then stores
the value `(t + S*10000 + r*1000) mod 2^64` as derived seed, logs it and passes
it to the seeding call; nothing the worker does afterwards stores or installs a
seed again. -/
theorem time_seed_derivation {R X : Type} (c : Collaborators R X) (fuel : Nat)
    (inp : Input R X)
    (hlist : (inp.setup (configPath inp.argv)).useSeedList = 0)
    (htime : (inp.setup (configPath inp.argv)).useTimeForSeed = 1)
    (h0 : 0 ≤ inp.rank) (h1 : inp.rank * 1000 ≤ INT_MAX) :
    ∃ (fromTime argument : Nat) (rest : List (Action R)),
      (main c fuel inp).trace =
        [Action.writeDump inp.param0.eventId,
         Action.setRandomSeed
           ((inp.time + (inp.setup (configPath inp.argv)).seed * 10000 +
             inp.rank * 1000) % 2 ^ 64).toNat,
         Action.logTime
           ((inp.time + (inp.setup (configPath inp.argv)).seed * 10000 +
             inp.rank * 1000) % 2 ^ 64).toNat fromTime argument,
         Action.seedStream
           ((inp.time + (inp.setup (configPath inp.argv)).seed * 10000 +
             inp.rank * 1000) % 2 ^ 64).toNat] ++ rest ∧
      ∀ a ∈ rest, Action.isSeeding a = false := by
  obtain ⟨rest, htr, hrest⟩ := main_trace_split c fuel inp
  refine ⟨subULL (subULL (addULL (toULL inp.time)
      (mulULL (inp.setup (configPath inp.argv)).seed 10000))
      ((inp.setup (configPath inp.argv)).seed % ULLMOD)) (toULL (rankOffset inp.rank)),
    addULL (inp.setup (configPath inp.argv)).seed (toULL (rankOffset inp.rank)), rest, ?_,
    hrest⟩
  rw [htr, ← time_seed_value inp.time _ inp.rank h0 h1]
  unfold seedStage
  simp only [hlist, htime, if_true]
  rfl

/-- Witness for `time_seed_derivation`: rank 3, configured seed 5, clock reading
1700000000. -/
theorem time_seed_derivation_witness :
    ∃ (fromTime argument : Nat) (rest : List (Action Nat)),
      (main (retryCollab 1) 4 (sampleInput 3 4 "2" (sampleConfig 5 0 1) none)).trace =
        [Action.writeDump 0, Action.setRandomSeed 1700053000,
         Action.logTime 1700053000 fromTime argument,
         Action.seedStream 1700053000] ++ rest ∧
      ∀ a ∈ rest, Action.isSeeding a = false :=
  time_seed_derivation (retryCollab 1) 4 (sampleInput 3 4 "2" (sampleConfig 5 0 1) none)
    (by decide) (by decide) (by decide) (by decide)

/-- C16 (failing input): in time-based mode with clock reading 1700000000,
configured seed 1 and rank 1 the driver stores and logs the seed 1700011000; the
value it logs as the time the seed was made from is 1700008999
(`rnum - seed - rank*1000`, that is `t + 9999*S - 1000*r`), not the clock
reading, and the logged argument is 1001 (`seed + rank*1000`); neither the sum
of the two, 1700010000, nor the derivation formula applied to them gives the
logged seed. -/
theorem time_log_not_clock :
    (main (retryCollab 0) 1 (sampleInput 1 4 "0" (sampleConfig 1 0 1) none)).trace =
      [Action.writeDump 0, Action.setRandomSeed 1700011000,
       Action.logTime 1700011000 1700008999 1001, Action.seedStream 1700011000,
       Action.finalize] ∧
    (sampleInput 1 4 "0" (sampleConfig 1 0 1) none).time = 1700000000 ∧
    (1700008999 : Nat) ≠ 1700000000 ∧
    (1700008999 + 1001 : Nat) ≠ 1700011000 ∧
    (1700008999 + 1 * 10000 + 1 * 1000 : Nat) ≠ 1700011000 := by
  refine ⟨?_, rfl, ?_, ?_, ?_⟩ <;> decide

/-- C17 (as stated, refuted): in time-based mode with configured seed 3, worker
0 reading the clock at 1700001000 and worker 1 reading it at 1700000000 derive
the same seed 1700031000. -/
theorem time_seed_collision :
    (seedOf (retryCollab 0)
        { sampleInput 0 2 "0" (sampleConfig 3 0 1) none with time := 1700001000 }).trace =
      [Action.setRandomSeed 1700031000, Action.logTime 1700031000 1700030997 3,
       Action.seedStream 1700031000] ∧
    (seedOf (retryCollab 0)
        { sampleInput 1 2 "0" (sampleConfig 3 0 1) none with time := 1700000000 }).trace =
      [Action.setRandomSeed 1700031000, Action.logTime 1700031000 1700028997 1003,
       Action.seedStream 1700031000] := by
  constructor <;> decide

/-- C17 (amended): two workers of one run with distinct ids `r1 != r2`, both
with `r*1000` within `int`, derive different seeds in direct mode; in time-based
mode they derive different seeds whenever their clock readings `t1`, `t2`
(non-negative 64-bit times) do not differ by exactly the difference of the
offsets, `t1 - t2 != (r2 - r1)*1000`, in particular when both read the same
time. -/
theorem seeds_differ_across_workers {R X : Type} (c : Collaborators R X)
    (r1 r2 size t1 t2 : Int) (seedList : Option (List Char)) (g1 g2 : Nat → Nat)
    (p1 p2 : Parameters) (rng1 rng2 : R) (ps1 ps2 : Parameters × R)
    (hcfg : p1.cfg = p2.cfg) (hlist : p1.cfg.useSeedList = 0)
    (hne : r1 ≠ r2) (h1 : 0 ≤ r1) (h1' : r1 * 1000 ≤ INT_MAX)
    (h2 : 0 ≤ r2) (h2' : r2 * 1000 ≤ INT_MAX)
    (htime : p1.cfg.useTimeForSeed = 1 →
      0 ≤ t1 ∧ t1 < 2 ^ 63 ∧ 0 ≤ t2 ∧ t2 < 2 ^ 63 ∧ t1 - t2 ≠ (r2 - r1) * 1000)
    (hs1 : (seedStage c r1 size t1 seedList g1 p1 rng1).result = some ps1)
    (hs2 : (seedStage c r2 size t2 seedList g2 p2 rng2).result = some ps2) :
    ps1.1.randomSeed ≠ ps2.1.randomSeed := by
  have hlist2 : p2.cfg.useSeedList = 0 := hcfg ▸ hlist
  unfold seedStage at hs1 hs2
  simp only [hlist, hlist2, if_true, Option.some.injEq] at hs1 hs2
  subst hs1
  subst hs2
  simp only
  rw [rankOffset_in_range r1 h1 h1', rankOffset_in_range r2 h2 h2', ← hcfg]
  unfold INT_MAX at h1' h2'
  by_cases ht : p1.cfg.useTimeForSeed = 1
  · obtain ⟨a1, a2, a3, a4, a5⟩ := htime ht
    simp only [ht, if_true]
    rw [toULL_nonneg t1 a1 (by omega), toULL_nonneg t2 a3 (by omega)]
    exact offset_seeds_ne t1.toNat t2.toNat (mulULL p1.cfg.seed 10000) r1.toNat r2.toNat
      (by omega) (by omega) (by omega) (by omega) (by omega)
  · simp only [ht, if_false]
    have h := offset_seeds_ne 0 0 p1.cfg.seed r1.toNat r2.toNat
      (by omega) (by omega) (by omega) (by omega) (by omega)
    unfold addULL at h ⊢
    simpa using h

/-- Witness for `seeds_differ_across_workers`: ranks 0 and 1 in time-based mode,
both reading the clock at 1700000000, configured seed 3. -/
theorem seeds_differ_across_workers_witness :
    (seedStage (retryCollab 0) 0 2 1700000000 none (fun _ => 0)
        { sampleParam with cfg := sampleConfig 3 0 1 } (0 : Nat)).result =
      some ({ sampleParam with cfg := sampleConfig 3 0 1, randomSeed := 1700030000 }, 0) ∧
    (seedStage (retryCollab 0) 1 2 1700000000 none (fun _ => 0)
        { sampleParam with cfg := sampleConfig 3 0 1 } (0 : Nat)).result =
      some ({ sampleParam with cfg := sampleConfig 3 0 1, randomSeed := 1700031000 }, 0) ∧
    (1700030000 : Nat) ≠ 1700031000 :=
  ⟨rfl, rfl,
   seeds_differ_across_workers (retryCollab 0) 0 1 2 1700000000 1700000000 none
     (fun _ => 0) (fun _ => 0) { sampleParam with cfg := sampleConfig 3 0 1 }
     { sampleParam with cfg := sampleConfig 3 0 1 } 0 0
     ({ sampleParam with cfg := sampleConfig 3 0 1, randomSeed := 1700030000 }, 0)
     ({ sampleParam with cfg := sampleConfig 3 0 1, randomSeed := 1700031000 }, 0)
     rfl (by decide) (by decide) (by decide) (by decide) (by decide) (by decide)
     (fun _ => by decide) rfl rfl⟩
/-! ## Event ids and audit resources: lemmas -/

/-- An observer that sees none of the actions of the attempt loop sees nothing
of a run of the loop. -/
theorem attemptLoop_filterMap {R X β : Type} (c : Collaborators R X) (i g fuel : Nat)
    (s : St R X) (f : Action R → Option β)
    (hc : ∀ o id, f (Action.construct o id) = none)
    (hd : ∀ o id, f (Action.destroy o id) = none)
    (hi : ∀ a b r1 r2 fl, f (Action.initCall a b r1 r2 fl) = none)
    (hr : ∀ a b, f (Action.run a b) = none) :
    (attemptLoop c i g fuel s).2.1.filterMap f = [] := by
  refine attemptLoop_induction c i g (fun _ res => res.2.1.filterMap f = []) ?_ ?_ ?_ ?_ fuel s
  · intro s _
    rfl
  · intro s _
    rfl
  · intro s res _ _ ih
    simp [failCycle, attemptActions, List.filterMap_append, List.filterMap_cons, hc, hd, hi, ih]
  · intro s res _ _ ih
    simp [successCycle, attemptActions, evolveActions, List.filterMap_append,
      List.filterMap_cons, hc, hd, hi, hr, ih]

theorem eventHead_filterMap {R X β : Type} (c : Collaborators R X) (fuel : Nat)
    (rank size iev : Int) (s : St R X) (f : Action R → Option β)
    (hc : ∀ o id, f (Action.construct o id) = none)
    (hd : ∀ o id, f (Action.destroy o id) = none)
    (hi : ∀ a b r1 r2 fl, f (Action.initCall a b r1 r2 fl) = none)
    (hr : ∀ a b, f (Action.run a b) = none)
    (hg : f Action.initGlauber = none) (hn : f Action.readNkt = none) :
    (eventHead c fuel rank size iev s).2.1.filterMap f =
      (f (Action.setEventId (eventIdOf rank size iev))).toList ++
      (f (Action.appendAudit (eventIdOf rank size iev) rank s.param.randomSeed)).toList := by
  rw [eventHead_eq]
  simp only [List.filterMap_append, attemptLoop_filterMap c _ _ fuel _ f hc hd hi hr,
    List.append_nil]
  unfold preamble eventIdOf
  by_cases h : s.param.cfg.readMultFromFile = 1
  · simp only [h, if_true, List.filterMap_append, List.filterMap_cons, hc, hg, hn,
      List.filterMap_nil, List.append_nil]
    cases f (Action.setEventId (wrapInt (rank + wrapInt (iev * size)))) <;>
      cases f (Action.appendAudit (wrapInt (rank + wrapInt (iev * size))) rank
        s.param.randomSeed) <;> rfl
  · simp only [h, if_false, List.filterMap_append, List.filterMap_cons, hc, hg,
      List.filterMap_nil, List.append_nil]
    cases f (Action.setEventId (wrapInt (rank + wrapInt (iev * size)))) <;>
      cases f (Action.appendAudit (wrapInt (rank + wrapInt (iev * size))) rank
        s.param.randomSeed) <;> rfl

theorem eventTail_filterMap {R X β : Type} (c : Collaborators R X) (rank : Int) (first : Nat)
    (s : St R X) (h5Flag : Int) (f : Action R → Option β)
    (hd : ∀ o id, f (Action.destroy o id) = none) (hb : f Action.barrier = none)
    (hs : ∀ cmd st, f (Action.system cmd st) = none) :
    (eventTail c rank first s h5Flag).1.filterMap f = [] := by
  unfold eventTail
  by_cases h : s.param.cfg.writeOutputsToHDF5 = 1 <;>
    simp [h, List.filterMap_cons, hd, hb, hs]

theorem eventIdOf_in_range (rank size : Int) (k : Nat) (h0 : 0 ≤ rank) (hs : 0 ≤ size)
    (hr : rank + k * size ≤ INT_MAX) : eventIdOf rank size k = rank + k * size := by
  unfold INT_MAX at hr
  have hk : (0 : Int) ≤ k * size := mul_nonneg (Int.ofNat_nonneg k) hs
  have hw : ∀ z : Int, 0 ≤ z → z ≤ 2147483647 → wrapInt z = z := by
    intro z hz0 hz1
    unfold wrapInt
    rw [Int.emod_eq_of_lt (by omega) (by omega)]
    omega
  unfold eventIdOf
  rw [hw _ hk (by omega), hw _ (by omega) hr]

/-- The event ids set and the audit resources appended to by the event loop:
those of the indices `iev`, `iev + 1`, ... of the iterations begun, which are
all `n` when every attempt loop ended. -/
theorem eventLoop_ids {R X : Type} (c : Collaborators R X) (fuel : Nat) (rank size : Int) :
    ∀ (n : Nat) (iev : Int) (s : St R X) (h5Flag : Int),
      ∃ m : Nat, m ≤ n ∧
        eventIds (eventLoop c fuel rank size n iev s h5Flag).trace =
          (List.range m).map (fun j => eventIdOf rank size (iev + (j : Nat))) ∧
        auditTargets (eventLoop c fuel rank size n iev s h5Flag).trace =
          (List.range m).map (fun j => auditName (eventIdOf rank size (iev + (j : Nat)))) ∧
        ((eventLoop c fuel rank size n iev s h5Flag).ended = true → m = n) := by
  intro n
  induction n with
  | zero =>
    intro iev s h5Flag
    exact ⟨0, le_refl _, rfl, rfl, fun _ => rfl⟩
  | succ n ih =>
    intro iev s h5Flag
    have hid : eventIds (eventHead c fuel rank size iev s).2.1 = [eventIdOf rank size iev] := by
      unfold eventIds
      rw [eventHead_filterMap c fuel rank size iev s _ (fun _ _ => rfl) (fun _ _ => rfl)
        (fun _ _ _ _ _ => rfl) (fun _ _ => rfl) rfl rfl]
      rfl
    have hau : auditTargets (eventHead c fuel rank size iev s).2.1 =
        [auditName (eventIdOf rank size iev)] := by
      unfold auditTargets
      rw [eventHead_filterMap c fuel rank size iev s _ (fun _ _ => rfl) (fun _ _ => rfl)
        (fun _ _ _ _ _ => rfl) (fun _ _ => rfl) rfl rfl]
      rfl
    unfold eventLoop
    simp only
    split
    · obtain ⟨m, hm, h1, h2, h3⟩ := ih (iev + 1) (eventTail c rank s.nextId
        (eventHead c fuel rank size iev s).2.2 h5Flag).2.1 (eventTail c rank s.nextId
        (eventHead c fuel rank size iev s).2.2 h5Flag).2.2
      have ht1 : eventIds (eventTail c rank s.nextId
          (eventHead c fuel rank size iev s).2.2 h5Flag).1 = [] :=
        eventTail_filterMap c rank _ _ _ _ (fun _ _ => rfl) rfl (fun _ _ => rfl)
      have ht2 : auditTargets (eventTail c rank s.nextId
          (eventHead c fuel rank size iev s).2.2 h5Flag).1 = [] :=
        eventTail_filterMap c rank _ _ _ _ (fun _ _ => rfl) rfl (fun _ _ => rfl)
      have hshift : ∀ j : Nat, iev + 1 + (j : Int) = iev + ((j + 1 : Nat) : Int) := by
        intro j
        push_cast
        omega
      refine ⟨m + 1, by omega, ?_, ?_, fun h => by rw [h3 h]⟩
      · show eventIds (_ ++ _ ++ _) = _
        unfold eventIds at hid ht1 h1 ⊢
        rw [List.filterMap_append, List.filterMap_append, hid, ht1, h1, List.range_succ_eq_map]
        simp [hshift]
      · show auditTargets (_ ++ _ ++ _) = _
        unfold auditTargets at hau ht2 h2 ⊢
        rw [List.filterMap_append, List.filterMap_append, hau, ht2, h2, List.range_succ_eq_map]
        simp [hshift]
    · rename_i hne
      refine ⟨1, by omega, ?_, ?_, fun h => absurd h (by simp)⟩
      · rw [hid]
        simp [List.range_succ_eq_map]
      · rw [hau]
        simp [List.range_succ_eq_map]

theorem seedStage_filterMap {R X β : Type} (c : Collaborators R X) (rank size time : Int)
    (seedList : Option (List Char)) (garbage : Nat → Nat) (param : Parameters) (rng : R)
    (f : Action R → Option β) (hf : ∀ a, Action.isStartup a = true → Action.isDump a = false →
      f a = none)
    (hs : ∀ v, f (Action.seedStream v) = none) :
    (seedStage c rank size time seedList garbage param rng).trace.filterMap f = [] := by
  unfold seedStage
  split
  · by_cases ht : param.cfg.useTimeForSeed = 1 <;>
      simp [ht, List.filterMap_cons, hs, hf, Action.isStartup, Action.isDump]
  · split
    · rfl
    · split
      · rfl
      · simp [List.filterMap_cons, hs, hf, Action.isStartup, Action.isDump]

/-- An observer that sees neither the start-up nor the tail of `main` sees of a
run that passes the seed stage what it sees of the event loop, and nothing of a
run that stops in the seed stage. -/
theorem main_filterMap {R X β : Type} (c : Collaborators R X) (fuel : Nat) (inp : Input R X)
    (f : Action R → Option β) (hf : ∀ a, Action.isStartup a = true → f a = none)
    (hs : ∀ v, f (Action.seedStream v) = none) (hfin : f Action.finalize = none)
    (hsys : ∀ st, f (Action.system combineCommand st) = none) :
    ((seedOf c inp).result = none ∧ (main c fuel inp).trace.filterMap f = []) ∨
    ∃ ps, (seedOf c inp).result = some ps ∧
      (main c fuel inp).trace.filterMap f = (eventsOf c fuel inp ps).trace.filterMap f := by
  have hsd : (seedOf c inp).trace.filterMap f = [] :=
    seedStage_filterMap c _ _ _ _ _ _ _ f (fun a h _ => hf a h) hs
  have hw : f (Action.writeDump inp.param0.eventId) = none := hf _ rfl
  rcases main_shape c fuel inp with ⟨hnone, hm⟩ | ⟨ps, post, hsome, htr, hpost, _⟩
  · refine Or.inl ⟨hnone, ?_⟩
    rw [hm]
    simp [List.filterMap_append, List.filterMap_cons, hw, hsd]
  · refine Or.inr ⟨ps, hsome, ?_⟩
    have hp : post.filterMap f = [] := by
      rw [List.filterMap_eq_nil_iff]
      intro a ha
      rcases hpost a ha with h | ⟨st, h⟩
      · rw [h]; exact hfin
      · rw [h]; exact hsys st
    rw [htr]
    simp [List.filterMap_append, List.filterMap_cons, hw, hsd, hp]

/-! ## Event ids and audit resources: the claims -/

set_option maxHeartbeats 4000000 in
/-- C11 (as stated, refuted): on rank 1 of 2147483647 workers the `int`
expression `rank + iev*size` leaves the range of `int` at event index 1; the
event id set is -2147483648 and the audit resource is
`usedParameters-2147483648.dat`, not those of 1 + 1*2147483647 = 2147483648. -/
theorem event_id_overflow :
    eventIds (main (retryCollab 0) 1
        (sampleInput 1 2147483647 "2" (sampleConfig 5 0 0) none)).trace =
      [1, -2147483648] ∧
    auditTargets (main (retryCollab 0) 1
        (sampleInput 1 2147483647 "2" (sampleConfig 5 0 0) none)).trace =
      ["usedParameters1.dat", "usedParameters-2147483648.dat"] ∧
    (-2147483648 : Int) ≠ 1 + 1 * 2147483647 := by
  refine ⟨?_, ?_, ?_⟩ <;> decide

/-- C11 (amended): the event id set in the iteration of index `k` of the event
loop is `rank + k*size`, and the audit line of that iteration goes to
`usedParameters<rank + k*size>.dat`, for every worker id, worker count and index
with `0 <= rank`, `0 <= size` and `rank + k*size` within `int`; a run whose
attempt loops all end sets one event id for each of the requested events. -/
theorem event_id_of_iteration {R X : Type} (c : Collaborators R X) (fuel : Nat)
    (inp : Input R X) (k : Nat) (v : Int)
    (hk : (eventIds (main c fuel inp).trace)[k]? = some v)
    (h0 : 0 ≤ inp.rank) (hs : 0 ≤ inp.size) (hr : inp.rank + k * inp.size ≤ INT_MAX) :
    v = inp.rank + k * inp.size ∧
    (auditTargets (main c fuel inp).trace)[k]? =
      some ("usedParameters" ++ toString (inp.rank + k * inp.size) ++ ".dat") ∧
    (∀ ps, (seedOf c inp).result = some ps → (eventsOf c fuel inp ps).ended = true →
      (eventIds (main c fuel inp).trace).length = (requestedEvents inp.argv).toNat) := by
  have hm1 := main_filterMap c fuel inp Action.eventIdSet
    (fun a ha => by cases a <;> first | rfl | simp [Action.isStartup] at ha)
    (fun _ => rfl) rfl (fun _ => rfl)
  have hm2 := main_filterMap c fuel inp Action.auditTarget
    (fun a ha => by cases a <;> first | rfl | simp [Action.isStartup] at ha)
    (fun _ => rfl) rfl (fun _ => rfl)
  rcases hm1 with ⟨_, hnil⟩ | ⟨ps, hps, he⟩
  · have : eventIds (main c fuel inp).trace = [] := hnil
    rw [this] at hk
    simp at hk
  · rcases hm2 with ⟨hnone, _⟩ | ⟨ps2, hps2, ha⟩
    · rw [hps] at hnone
      simp at hnone
    · rw [hps] at hps2
      simp only [Option.some.injEq] at hps2
      subst hps2
      obtain ⟨m, _, h1, h2, h3⟩ := eventLoop_ids c fuel inp.rank inp.size
        (requestedEvents inp.argv).toNat 0
        { rng := ps.2, ext := inp.ext0, param := ps.1, nextId := 0 } 0
      have he' : eventIds (main c fuel inp).trace =
          (List.range m).map (fun j => eventIdOf inp.rank inp.size (0 + (j : Nat))) :=
        he.trans h1
      have ha' : auditTargets (main c fuel inp).trace =
          (List.range m).map (fun j => auditName (eventIdOf inp.rank inp.size (0 + (j : Nat)))) :=
        ha.trans h2
      rw [he'] at hk
      rw [List.getElem?_map] at hk
      have hkm : k < m := by
        by_contra hcon
        rw [List.getElem?_eq_none (by simpa using hcon)] at hk
        simp at hk
      rw [List.getElem?_range hkm] at hk
      simp only [Option.map_some', Option.some.injEq, zero_add] at hk
      have hid := eventIdOf_in_range inp.rank inp.size k h0 hs hr
      refine ⟨by rw [← hk, hid], ?_, ?_⟩
      · rw [ha', List.getElem?_map, List.getElem?_range hkm]
        simp only [Option.map_some', zero_add, hid]
        rfl
      · intro ps3 hps3 hend
        rw [hps] at hps3
        simp only [Option.some.injEq] at hps3
        subst hps3
        rw [he', h3 hend]
        simp

set_option maxHeartbeats 4000000 in
/-- Event ids of a run of two events on rank 1 of 4 workers. -/
theorem twoEventRun_ids :
    eventIds (main (retryCollab 0) 1 (sampleInput 1 4 "2" (sampleConfig 5 0 0) none)).trace =
      [1, 5] := by
  decide

/-- Witness for `event_id_of_iteration`: on rank 1 of 4 workers the event of
index 1 gets id 5 and writes to `usedParameters5.dat`. -/
theorem event_id_of_iteration_witness :
    (eventIds (main (retryCollab 0) 1
      (sampleInput 1 4 "2" (sampleConfig 5 0 0) none)).trace)[1]? = some 5 ∧
    (5 : Int) = 1 + (1 : Nat) * 4 ∧
    (auditTargets (main (retryCollab 0) 1
      (sampleInput 1 4 "2" (sampleConfig 5 0 0) none)).trace)[1]? =
      some ("usedParameters" ++ toString ((1 : Int) + (1 : Nat) * 4) ++ ".dat") :=
  ⟨by rw [twoEventRun_ids]; rfl,
   (event_id_of_iteration (retryCollab 0) 1 (sampleInput 1 4 "2" (sampleConfig 5 0 0) none)
     1 5 (by rw [twoEventRun_ids]; rfl) (by decide) (by decide) (by decide)).1,
   (event_id_of_iteration (retryCollab 0) 1 (sampleInput 1 4 "2" (sampleConfig 5 0 0) none)
     1 5 (by rw [twoEventRun_ids]; rfl) (by decide) (by decide) (by decide)).2.1⟩
/-! ## Fatal seed errors and the audit resources: the claims -/

theorem seedStage_none_trace {R X : Type} (c : Collaborators R X) (rank size time : Int)
    (seedList : Option (List Char)) (garbage : Nat → Nat) (param : Parameters) (rng : R)
    (h : (seedStage c rank size time seedList garbage param rng).result = none) :
    (seedStage c rank size time seedList garbage param rng).trace = [] := by
  unfold seedStage at h ⊢
  split
  · rename_i hl
    simp [hl] at h
  · rename_i hl
    simp only [hl, if_false] at h
    split
    · rfl
    · split
      · rfl
      · rename_i content r hr
        simp [hr] at h

/-- C14 (as stated, refuted): in seed-list mode with three workers and a seed
list of two entries the run ends with status 1 in the seed stage, and by then
`readInput` has written its dump: `usedParameters0.dat`, absent before the run,
exists with the lines of the dump. -/
theorem fatal_run_writes_dump :
    main (retryCollab 0) 1 (sampleInput 0 3 "1" (sampleConfig 0 1 0) (some "10\n20".data)) =
      { trace := [Action.writeDump 0], status := some 1 } ∧
    written (main (retryCollab 0) 1
      (sampleInput 0 3 "1" (sampleConfig 0 1 0) (some "10\n20".data))).trace =
      ["usedParameters0.dat"] ∧
    emptyStore "usedParameters0.dat" = none ∧
    filesAfter ["Used parameters by IP-Glasma v1.3"] emptyStore
      (main (retryCollab 0) 1
        (sampleInput 0 3 "1" (sampleConfig 0 1 0) (some "10\n20".data))).trace
      "usedParameters0.dat" = some ["Used parameters by IP-Glasma v1.3"] := by
  refine ⟨?_, ?_, ?_, ?_⟩ <;> decide

/-- C14 (amended): a run that ends in the seed stage (seed list missing or
found too short) ends with status 1 and appends no audit line, as no event
begins; its one write to a `usedParameters` resource is the dump of `readInput`
to `usedParameters<e0>.dat`, made before the seed stage, `e0` being the event id
the new `Parameters` object holds. -/
theorem fatal_run_only_dump {R X : Type} (c : Collaborators R X) (fuel : Nat)
    (inp : Input R X) (hfatal : (seedOf c inp).result = none) :
    main c fuel inp = { trace := [Action.writeDump inp.param0.eventId], status := some 1 } ∧
    auditTargets (main c fuel inp).trace = [] ∧
    written (main c fuel inp).trace = [auditName inp.param0.eventId] := by
  have htr : main c fuel inp =
      { trace := [Action.writeDump inp.param0.eventId], status := some 1 } := by
    rcases main_shape c fuel inp with ⟨_, hm⟩ | ⟨ps, _, hsome, _⟩
    · rw [hm, show (seedOf c inp).trace = [] from seedStage_none_trace c _ _ _ _ _ _ _ hfatal]
      rfl
    · rw [hfatal] at hsome
      simp at hsome
  refine ⟨htr, ?_, ?_⟩
  · rw [htr]
    rfl
  · rw [htr]
    rfl

/-- Witness for `fatal_run_only_dump`: seed-list mode without a resource
`seedList`. -/
theorem fatal_run_only_dump_witness :
    (seedOf (retryCollab 0) (sampleInput 1 4 "2" (sampleConfig 9 1 0) none)).result = none ∧
    main (retryCollab 0) 3 (sampleInput 1 4 "2" (sampleConfig 9 1 0) none) =
      { trace := [Action.writeDump 0], status := some 1 } :=
  ⟨rfl, (fatal_run_only_dump (retryCollab 0) 3
    (sampleInput 1 4 "2" (sampleConfig 9 1 0) none) rfl).1⟩
/-! ## The audit resources as a store: lemmas -/

theorem attemptLoop_actions {R X : Type} (c : Collaborators R X) (i g fuel : Nat)
    (s : St R X) :
    ∀ a ∈ (attemptLoop c i g fuel s).2.1, Action.isEventAction a = true := by
  refine attemptLoop_induction c i g
    (fun _ res => ∀ a ∈ res.2.1, Action.isEventAction a = true) ?_ ?_ ?_ ?_ fuel s
  · intro s _ a ha
    simp at ha
  · intro s _ a ha
    simp at ha
  · intro s res _ _ ih a ha
    simp only [failCycle, attemptActions, List.mem_append, List.mem_cons] at ha
    rcases ha with ((h | h | h | h) | (h | h | h)) | h
    all_goals first | (subst h; rfl) | exact ih a h | simp at h
  · intro s res _ _ ih a ha
    simp only [successCycle, attemptActions, evolveActions, List.mem_append,
      List.mem_cons] at ha
    rcases ha with ((h | h | h | h) | (h | h | h | h | h | h)) | h
    all_goals first | (subst h; rfl) | exact ih a h | simp at h

theorem eventLoop_actions {R X : Type} (c : Collaborators R X) (fuel : Nat)
    (rank size : Int) :
    ∀ (n : Nat) (iev : Int) (s : St R X) (h5Flag : Int),
      ∀ a ∈ (eventLoop c fuel rank size n iev s h5Flag).trace,
        Action.isEventAction a = true := by
  intro n
  induction n with
  | zero =>
    intro iev s h5Flag a ha
    simp [eventLoop] at ha
  | succ n ih =>
    intro iev s h5Flag a ha
    have hhead : ∀ a ∈ (eventHead c fuel rank size iev s).2.1,
        Action.isEventAction a = true := by
      intro a ha
      rw [eventHead_eq] at ha
      simp only [List.mem_append] at ha
      rcases ha with h | h
      · unfold preamble at h
        simp only [List.mem_append, List.mem_cons] at h
        rcases h with (h | h | h | h | h | h | h | h | h) | h
        all_goals first | (subst h; rfl) | skip
        · simp at h
        · split at h
          · simp only [List.mem_singleton] at h
            subst h; rfl
          · simp at h
      · exact attemptLoop_actions c _ _ fuel _ a h
    have htail : ∀ (st : St R X) a, a ∈ (eventTail c rank s.nextId st h5Flag).1 →
        Action.isEventAction a = true := by
      intro st a ha
      unfold eventTail at ha
      split at ha
      · simp only [List.mem_append, List.mem_cons] at ha
        rcases ha with (h | h | h) | (h | h | h | h)
        all_goals first | (subst h; rfl) | simp at h
      · simp only [List.mem_append, List.mem_cons] at ha
        rcases ha with (h | h) | (h | h | h | h)
        all_goals first | (subst h; rfl) | simp at h
    unfold eventLoop at ha
    simp only at ha
    split at ha
    · simp only [List.mem_append] at ha
      rcases ha with (h | h) | h
      · exact hhead a h
      · exact htail _ a h
      · exact ih _ _ _ a h
    · exact hhead a ha

/-- After the dump of `readInput`, the first action of every run, no action of
the run is a dump. -/
theorem main_dump_first {R X : Type} (c : Collaborators R X) (fuel : Nat) (inp : Input R X) :
    ∃ rest : List (Action R),
      (main c fuel inp).trace = Action.writeDump inp.param0.eventId :: rest ∧
      ∀ a ∈ rest, Action.isDump a = false := by
  have hsd : ∀ a ∈ (seedOf c inp).trace, Action.isDump a = false := by
    intro a hmem
    unfold seedOf seedStage at hmem
    split at hmem
    · by_cases ht : (loadedParam inp).cfg.useTimeForSeed = 1
      · simp only [ht, if_true, List.nil_append, List.mem_append, List.mem_cons] at hmem
        rcases hmem with ((h | h) | (h | h)) | (h | h)
        all_goals first | (subst h; rfl) | simp at h
      · simp only [ht, if_false, List.append_nil, List.mem_append, List.mem_cons] at hmem
        rcases hmem with ((h | h) | (h | h)) | (h | h)
        all_goals first | (subst h; rfl) | simp at h
    · split at hmem
      · simp at hmem
      · split at hmem
        · simp at hmem
        · simp only [List.mem_cons] at hmem
          rcases hmem with h | h | h | h
          all_goals first | (subst h; rfl) | simp at h
  rcases main_shape c fuel inp with ⟨_, hm⟩ | ⟨ps, post, _, htr, hpost, _⟩
  · refine ⟨(seedOf c inp).trace, by rw [hm]; rfl, hsd⟩
  · refine ⟨(seedOf c inp).trace ++ (eventsOf c fuel inp ps).trace ++ post, ?_, ?_⟩
    · rw [htr]
      simp
    · intro a ha
      simp only [List.mem_append] at ha
      rcases ha with (h | h) | h
      · exact hsd a h
      · have := eventLoop_actions c fuel _ _ _ _ _ _ a h
        cases a <;> first | rfl | simp [Action.isEventAction] at this
      · rcases hpost a h with h | ⟨st, h⟩ <;> (subst h; rfl)

theorem filesAfter_append {R : Type} (dump : List String) (fs : Files)
    (a b : List (Action R)) :
    filesAfter dump fs (a ++ b) = filesAfter dump (filesAfter dump fs a) b := by
  simp [filesAfter, List.foldl_append]

/-- A line a resource holds stays in it as long as no dump is written. -/
theorem line_persists {R : Type} (dump : List String) (name line : String)
    (tr : List (Action R)) (hnd : ∀ a ∈ tr, Action.isDump a = false) :
    ∀ fs : Files, line ∈ (fs name).getD [] → line ∈ (filesAfter dump fs tr name).getD [] := by
  induction tr with
  | nil => intro fs h; exact h
  | cons x xs ih =>
    intro fs h
    have hx : Action.isDump x = false := hnd x (by simp)
    have hstep : line ∈ (writeEffect dump fs x name).getD [] := by
      cases x <;> first | exact h | simp [Action.isDump] at hx
      rename_i e r s
      show line ∈ (Function.update fs (auditName e)
        (some ((fs (auditName e)).getD [] ++ [auditLine r s])) name).getD []
      by_cases hn : name = auditName e
      · subst hn
        simp only [Function.update_same, Option.getD_some, List.mem_append]
        exact Or.inl h
      · rw [Function.update_noteq hn]
        exact h
    exact ih (fun a ha => hnd a (by simp [ha])) _ hstep
/-! ## The audit resources as a store: the claims -/

theorem eventLoop_auditTexts {R X : Type} (c : Collaborators R X) (fuel : Nat)
    (rank size : Int) (hinit : ∀ r x p, (c.init r x p).2.2.randomSeed = p.randomSeed)
    (hrun : ∀ x p, (c.run x p).2.randomSeed = p.randomSeed) :
    ∀ (n : Nat) (iev : Int) (s : St R X) (h5Flag : Int),
      ∀ t ∈ auditTexts (eventLoop c fuel rank size n iev s h5Flag).trace,
        t = auditLine rank s.param.randomSeed := by
  intro n
  induction n with
  | zero =>
    intro iev s h5Flag t ht
    simp [eventLoop, auditTexts] at ht
  | succ n ih =>
    intro iev s h5Flag t ht
    have hhead : auditTexts (eventHead c fuel rank size iev s).2.1 =
        [auditLine rank s.param.randomSeed] := by
      unfold auditTexts
      rw [eventHead_filterMap c fuel rank size iev s _ (fun _ _ => rfl) (fun _ _ => rfl)
        (fun _ _ _ _ _ => rfl) (fun _ _ => rfl) rfl rfl]
      rfl
    obtain ⟨_, hseed⟩ := eventHead_seedframe c fuel rank size iev s hinit hrun
    unfold eventLoop at ht
    simp only at ht
    split at ht
    · have htail : auditTexts (eventTail c rank s.nextId
          (eventHead c fuel rank size iev s).2.2 h5Flag).1 = [] :=
        eventTail_filterMap c rank _ _ _ _ (fun _ _ => rfl) rfl (fun _ _ => rfl)
      obtain ⟨_, _, _, hparam⟩ := eventTail_calls c rank s.nextId
        (eventHead c fuel rank size iev s).2.2 h5Flag
      unfold auditTexts at hhead htail ht
      rw [List.filterMap_append, List.filterMap_append, hhead, htail] at ht
      simp only [List.append_nil, List.singleton_append, List.mem_cons] at ht
      rcases ht with h | h
      · exact h
      · have := ih _ _ _ t h
        rw [this, hparam, hseed]
    · rw [hhead] at ht
      simpa using ht

theorem main_auditTexts {R X : Type} (c : Collaborators R X) (fuel : Nat) (inp : Input R X)
    (ps : Parameters × R) (hps : (seedOf c inp).result = some ps)
    (hinit : ∀ r x p, (c.init r x p).2.2.randomSeed = p.randomSeed)
    (hrun : ∀ x p, (c.run x p).2.randomSeed = p.randomSeed) :
    ∀ t ∈ auditTexts (main c fuel inp).trace, t = auditLine inp.rank ps.1.randomSeed := by
  intro t ht
  rcases main_filterMap c fuel inp Action.auditText
    (fun a ha => by cases a <;> first | rfl | simp [Action.isStartup] at ha)
    (fun _ => rfl) rfl (fun _ => rfl) with ⟨hnone, _⟩ | ⟨ps2, hps2, he⟩
  · rw [hps] at hnone
    simp at hnone
  · rw [hps] at hps2
    simp only [Option.some.injEq] at hps2
    subst hps2
    have ht2 : t ∈ auditTexts (eventsOf c fuel inp ps).trace := by
      unfold auditTexts at ht ⊢
      rw [← he]
      exact ht
    exact eventLoop_auditTexts c fuel inp.rank inp.size hinit hrun _ 0
      { rng := ps.2, ext := inp.ext0, param := ps.1, nextId := 0 } 0 t ht2

theorem filesAfter_take_succ {R : Type} (dump : List String) (fs : Files)
    (tr : List (Action R)) (k : Nat) (a : Action R) (hk : tr[k]? = some a) :
    filesAfter dump fs (tr.take (k + 1)) = writeEffect dump (filesAfter dump fs (tr.take k)) a := by
  have htake : tr.take (k + 1) = tr.take k ++ [a] := by
    rw [List.take_succ, hk]
    rfl
  rw [htake, filesAfter_append]
  rfl

/-- C12 (as stated, refuted): a run of one event on rank 0 over the store an
earlier run left.  The dump of `readInput` is written through `ios::out`: after
the first action `usedParameters0.dat` holds the new dump only, and after the
run the new dump and one audit line; what it held before is no initial part of
either. -/
theorem dump_overwrites_audit :
    earlierStore "usedParameters0.dat" =
      some ["File created on an earlier day", "Random seed used on rank 0: 5"] ∧
    filesAfter ["File created today"] earlierStore
        ((main (retryCollab 1) 2 sampleRun).trace.take 1) "usedParameters0.dat" =
      some ["File created today"] ∧
    filesAfter ["File created today"] earlierStore
        (main (retryCollab 1) 2 sampleRun).trace "usedParameters0.dat" =
      some ["File created today", "Random seed used on rank 0: 5"] ∧
    ¬ (["File created on an earlier day", "Random seed used on rank 0: 5"] <+:
        ["File created today", "Random seed used on rank 0: 5"]) := by
  rw [sampleRun_result]
  refine ⟨?_, ?_, ?_, ?_⟩ <;> decide

/-- C12 (amended): every audit line of the event loop is appended: after the
action the resource holds what it held before followed by the line, and no other
resource changes, so a rerun that reuses an event id accumulates these lines.
The dump of `readInput` is the first action of the run and its only write that
is not an append.  When the initializer and the evolver do not overwrite the
stored seed, the line names the rank of the worker and the seed with which its
random stream was seeded. -/
theorem audit_lines_appended {R X : Type} (c : Collaborators R X) (fuel : Nat)
    (inp : Input R X) (dump : List String) (fs : Files) (k : Nat) (e r : Int) (s : Nat)
    (hk : (main c fuel inp).trace[k]? = some (Action.appendAudit e r s)) :
    filesAfter dump fs ((main c fuel inp).trace.take (k + 1)) (auditName e) =
      some ((filesAfter dump fs ((main c fuel inp).trace.take k) (auditName e)).getD [] ++
        [auditLine r s]) ∧
    (∀ name, name ≠ auditName e →
      filesAfter dump fs ((main c fuel inp).trace.take (k + 1)) name =
        filesAfter dump fs ((main c fuel inp).trace.take k) name) ∧
    (∀ j e0, (main c fuel inp).trace[j]? = some (Action.writeDump e0) →
      j = 0 ∧ e0 = inp.param0.eventId) ∧
    (∀ ps, (seedOf c inp).result = some ps →
      (∀ r x p, (c.init r x p).2.2.randomSeed = p.randomSeed) →
      (∀ x p, (c.run x p).2.randomSeed = p.randomSeed) →
      auditLine r s = auditLine inp.rank ps.1.randomSeed ∧
      Action.seedStream ps.1.randomSeed ∈ (main c fuel inp).trace) := by
  have hstep := filesAfter_take_succ dump fs _ k _ hk
  refine ⟨?_, ?_, ?_, ?_⟩
  · rw [hstep]
    show Function.update _ _ _ _ = _
    rw [Function.update_same]
  · intro name hne
    rw [hstep]
    show Function.update _ _ _ _ = _
    rw [Function.update_noteq hne]
  · intro j e0 hj
    obtain ⟨rest, htr, hrest⟩ := main_dump_first c fuel inp
    rw [htr] at hj
    cases j with
    | zero =>
      simp only [List.getElem?_cons_zero, Option.some.injEq, Action.writeDump.injEq] at hj
      exact ⟨rfl, hj.symm⟩
    | succ j =>
      simp only [List.getElem?_cons_succ] at hj
      have := hrest _ (List.getElem?_mem hj)
      simp [Action.isDump] at this
  · intro ps hps hinit hrun
    constructor
    · have hmem : auditLine r s ∈ auditTexts (main c fuel inp).trace := by
        unfold auditTexts
        rw [List.mem_filterMap]
        exact ⟨_, List.getElem?_mem hk, rfl⟩
      exact main_auditTexts c fuel inp ps hps hinit hrun _ hmem
    · obtain ⟨pre, post, hsd, _, _⟩ := seedStage_seeded c inp.rank inp.size inp.time
        inp.seedList inp.garbage (loadedParam inp) inp.rng0 ps hps
      have hsd2 : (seedOf c inp).trace = pre ++ [Action.seedStream ps.1.randomSeed] ++ post :=
        hsd
      rcases main_shape c fuel inp with ⟨hnone, _⟩ | ⟨ps2, post2, _, htr, _, _⟩
      · rw [hps] at hnone
        simp at hnone
      · rw [htr, hsd2]
        simp

/-- Witness for `audit_lines_appended`: the audit line of the run `sampleRun` is
its action of index 6. -/
theorem audit_lines_appended_witness :
    (main (retryCollab 1) 2 sampleRun).trace[6]? = some (Action.appendAudit 0 0 5) ∧
    filesAfter ["File created today"] earlierStore
        ((main (retryCollab 1) 2 sampleRun).trace.take (6 + 1)) (auditName 0) =
      some ((filesAfter ["File created today"] earlierStore
        ((main (retryCollab 1) 2 sampleRun).trace.take 6) (auditName 0)).getD [] ++
        [auditLine 0 5]) :=
  ⟨by rw [sampleRun_result]; rfl,
   (audit_lines_appended (retryCollab 1) 2 sampleRun ["File created today"] earlierStore
     6 0 0 5 (by rw [sampleRun_result]; rfl)).1⟩
theorem wrapInt_le_max (z : Int) : wrapInt z ≤ INT_MAX := by
  unfold wrapInt INT_MAX
  have := Int.emod_lt_of_pos (z + 2 ^ 31) (show (0 : Int) < 2 ^ 32 by norm_num)
  omega

theorem requestedEvents_le_max (argv : List String) : requestedEvents argv ≤ INT_MAX := by
  unfold requestedEvents
  split
  · unfold atoi
    split
    · unfold INT_MAX
      omega
    · exact wrapInt_le_max _
  · unfold INT_MAX
    omega

theorem written_eq_auditTargets {R : Type} (tr : List (Action R))
    (h : ∀ a ∈ tr, Action.isDump a = false) : written tr = auditTargets tr := by
  unfold written auditTargets
  induction tr with
  | nil => rfl
  | cons x xs ih =>
    have hx : Action.isDump x = false := h x (by simp)
    have hxs := ih (fun a ha => h a (by simp [ha]))
    have hfx : Action.target x = Action.auditTarget x := by
      cases x <;> first | rfl | simp [Action.isDump] at hx
    simp only [List.filterMap_cons, hfx, hxs]

/-- C13 (as stated, refuted): a run on a single worker with requested event
count 0 and direct seed 5 writes one `usedParameters` resource, the dump of
`readInput` in `usedParameters0.dat`, where the claim has none. -/
theorem no_event_run_writes_dump :
    requestedEvents (sampleInput 0 1 "0" (sampleConfig 5 0 0) none).argv = 0 ∧
    main (retryCollab 0) 1 (sampleInput 0 1 "0" (sampleConfig 5 0 0) none) =
      { trace := [Action.writeDump 0, Action.logDirect 5, Action.setRandomSeed 5,
                  Action.seedStream 5, Action.finalize],
        status := some 1 } ∧
    written (main (retryCollab 0) 1 (sampleInput 0 1 "0" (sampleConfig 5 0 0) none)).trace =
      ["usedParameters0.dat"] := by
  refine ⟨?_, ?_, ?_⟩ <;> decide

/-- C13 (amended): a run on a single worker (rank 0 of 1) in direct mode with
configured seed `S` and `n` requested events, whose attempt loops all end and
whose initializer and evolver do not overwrite the stored seed, writes, in this
order, the dump of `readInput` to `usedParameters<e0>.dat` (`e0` the event id the
new `Parameters` object holds) and one audit line to each of
`usedParameters0.dat` ... `usedParameters(n-1).dat`, and to no other
`usedParameters` resource; after the run each of these `n` resources holds the
line for rank 0 and derived seed `S`. -/
theorem single_worker_audit_files {R X : Type} (c : Collaborators R X) (fuel : Nat)
    (inp : Input R X) (dump : List String) (fs : Files) (ps : Parameters × R)
    (hrank : inp.rank = 0) (hsize : inp.size = 1)
    (hlist : (inp.setup (configPath inp.argv)).useSeedList = 0)
    (htime : (inp.setup (configPath inp.argv)).useTimeForSeed ≠ 1)
    (hinit : ∀ r x p, (c.init r x p).2.2.randomSeed = p.randomSeed)
    (hrun : ∀ x p, (c.run x p).2.randomSeed = p.randomSeed)
    (hps : (seedOf c inp).result = some ps)
    (hend : (eventsOf c fuel inp ps).ended = true) :
    written (main c fuel inp).trace =
      auditName inp.param0.eventId ::
        (List.range (requestedEvents inp.argv).toNat).map (fun i => auditName (i : Nat)) ∧
    ∀ i < (requestedEvents inp.argv).toNat,
      auditLine 0 ((inp.setup (configPath inp.argv)).seed % 2 ^ 64) ∈
        (filesAfter dump fs (main c fuel inp).trace (auditName (i : Nat))).getD [] := by
  obtain ⟨rest, htr, hrest⟩ := main_dump_first c fuel inp
  -- the derived seed
  have hseed : ps.1.randomSeed = (inp.setup (configPath inp.argv)).seed % 2 ^ 64 := by
    have h := hps
    unfold seedOf seedStage at h
    have hl : (loadedParam inp).cfg.useSeedList = 0 := hlist
    have ht : (loadedParam inp).cfg.useTimeForSeed ≠ 1 := htime
    simp only [hl, ht, if_true, if_false, Option.some.injEq] at h
    rw [← h]
    simp only
    rw [hrank, rankOffset_in_range 0 (le_refl _) (by decide), addULL_mod_left]
    show ((loadedParam inp).cfg.seed + 0) % 2 ^ 64 = _
    rfl
  -- the audit targets
  have htargets : auditTargets (main c fuel inp).trace =
      (List.range (requestedEvents inp.argv).toNat).map (fun i => auditName (i : Nat)) := by
    rcases main_filterMap c fuel inp Action.auditTarget
      (fun a ha => by cases a <;> first | rfl | simp [Action.isStartup] at ha)
      (fun _ => rfl) rfl (fun _ => rfl) with ⟨hnone, _⟩ | ⟨ps2, hps2, he⟩
    · rw [hps] at hnone
      simp at hnone
    · rw [hps] at hps2
      simp only [Option.some.injEq] at hps2
      subst hps2
      obtain ⟨m, _, _, h2, h3⟩ := eventLoop_ids c fuel inp.rank inp.size
        (requestedEvents inp.argv).toNat 0
        { rng := ps.2, ext := inp.ext0, param := ps.1, nextId := 0 } 0
      have hm : m = (requestedEvents inp.argv).toNat := h3 hend
      have he2 : auditTargets (main c fuel inp).trace = _ := he.trans h2
      rw [he2, hm]
      apply List.map_congr_left
      intro j hj
      rw [List.mem_range] at hj
      have hmax := requestedEvents_le_max inp.argv
      have hid := eventIdOf_in_range inp.rank inp.size j (by rw [hrank])
        (by rw [hsize]; decide) (by rw [hrank, hsize]; unfold INT_MAX at hmax ⊢; omega)
      rw [zero_add, hid, hrank, hsize]
      simp
  constructor
  · rw [htr] at htargets ⊢
    have hw : written (Action.writeDump inp.param0.eventId :: rest) =
        auditName inp.param0.eventId :: written rest := rfl
    have ha : auditTargets (Action.writeDump inp.param0.eventId :: rest) =
        auditTargets rest := rfl
    rw [hw, written_eq_auditTargets rest hrest, ← ha, htargets]
  · intro i hi
    have hmem : auditName (i : Nat) ∈ auditTargets (main c fuel inp).trace := by
      rw [htargets, List.mem_map]
      exact ⟨i, List.mem_range.mpr hi, rfl⟩
    unfold auditTargets at hmem
    rw [List.mem_filterMap] at hmem
    obtain ⟨a, ha, hta⟩ := hmem
    cases a <;> simp only [Action.auditTarget, Option.some.injEq, reduceCtorEq] at hta
    rename_i e r s
    have htext : auditLine r s = auditLine inp.rank ps.1.randomSeed := by
      apply main_auditTexts c fuel inp ps hps hinit hrun
      unfold auditTexts
      rw [List.mem_filterMap]
      exact ⟨_, ha, rfl⟩
    rw [htr] at ha
    have ha2 : Action.appendAudit e r s ∈ rest := by
      simpa using ha
    obtain ⟨l1, l2, hsplit⟩ := List.append_of_mem ha2
    have hl2 : ∀ b ∈ l2, Action.isDump b = false := by
      intro b hb
      exact hrest b (by rw [hsplit]; simp [hb])
    have hwhole : (main c fuel inp).trace =
        (Action.writeDump inp.param0.eventId :: l1) ++ [Action.appendAudit e r s] ++ l2 := by
      rw [htr, hsplit]
      simp
    rw [hwhole, filesAfter_append, filesAfter_append]
    apply line_persists dump _ _ l2 hl2
    have hstep : ∀ st : Files, filesAfter dump st [Action.appendAudit (R := R) e r s] =
        Function.update st (auditName e)
          (some ((st (auditName e)).getD [] ++ [auditLine r s])) := fun _ => rfl
    rw [hstep, ← hta, Function.update_same, ← hseed, ← hrank, ← htext]
    simp
set_option maxHeartbeats 4000000 in
/-- The event loop of the run `twoEventRun` ends. -/
theorem twoEventRun_ends :
    (eventsOf (retryCollab 0) 1 twoEventRun
      ({ sampleParam with cfg := sampleConfig 5 0 0, MPISize := 1, randomSeed := 5 }, 0)).ended
      = true := by
  decide

/-- Witness for `single_worker_audit_files`, the end-to-end example of the spec:
two events on a single worker with direct seed 5 write the dump and the audit
line of event 0 to `usedParameters0.dat` and the audit line of event 1 to
`usedParameters1.dat`, which then holds the line for seed 5. -/
theorem single_worker_audit_files_witness :
    (seedOf (retryCollab 0) twoEventRun).result =
      some ({ sampleParam with cfg := sampleConfig 5 0 0, MPISize := 1, randomSeed := 5 }, 0) ∧
    written (main (retryCollab 0) 1 twoEventRun).trace =
      ["usedParameters0.dat", "usedParameters0.dat", "usedParameters1.dat"] ∧
    "Random seed used on rank 0: 5" ∈
      (filesAfter ["File created today"] emptyStore (main (retryCollab 0) 1 twoEventRun).trace
        "usedParameters1.dat").getD [] :=
  ⟨rfl,
   (single_worker_audit_files (retryCollab 0) 1 twoEventRun ["File created today"] emptyStore
     ({ sampleParam with cfg := sampleConfig 5 0 0, MPISize := 1, randomSeed := 5 }, 0)
     rfl rfl (by decide) (by decide) (retryCollab_keeps_seed 0) (fun _ _ => rfl) rfl
     twoEventRun_ends).1,
   (single_worker_audit_files (retryCollab 0) 1 twoEventRun ["File created today"] emptyStore
     ({ sampleParam with cfg := sampleConfig 5 0 0, MPISize := 1, randomSeed := 5 }, 0)
     rfl rfl (by decide) (by decide) (retryCollab_keeps_seed 0) (fun _ _ => rfl) rfl
     twoEventRun_ends).2 1 (by decide)⟩

/-! ## The exit status of the merge program -/

theorem attemptLoop_withStatus {R X : Type} (c : Collaborators R X) (st : String → X → Int)
    (i g : Nat) : ∀ (fuel : Nat) (s : St R X),
      attemptLoop (withStatus c st) i g fuel s = attemptLoop c i g fuel s := by
  intro fuel
  induction fuel with
  | zero =>
    intro s
    by_cases hs : s.param.success = 0
    · rw [attemptLoop_zero _ i g s hs, attemptLoop_zero _ i g s hs]
    · rw [attemptLoop_done _ i g 0 s hs, attemptLoop_done _ i g 0 s hs]
  | succ n ih =>
    intro s
    by_cases hs : s.param.success = 0
    · by_cases hout : attemptOutcome c s = 0
      · have hout2 : attemptOutcome (withStatus c st) s = 0 := hout
        have e1 : failStep (withStatus c st) s = failStep c s := rfl
        have e2 : failCycle (withStatus c st) i s = failCycle c i s := rfl
        rw [attemptLoop_fail _ i g n s hs hout2, attemptLoop_fail _ i g n s hs hout, e1, e2, ih]
      · have hout2 : attemptOutcome (withStatus c st) s ≠ 0 := hout
        have e1 : successStep (withStatus c st) s = successStep c s := rfl
        have e2 : successCycle (withStatus c st) i g s = successCycle c i g s := rfl
        rw [attemptLoop_success _ i g n s hs hout2, attemptLoop_success _ i g n s hs hout,
          e1, e2]
    · rw [attemptLoop_done _ i g (n + 1) s hs, attemptLoop_done _ i g (n + 1) s hs]

theorem eventHead_withStatus {R X : Type} (c : Collaborators R X) (st : String → X → Int)
    (fuel : Nat) (rank size iev : Int) (s : St R X) :
    eventHead (withStatus c st) fuel rank size iev s = eventHead c fuel rank size iev s := by
  have e : loopEntry (withStatus c st) rank size iev s = loopEntry c rank size iev s := rfl
  rw [eventHead_eq, eventHead_eq, e, attemptLoop_withStatus]

theorem eventTail_withStatus {R X : Type} (c : Collaborators R X) (st : String → X → Int)
    (rank : Int) (first : Nat) (s : St R X) (h5Flag : Int) :
    (eventTail (withStatus c st) rank first s h5Flag).1.map Action.eraseStatus =
        (eventTail c rank first s h5Flag).1.map Action.eraseStatus ∧
      (eventTail (withStatus c st) rank first s h5Flag).2 =
        (eventTail c rank first s h5Flag).2 := by
  unfold eventTail
  by_cases h : s.param.cfg.writeOutputsToHDF5 = 1 <;>
    simp [h, withStatus, Action.eraseStatus]

theorem eventLoop_withStatus {R X : Type} (c : Collaborators R X) (st : String → X → Int)
    (fuel : Nat) (rank size : Int) :
    ∀ (n : Nat) (iev : Int) (s : St R X) (h5Flag : Int),
      (eventLoop (withStatus c st) fuel rank size n iev s h5Flag).ended =
          (eventLoop c fuel rank size n iev s h5Flag).ended ∧
        (eventLoop (withStatus c st) fuel rank size n iev s h5Flag).trace.map
            Action.eraseStatus =
          (eventLoop c fuel rank size n iev s h5Flag).trace.map Action.eraseStatus ∧
        (eventLoop (withStatus c st) fuel rank size n iev s h5Flag).state =
          (eventLoop c fuel rank size n iev s h5Flag).state ∧
        (eventLoop (withStatus c st) fuel rank size n iev s h5Flag).h5Flag =
          (eventLoop c fuel rank size n iev s h5Flag).h5Flag := by
  intro n
  induction n with
  | zero =>
    intro iev s h5Flag
    exact ⟨rfl, rfl, rfl, rfl⟩
  | succ n ih =>
    intro iev s h5Flag
    obtain ⟨ht1, ht2⟩ := eventTail_withStatus c st rank s.nextId
      (eventHead c fuel rank size iev s).2.2 h5Flag
    unfold eventLoop
    simp only [eventHead_withStatus]
    split
    · obtain ⟨h1, h2, h3, h4⟩ := ih (iev + 1) (eventTail c rank s.nextId
        (eventHead c fuel rank size iev s).2.2 h5Flag).2.1 (eventTail c rank s.nextId
        (eventHead c fuel rank size iev s).2.2 h5Flag).2.2
      rw [ht2]
      refine ⟨h1, ?_, h3, h4⟩
      show List.map _ (_ ++ _ ++ _) = List.map _ (_ ++ _ ++ _)
      rw [List.map_append, List.map_append, List.map_append, List.map_append, ht1, h2]
    · exact ⟨rfl, rfl, rfl, rfl⟩

/-- A run of `main` with the statuses of the spawned commands replaced: same
exit status, and the same actions up to the status values carried by the
spawns. -/
theorem main_withStatus {R X : Type} (c : Collaborators R X) (st : String → X → Int)
    (fuel : Nat) (inp : Input R X) :
    (main (withStatus c st) fuel inp).status = (main c fuel inp).status ∧
      (main (withStatus c st) fuel inp).trace.map Action.eraseStatus =
        (main c fuel inp).trace.map Action.eraseStatus := by
  have hseed : seedStage (withStatus c st) inp.rank inp.size inp.time inp.seedList inp.garbage
      (readInput (R := R) inp.setup inp.argv
        { inp.param0 with MPIRank := inp.rank, MPISize := inp.size }).2 inp.rng0 =
      seedStage c inp.rank inp.size inp.time inp.seedList inp.garbage
      (readInput (R := R) inp.setup inp.argv
        { inp.param0 with MPIRank := inp.rank, MPISize := inp.size }).2 inp.rng0 := rfl
  unfold main
  simp only [hseed]
  split
  · exact ⟨rfl, rfl⟩
  · rename_i ps h
    obtain ⟨h1, h2, h3, h4⟩ := eventLoop_withStatus c st fuel inp.rank inp.size
      (requestedEvents inp.argv).toNat 0
      { rng := ps.2, ext := inp.ext0, param := ps.1, nextId := 0 } 0
    simp only [h1, h4]
    split
    · split
      · refine ⟨rfl, ?_⟩
        simp only [List.map_append, h2]
        rfl
      · refine ⟨rfl, ?_⟩
        simp only [List.map_append, h2]
    · refine ⟨rfl, ?_⟩
      simp only [List.map_append, h2]

theorem countP_eraseStatus {R : Type} (p : Action R → Bool)
    (hp : ∀ a, p (Action.eraseStatus a) = p a) (tr : List (Action R)) :
    (tr.map Action.eraseStatus).countP p = tr.countP p := by
  rw [List.countP_map]
  congr 1
  funext a
  exact hp a

theorem eventIds_eraseStatus {R : Type} (tr : List (Action R)) :
    eventIds (tr.map Action.eraseStatus) = eventIds tr := by
  unfold eventIds
  rw [List.filterMap_map]
  congr 1
  funext a
  cases a <;> rfl

/-- C18: the status values that the spawned merge program returns, at the
per-event and at the run-level call, do not steer `main`: with any two
assignments of statuses to the calls, everything else being equal, the worker
ends with the same exit status and performs the same actions in the same order
up to the status values themselves; in particular the same number of events,
of constructions and deletions of every kind of object, of initializer calls,
of evolver runs, of barrier calls and of spawned subprocesses. -/
theorem merge_status_ignored {R X : Type} (c : Collaborators R X)
    (st1 st2 : String → X → Int) (fuel : Nat) (inp : Input R X) :
    (main (withStatus c st1) fuel inp).status = (main (withStatus c st2) fuel inp).status ∧
    (main (withStatus c st1) fuel inp).trace.map Action.eraseStatus =
      (main (withStatus c st2) fuel inp).trace.map Action.eraseStatus ∧
    (eventIds (main (withStatus c st1) fuel inp).trace).length =
      (eventIds (main (withStatus c st2) fuel inp).trace).length ∧
    (∀ o, (main (withStatus c st1) fuel inp).trace.countP (Action.isConstruct o) =
      (main (withStatus c st2) fuel inp).trace.countP (Action.isConstruct o)) ∧
    (∀ o, (main (withStatus c st1) fuel inp).trace.countP (Action.isDestroy o) =
      (main (withStatus c st2) fuel inp).trace.countP (Action.isDestroy o)) ∧
    (main (withStatus c st1) fuel inp).trace.countP Action.isInitCall =
      (main (withStatus c st2) fuel inp).trace.countP Action.isInitCall ∧
    (main (withStatus c st1) fuel inp).trace.countP Action.isRun =
      (main (withStatus c st2) fuel inp).trace.countP Action.isRun ∧
    (main (withStatus c st1) fuel inp).trace.countP Action.isBarrier =
      (main (withStatus c st2) fuel inp).trace.countP Action.isBarrier ∧
    (main (withStatus c st1) fuel inp).trace.countP Action.isSpawn =
      (main (withStatus c st2) fuel inp).trace.countP Action.isSpawn := by
  have hst : (main (withStatus c st1) fuel inp).status =
      (main (withStatus c st2) fuel inp).status :=
    (main_withStatus c st1 fuel inp).1.trans (main_withStatus c st2 fuel inp).1.symm
  have htr : (main (withStatus c st1) fuel inp).trace.map Action.eraseStatus =
      (main (withStatus c st2) fuel inp).trace.map Action.eraseStatus :=
    (main_withStatus c st1 fuel inp).2.trans (main_withStatus c st2 fuel inp).2.symm
  have hcount : ∀ p : Action R → Bool, (∀ a, p (Action.eraseStatus a) = p a) →
      (main (withStatus c st1) fuel inp).trace.countP p =
        (main (withStatus c st2) fuel inp).trace.countP p := by
    intro p hp
    rw [← countP_eraseStatus p hp, ← countP_eraseStatus p hp
      (main (withStatus c st2) fuel inp).trace, htr]
  refine ⟨hst, htr, ?_, fun o => hcount _ ?_, fun o => hcount _ ?_, hcount _ ?_, hcount _ ?_,
    hcount _ ?_, hcount _ ?_⟩
  · rw [← eventIds_eraseStatus, ← eventIds_eraseStatus (main (withStatus c st2) fuel inp).trace,
      htr]
  all_goals
    intro a
    cases a <;> rfl

/-! ## The finalizer: lemmas -/

theorem collect_ne_combine (rank eventId : Int) :
    collectCommand rank eventId ≠ combineCommand := by
  intro h
  have h2 := congrArg String.data h
  simp only [collectCommand, combineCommand, String.data_append] at h2
  have h3 := congrArg (fun l => l.get? 74) h2
  simp at h3

theorem seedStage_cfg {R X : Type} (c : Collaborators R X) (rank size time : Int)
    (seedList : Option (List Char)) (garbage : Nat → Nat) (param : Parameters) (rng : R)
    (ps : Parameters × R)
    (h : (seedStage c rank size time seedList garbage param rng).result = some ps) :
    ps.1.cfg = param.cfg := by
  unfold seedStage at h
  split at h
  · simp only [Option.some.injEq] at h
    subst h
    rfl
  · split at h
    · simp at h
    · split at h
      · simp at h
      · simp only [Option.some.injEq] at h
        subst h
        rfl

/-- With an initializer and an evolver that write only the success flag, the
attempt loop leaves the configuration and the event id in `param` as they
were. -/
theorem attemptLoop_keeps {R X : Type} (c : Collaborators R X) (hof : OnlyFlag c)
    (i g fuel : Nat) (s : St R X) :
    (attemptLoop c i g fuel s).2.2.param.cfg = s.param.cfg ∧
      (attemptLoop c i g fuel s).2.2.param.eventId = s.param.eventId := by
  have hi1 : ∀ r x p, (c.init r x p).2.2.cfg = p.cfg := fun r x p =>
    (congrArg Parameters.cfg (hof.1 r x p)).trans rfl
  have hi2 : ∀ r x p, (c.init r x p).2.2.eventId = p.eventId := fun r x p =>
    (congrArg Parameters.eventId (hof.1 r x p)).trans rfl
  have hr1 : ∀ x p, (c.run x p).2.cfg = p.cfg := fun x p =>
    (congrArg Parameters.cfg (hof.2 x p)).trans rfl
  have hr2 : ∀ x p, (c.run x p).2.eventId = p.eventId := fun x p =>
    (congrArg Parameters.eventId (hof.2 x p)).trans rfl
  refine attemptLoop_induction c i g
    (fun s res => res.2.2.param.cfg = s.param.cfg ∧ res.2.2.param.eventId = s.param.eventId)
    ?_ ?_ ?_ ?_ fuel s
  · intro s _
    exact ⟨rfl, rfl⟩
  · intro s _
    exact ⟨rfl, rfl⟩
  · intro s res _ _ ih
    refine ⟨ih.1.trans ?_, ih.2.trans ?_⟩
    · exact hi1 _ _ _
    · exact hi2 _ _ _
  · intro s res _ _ ih
    refine ⟨ih.1.trans ?_, ih.2.trans ?_⟩
    · exact (hr1 _ _).trans (hi1 _ _ _)
    · exact (hr2 _ _).trans (hi2 _ _ _)

theorem eventHead_keeps {R X : Type} (c : Collaborators R X) (hof : OnlyFlag c)
    (fuel : Nat) (rank size iev : Int) (s : St R X) :
    (eventHead c fuel rank size iev s).2.2.param.cfg = s.param.cfg ∧
      (eventHead c fuel rank size iev s).2.2.param.eventId = eventIdOf rank size iev := by
  rw [eventHead_eq]
  exact attemptLoop_keeps c hof _ _ fuel (loopEntry c rank size iev s)

theorem eventHead_syncs {R X : Type} (c : Collaborators R X) (fuel : Nat)
    (rank size iev : Int) (s : St R X) :
    syncs (eventHead c fuel rank size iev s).2.1 = [] := by
  unfold syncs
  rw [eventHead_filterMap c fuel rank size iev s _ (fun _ _ => rfl) (fun _ _ => rfl)
    (fun _ _ _ _ _ => rfl) (fun _ _ => rfl) rfl rfl]
  rfl

/-- The finalizer steps of an event loop whose attempt loops all end, and the
value of `h5Flag` it leaves: 1 when the export is enabled and an event was run,
else the value it had. -/
theorem eventLoop_syncs {R X : Type} (c : Collaborators R X) (hof : OnlyFlag c)
    (fuel : Nat) (rank size : Int) :
    ∀ (n : Nat) (iev : Int) (s : St R X) (h5Flag : Int),
      (eventLoop c fuel rank size n iev s h5Flag).ended = true →
      syncs (eventLoop c fuel rank size n iev s h5Flag).trace =
          eventSyncs (decide (s.param.cfg.writeOutputsToHDF5 = 1)) rank size n iev ∧
        (eventLoop c fuel rank size n iev s h5Flag).h5Flag =
          (if s.param.cfg.writeOutputsToHDF5 = 1 ∧ 0 < n then 1 else h5Flag) := by
  intro n
  induction n with
  | zero =>
    intro iev s h5Flag _
    exact ⟨rfl, by simp [eventLoop]⟩
  | succ n ih =>
    intro iev s h5Flag
    obtain ⟨hk1, hk2⟩ := eventHead_keeps c hof fuel rank size iev s
    have hhs := eventHead_syncs c fuel rank size iev s
    unfold eventLoop
    simp only
    split
    · intro hend
      by_cases hflag : s.param.cfg.writeOutputsToHDF5 = 1
      · have hflag2 : (eventHead c fuel rank size iev s).2.2.param.cfg.writeOutputsToHDF5 = 1 := by
          rw [hk1]; exact hflag
        have ht : eventTail c rank s.nextId (eventHead c fuel rank size iev s).2.2 h5Flag =
            ([Action.barrier, Action.system (collectCommand rank (eventIdOf rank size iev))
                (c.system (collectCommand rank (eventIdOf rank size iev))
                  (eventHead c fuel rank size iev s).2.2.ext).2] ++
              [Action.destroy Obj.group (s.nextId + 2),
               Action.destroy Obj.evolution (s.nextId + 4),
               Action.destroy Obj.myEigen s.nextId],
             { (eventHead c fuel rank size iev s).2.2 with
                ext := (c.system (collectCommand rank (eventIdOf rank size iev))
                  (eventHead c fuel rank size iev s).2.2.ext).1 }, 1) := by
          unfold eventTail
          simp only [hflag2, if_true, hk2]
        rw [ht] at hend ⊢
        obtain ⟨h1, h2⟩ := ih (iev + 1) _ 1 hend
        refine ⟨?_, ?_⟩
        · show syncs (_ ++ _ ++ _) = _
          unfold syncs at hhs h1 ⊢
          rw [List.filterMap_append, List.filterMap_append, hhs, h1]
          simp [eventSyncs, hflag, hk1, List.filterMap_cons, Action.sync]
        · show (eventLoop c fuel rank size n (iev + 1) _ 1).h5Flag = _
          rw [h2]
          simp [hflag]
      · have hflag2 : ¬ (eventHead c fuel rank size iev s).2.2.param.cfg.writeOutputsToHDF5 = 1 := by
          rw [hk1]; exact hflag
        have ht : eventTail c rank s.nextId (eventHead c fuel rank size iev s).2.2 h5Flag =
            ([Action.barrier] ++
              [Action.destroy Obj.group (s.nextId + 2),
               Action.destroy Obj.evolution (s.nextId + 4),
               Action.destroy Obj.myEigen s.nextId],
             (eventHead c fuel rank size iev s).2.2, h5Flag) := by
          unfold eventTail
          simp only [hflag2, if_false]
        rw [ht] at hend ⊢
        obtain ⟨h1, h2⟩ := ih (iev + 1) _ h5Flag hend
        refine ⟨?_, ?_⟩
        · show syncs (_ ++ _ ++ _) = _
          unfold syncs at hhs h1 ⊢
          rw [List.filterMap_append, List.filterMap_append, hhs, h1]
          simp [eventSyncs, hflag, hk1, List.filterMap_cons, Action.sync]
        · show (eventLoop c fuel rank size n (iev + 1) _ h5Flag).h5Flag = _
          rw [h2]
          simp [hflag, hk1]
    · intro hend
      simp at hend

/-- A run of `main` whose seed stage passes and whose attempt loops all end:
the trace in full, with the run-level merge call present exactly when `h5Flag`
is 1 on rank 0. -/
theorem main_ended {R X : Type} (c : Collaborators R X) (fuel : Nat) (inp : Input R X)
    (ps : Parameters × R) (hps : (seedOf c inp).result = some ps)
    (hend : (eventsOf c fuel inp ps).ended = true) :
    (main c fuel inp).trace =
      [Action.writeDump inp.param0.eventId] ++ (seedOf c inp).trace ++
        (eventsOf c fuel inp ps).trace ++
        (if (eventsOf c fuel inp ps).h5Flag = 1 ∧ inp.rank = 0 then
          [Action.system combineCommand
            (c.system combineCommand (eventsOf c fuel inp ps).state.ext).2]
         else []) ++ [Action.finalize] := by
  unfold seedOf eventsOf loadedParam at *
  unfold main
  simp only [readInput]
  rw [hps]
  simp only [hend, if_true]
  split <;> simp

theorem seedOf_syncs {R X : Type} (c : Collaborators R X) (inp : Input R X) :
    syncs (seedOf c inp).trace = [] :=
  seedStage_filterMap c _ _ _ _ _ _ _ Action.sync
    (fun a h _ => by cases a <;> first | rfl | simp [Action.isStartup] at h) (fun _ => rfl)

/-- The finalizer steps of a run of `main` whose seed stage passes and whose
attempt loops all end, when the initializer and the evolver write only the
success flag: those of the events, then the run-level merge on rank 0 when the
export is enabled and an event was run. -/
theorem main_syncs {R X : Type} (c : Collaborators R X) (hof : OnlyFlag c) (fuel : Nat)
    (inp : Input R X) (ps : Parameters × R) (hps : (seedOf c inp).result = some ps)
    (hend : (eventsOf c fuel inp ps).ended = true) :
    syncs (main c fuel inp).trace =
      eventSyncs (decide ((inp.setup (configPath inp.argv)).writeOutputsToHDF5 = 1))
          inp.rank inp.size (requestedEvents inp.argv).toNat 0 ++
        (if ((inp.setup (configPath inp.argv)).writeOutputsToHDF5 = 1 ∧
              0 < (requestedEvents inp.argv).toNat) ∧ inp.rank = 0 then
          [Sync.spawn combineCommand] else []) := by
  have hcfg : ps.1.cfg = inp.setup (configPath inp.argv) :=
    seedStage_cfg c _ _ _ _ _ _ _ ps hps
  obtain ⟨h1, h2⟩ := eventLoop_syncs c hof fuel inp.rank inp.size
    (requestedEvents inp.argv).toNat 0
    { rng := ps.2, ext := inp.ext0, param := ps.1, nextId := 0 } 0 hend
  have h2b : (eventsOf c fuel inp ps).h5Flag =
      (if (inp.setup (configPath inp.argv)).writeOutputsToHDF5 = 1 ∧
          0 < (requestedEvents inp.argv).toNat then 1 else 0) := by
    rw [← hcfg]; exact h2
  have h1b : syncs (eventsOf c fuel inp ps).trace =
      eventSyncs (decide ((inp.setup (configPath inp.argv)).writeOutputsToHDF5 = 1))
        inp.rank inp.size (requestedEvents inp.argv).toNat 0 := by
    rw [← hcfg]; exact h1
  have hcond : ((eventsOf c fuel inp ps).h5Flag = 1 ∧ inp.rank = 0) ↔
      (((inp.setup (configPath inp.argv)).writeOutputsToHDF5 = 1 ∧
          0 < (requestedEvents inp.argv).toNat) ∧ inp.rank = 0) := by
    rw [h2b]
    by_cases hA : (inp.setup (configPath inp.argv)).writeOutputsToHDF5 = 1 ∧
        0 < (requestedEvents inp.argv).toNat
    · rw [if_pos hA]
      exact ⟨fun h => ⟨hA, h.2⟩, fun h => ⟨rfl, h.2⟩⟩
    · rw [if_neg hA]
      exact ⟨fun h => absurd h.1 (by decide), fun h => absurd h.1 hA⟩
  rw [main_ended c fuel inp ps hps hend]
  have hsd := seedOf_syncs c inp
  unfold syncs at hsd h1b ⊢
  rw [List.filterMap_append, List.filterMap_append, List.filterMap_append,
    List.filterMap_append, hsd, h1b]
  by_cases hP : ((inp.setup (configPath inp.argv)).writeOutputsToHDF5 = 1 ∧
      0 < (requestedEvents inp.argv).toNat) ∧ inp.rank = 0
  · rw [if_pos (hcond.2 hP), if_pos hP]
    simp [List.filterMap_cons, Action.sync]
  · rw [if_neg (fun h => hP (hcond.1 h)), if_neg hP]
    simp [List.filterMap_cons, Action.sync]

theorem flatMap_range_succ {β : Type} (n : Nat) (f : Nat → List β) :
    (List.range (n + 1)).flatMap f = f 0 ++ (List.range n).flatMap (fun k => f (k + 1)) := by
  rw [List.range_succ_eq_map, List.flatMap_cons]
  congr 1
  induction (List.range n) with
  | nil => rfl
  | cons a l ih => simp [List.flatMap_cons, ih]

/-- The finalizer steps of `n` events from index `j` on, written with the
mathematical event ids, when these are in the range of `int`. -/
theorem eventSyncs_in_range (rank size : Int) (h0 : 0 ≤ rank) (hs : 0 ≤ size) :
    ∀ (n j : Nat), (∀ k : Nat, k < n → rank + ((j + k : Nat) : Int) * size ≤ INT_MAX) →
      eventSyncs true rank size n (j : Int) =
        (List.range n).flatMap (fun k =>
          [Sync.barrier, Sync.spawn (collectCommand rank (rank + ((j + k : Nat) : Int) * size))]) := by
  intro n
  induction n with
  | zero =>
    intro j _
    rfl
  | succ n ih =>
    intro j hr
    have hj := eventIdOf_in_range rank size j h0 hs (by simpa using hr 0 (Nat.succ_pos n))
    have hrest := ih (j + 1) (fun k hk => by
      have := hr (k + 1) (by omega)
      rw [show j + 1 + k = j + (k + 1) by omega]
      exact this)
    rw [flatMap_range_succ]
    unfold eventSyncs
    rw [show ((j : Int) + 1) = ((j + 1 : Nat) : Int) by push_cast; rfl, hrest, hj]
    simp only [if_true, Nat.add_zero]
    congr 1
    congr 1
    funext k
    rw [show j + 1 + k = j + (k + 1) by omega]

theorem eventSyncs_disabled (rank size : Int) :
    ∀ (n : Nat) (iev : Int), eventSyncs false rank size n iev = List.replicate n Sync.barrier := by
  intro n
  induction n with
  | zero =>
    intro iev
    rfl
  | succ n ih =>
    intro iev
    unfold eventSyncs
    rw [ih]
    rfl

theorem eventSyncs_no_combine (exports : Bool) (rank size : Int) :
    ∀ (n : Nat) (iev : Int),
      (eventSyncs exports rank size n iev).count (Sync.spawn combineCommand) = 0 := by
  intro n
  induction n with
  | zero =>
    intro iev
    rfl
  | succ n ih =>
    intro iev
    have hne : Sync.spawn (collectCommand rank (eventIdOf rank size iev)) ≠
        Sync.spawn combineCommand := by
      intro h
      exact collect_ne_combine _ _ (Sync.spawn.inj h)
    have hb : Sync.barrier ≠ Sync.spawn combineCommand := by
      intro h
      cases h
    unfold eventSyncs
    rw [List.count_append, ih]
    cases exports
    · simp [List.count_cons_of_ne hb.symm]
    · simp [List.count_cons_of_ne hb.symm, List.count_cons_of_ne hne.symm]

theorem retryCollab_onlyFlag (K : Nat) : OnlyFlag (retryCollab K) := by
  refine ⟨?_, ?_⟩
  · intro r x p
    unfold retryCollab
    by_cases h : x < K <;> simp [h]
  · intro x p
    rfl

/-! ## The finalizer: the claims -/

set_option maxHeartbeats 4000000 in
/-- C19 (as stated, refuted): with the export enabled, on rank 1 of 2147483647
workers the command spawned for event index 1 carries the event id
-2147483648: the `int` expression `rank + iev*size` left the range of `int`,
and 1 + 1*2147483647 = 2147483648 is not what is passed. -/
theorem export_event_id_overflow :
    syncs (main (retryCollab 0) 1 (sampleInput 1 2147483647 "2" exportConfig none)).trace =
      [Sync.barrier,
       Sync.spawn ("python3 utilities/combine_events_into_hdf5.py . --output_filename " ++
         "RESULTS_rank1 --event_id 1"),
       Sync.barrier,
       Sync.spawn ("python3 utilities/combine_events_into_hdf5.py . --output_filename " ++
         "RESULTS_rank1 --event_id -2147483648")] := by
  decide

/-- C19 (amended): take a run whose seed stage passes and whose attempt loops
all end, with an initializer and an evolver that write only the success flag of
`param`, rank and worker count not negative and `rank + k*size` in the range of
`int` for every event index `k` of the run.  When `writeOutputsToHDF5` is 1 the
barrier calls and spawned commands of the worker are, event by event in order,
the barrier and then the per-event command with output name `RESULTS_rank<rank>`
and event id `rank + k*size`, followed only by the run-level merge (on rank 0,
when an event was run).  When the flag is not 1 they are the barrier calls
alone: nothing is spawned. -/
theorem export_once_per_event {R X : Type} (c : Collaborators R X) (fuel : Nat)
    (inp : Input R X) (ps : Parameters × R) (hof : OnlyFlag c)
    (hps : (seedOf c inp).result = some ps)
    (hend : (eventsOf c fuel inp ps).ended = true)
    (h0 : 0 ≤ inp.rank) (hs : 0 ≤ inp.size)
    (hr : ∀ k : Nat, k < (requestedEvents inp.argv).toNat →
      inp.rank + (k : Int) * inp.size ≤ INT_MAX) :
    ((inp.setup (configPath inp.argv)).writeOutputsToHDF5 = 1 →
      syncs (main c fuel inp).trace =
        (List.range (requestedEvents inp.argv).toNat).flatMap (fun k =>
          [Sync.barrier,
           Sync.spawn (collectCommand inp.rank (inp.rank + (k : Int) * inp.size))]) ++
        (if 0 < requestedEvents inp.argv ∧ inp.rank = 0 then [Sync.spawn combineCommand]
         else [])) ∧
    ((inp.setup (configPath inp.argv)).writeOutputsToHDF5 ≠ 1 →
      syncs (main c fuel inp).trace =
        List.replicate (requestedEvents inp.argv).toNat Sync.barrier) := by
  have hm := main_syncs c hof fuel inp ps hps hend
  refine ⟨fun hflag => ?_, fun hflag => ?_⟩
  · rw [hm]
    have hrange := eventSyncs_in_range inp.rank inp.size h0 hs
      (requestedEvents inp.argv).toNat 0 (fun k hk => by simpa using hr k hk)
    rw [Nat.cast_zero] at hrange
    simp only [Nat.zero_add] at hrange
    simp only [hflag, decide_True, true_and]
    rw [hrange]
    congr 1
    by_cases hP : 0 < requestedEvents inp.argv ∧ inp.rank = 0
    · rw [if_pos hP, if_pos ⟨by omega, hP.2⟩]
    · rw [if_neg hP, if_neg (fun h => hP ⟨by omega, h.2⟩)]
  · rw [hm]
    simp only [hflag, decide_False, false_and, if_false, List.append_nil]
    exact eventSyncs_disabled _ _ _ _

set_option maxHeartbeats 4000000 in
/-- The event loop of the run of two events with the export enabled on rank 1
of 4 ends. -/
theorem exportRun_ends :
    (eventsOf (retryCollab 0) 1 (sampleInput 1 4 "2" exportConfig none)
      ({ sampleParam with cfg := exportConfig, MPIRank := 1, MPISize := 4,
                          randomSeed := 1005 }, 0)).ended = true := by
  decide

theorem export_once_per_event_witness :
    OnlyFlag (retryCollab 0) ∧
    (seedOf (retryCollab 0) (sampleInput 1 4 "2" exportConfig none)).result =
      some ({ sampleParam with cfg := exportConfig, MPIRank := 1, MPISize := 4,
                               randomSeed := 1005 }, 0) ∧
    syncs (main (retryCollab 0) 1 (sampleInput 1 4 "2" exportConfig none)).trace =
      (List.range 2).flatMap (fun k =>
        [Sync.barrier, Sync.spawn (collectCommand 1 (1 + (k : Int) * 4))]) ++ [] :=
  ⟨retryCollab_onlyFlag 0, rfl,
   (export_once_per_event (retryCollab 0) 1 (sampleInput 1 4 "2" exportConfig none)
      ({ sampleParam with cfg := exportConfig, MPIRank := 1, MPISize := 4,
                          randomSeed := 1005 }, 0)
      (retryCollab_onlyFlag 0) rfl exportRun_ends (by decide) (by decide)
      (by
        intro k hk
        have h2 : k < 2 := hk
        unfold INT_MAX
        show (1 : Int) + (k : Int) * 4 ≤ 2147483647
        omega)).1 rfl⟩

/-- C20 (as stated, refuted): a run of worker 0 with the export enabled and
zero requested events spawns no command at all: `h5Flag` is set only in the
body of the event loop, so the run-level merge is skipped. -/
theorem no_events_no_combine :
    exportConfig.writeOutputsToHDF5 = 1 ∧
    requestedEvents (sampleInput 0 1 "0" exportConfig none).argv = 0 ∧
    main (retryCollab 0) 1 (sampleInput 0 1 "0" exportConfig none) =
      { trace := [Action.writeDump 0, Action.logDirect 5, Action.setRandomSeed 5,
                  Action.seedStream 5, Action.finalize],
        status := some 1 } := by
  decide

/-- C20 (amended): take a run whose seed stage passes and whose attempt loops
all end, with an initializer and an evolver that write only the success flag of
`param`.  When `writeOutputsToHDF5` is 1, at least one event is requested and
the rank is 0, the worker spawns the combine-only merge exactly once, and does
so after the whole event loop, right before `MPI_Finalize`.  In every other
case (another rank, export not enabled, or no event requested) the worker never
spawns it. -/
theorem combine_spawned_once {R X : Type} (c : Collaborators R X) (fuel : Nat)
    (inp : Input R X) (ps : Parameters × R) (hof : OnlyFlag c)
    (hps : (seedOf c inp).result = some ps)
    (hend : (eventsOf c fuel inp ps).ended = true) :
    (((inp.setup (configPath inp.argv)).writeOutputsToHDF5 = 1 ∧
        0 < requestedEvents inp.argv) ∧ inp.rank = 0 →
      (syncs (main c fuel inp).trace).count (Sync.spawn combineCommand) = 1 ∧
      (main c fuel inp).trace =
        [Action.writeDump inp.param0.eventId] ++ (seedOf c inp).trace ++
          (eventsOf c fuel inp ps).trace ++
          [Action.system combineCommand
            (c.system combineCommand (eventsOf c fuel inp ps).state.ext).2] ++
          [Action.finalize]) ∧
    (¬ (((inp.setup (configPath inp.argv)).writeOutputsToHDF5 = 1 ∧
        0 < requestedEvents inp.argv) ∧ inp.rank = 0) →
      (syncs (main c fuel inp).trace).count (Sync.spawn combineCommand) = 0) := by
  have hm := main_syncs c hof fuel inp ps hps hend
  have hcfg : ps.1.cfg = inp.setup (configPath inp.argv) :=
    seedStage_cfg c _ _ _ _ _ _ _ ps hps
  have hpos : 0 < (requestedEvents inp.argv).toNat ↔ 0 < requestedEvents inp.argv := by
    omega
  refine ⟨fun hP => ?_, fun hP => ?_⟩
  · have hP2 : ((inp.setup (configPath inp.argv)).writeOutputsToHDF5 = 1 ∧
        0 < (requestedEvents inp.argv).toNat) ∧ inp.rank = 0 :=
      ⟨⟨hP.1.1, hpos.2 hP.1.2⟩, hP.2⟩
    refine ⟨?_, ?_⟩
    · rw [hm, if_pos hP2, List.count_append, eventSyncs_no_combine]
      simp
    · have h2 := (eventLoop_syncs c hof fuel inp.rank inp.size
        (requestedEvents inp.argv).toNat 0
        { rng := ps.2, ext := inp.ext0, param := ps.1, nextId := 0 } 0 hend).2
      have hflag : (eventsOf c fuel inp ps).h5Flag = 1 := by
        show (eventLoop c fuel inp.rank inp.size (requestedEvents inp.argv).toNat 0
          { rng := ps.2, ext := inp.ext0, param := ps.1, nextId := 0 } 0).h5Flag = 1
        rw [h2, if_pos ⟨by rw [hcfg]; exact hP.1.1, hP2.1.2⟩]
      rw [main_ended c fuel inp ps hps hend, if_pos ⟨hflag, hP.2⟩]
  · have hP2 : ¬ (((inp.setup (configPath inp.argv)).writeOutputsToHDF5 = 1 ∧
        0 < (requestedEvents inp.argv).toNat) ∧ inp.rank = 0) :=
      fun h => hP ⟨⟨h.1.1, hpos.1 h.1.2⟩, h.2⟩
    rw [hm, if_neg hP2, List.append_nil, eventSyncs_no_combine]

set_option maxHeartbeats 4000000 in
/-- The event loop of the run of one event with the export enabled on rank 0
ends. -/
theorem combineRun_ends :
    (eventsOf (retryCollab 0) 1 (sampleInput 0 1 "1" exportConfig none)
      ({ sampleParam with cfg := exportConfig, MPISize := 1, randomSeed := 5 }, 0)).ended
      = true := by
  decide

theorem combine_spawned_once_witness :
    OnlyFlag (retryCollab 0) ∧
    (seedOf (retryCollab 0) (sampleInput 0 1 "1" exportConfig none)).result =
      some ({ sampleParam with cfg := exportConfig, MPISize := 1, randomSeed := 5 }, 0) ∧
    (syncs (main (retryCollab 0) 1 (sampleInput 0 1 "1" exportConfig none)).trace).count
      (Sync.spawn combineCommand) = 1 :=
  ⟨retryCollab_onlyFlag 0, rfl,
   ((combine_spawned_once (retryCollab 0) 1 (sampleInput 0 1 "1" exportConfig none)
      ({ sampleParam with cfg := exportConfig, MPISize := 1, randomSeed := 5 }, 0)
      (retryCollab_onlyFlag 0) rfl combineRun_ends).1 (by decide)).1⟩

/-! ## Exit status, seed modes and command line -/

/-- An observer that sees none of the actions of the body of the event loop sees
nothing of the event loop. -/
theorem eventLoop_filterMap {R X β : Type} (c : Collaborators R X) (fuel : Nat)
    (rank size : Int) (n : Nat) (iev : Int) (s : St R X) (h5Flag : Int)
    (f : Action R → Option β) (hf : ∀ a, Action.isEventAction a = true → f a = none) :
    (eventLoop c fuel rank size n iev s h5Flag).trace.filterMap f = [] := by
  rw [List.filterMap_eq_nil_iff]
  intro a ha
  exact hf a (eventLoop_actions c fuel rank size n iev s h5Flag a ha)

/-- A run whose seed stage exits: the dump, and exit status 1. -/
theorem main_fatal {R X : Type} (c : Collaborators R X) (fuel : Nat) (inp : Input R X)
    (hfatal : (seedOf c inp).result = none) :
    main c fuel inp = { trace := [Action.writeDump inp.param0.eventId], status := some 1 } := by
  rcases main_shape c fuel inp with ⟨_, hm⟩ | ⟨ps, _, hsome, _⟩
  · rw [hm, show (seedOf c inp).trace = [] from seedStage_none_trace c _ _ _ _ _ _ _ hfatal]
    rfl
  · rw [hfatal] at hsome
    simp at hsome

theorem main_ended_status {R X : Type} (c : Collaborators R X) (fuel : Nat) (inp : Input R X)
    (ps : Parameters × R) (hps : (seedOf c inp).result = some ps)
    (hend : (eventsOf c fuel inp ps).ended = true) :
    (main c fuel inp).status = some 1 := by
  rcases main_shape c fuel inp with ⟨hnone, _⟩ | ⟨ps2, _, hsome, _, _, hst⟩
  · rw [hps] at hnone
    simp at hnone
  · rw [hps] at hsome
    simp only [Option.some.injEq] at hsome
    subst hsome
    exact (hst hend).1

/-- C28: a run that completes (its seed stage passes, every attempt loop ends)
reaches `MPI_Finalize` as its last action and returns 1 from `main`; a run that
stops in the seed stage (seed list missing or found too short) exits with
status 1 as well, without reaching `MPI_Finalize`.  The two exit statuses are the
same value. -/
theorem exit_status_one {R X : Type} (c : Collaborators R X) (fuel : Nat) (inp : Input R X) :
    ((seedOf c inp).result = none →
      (main c fuel inp).status = some 1 ∧ Action.finalize ∉ (main c fuel inp).trace) ∧
    (∀ ps, (seedOf c inp).result = some ps → (eventsOf c fuel inp ps).ended = true →
      (main c fuel inp).status = some 1 ∧
      (main c fuel inp).trace.getLast? = some Action.finalize) ∧
    (∀ (c2 : Collaborators R X) (fuel2 : Nat) (inp2 : Input R X) ps,
      (seedOf c inp).result = none → (seedOf c2 inp2).result = some ps →
      (eventsOf c2 fuel2 inp2 ps).ended = true →
      (main c fuel inp).status = (main c2 fuel2 inp2).status) := by
  refine ⟨fun hfatal => ?_, fun ps hps hend => ?_, fun c2 fuel2 inp2 ps hfatal hps hend => ?_⟩
  · rw [main_fatal c fuel inp hfatal]
    simp
  · refine ⟨main_ended_status c fuel inp ps hps hend, ?_⟩
    rw [main_ended c fuel inp ps hps hend, List.getLast?_concat]
  · rw [main_fatal c fuel inp hfatal, main_ended_status c2 fuel2 inp2 ps hps hend]

/-- Witness for `exit_status_one`: a run with no seed list to open and a run of
two events that completes both end with status 1. -/
theorem exit_status_one_witness :
    (seedOf (retryCollab 0) fatalRun).result = none ∧
    (seedOf (retryCollab 0) twoEventRun).result =
      some ({ sampleParam with cfg := sampleConfig 5 0 0, MPISize := 1, randomSeed := 5 }, 0) ∧
    (main (retryCollab 0) 1 fatalRun).status = (main (retryCollab 0) 1 twoEventRun).status :=
  ⟨rfl, rfl,
   (exit_status_one (retryCollab 0) 1 fatalRun).2.2 (retryCollab 0) 1 twoEventRun _ rfl rfl
     twoEventRun_ends⟩

/-- The seed stage by cases on the flags: what it logs, stores and seeds
with. -/
theorem seedStage_modes {R X : Type} (c : Collaborators R X) (rank size time : Int)
    (seedList : Option (List Char)) (garbage : Nat → Nat) (param : Parameters) (rng : R)
    (ps : Parameters × R)
    (h : (seedStage c rank size time seedList garbage param rng).result = some ps) :
    modesApplied (seedStage c rank size time seedList garbage param rng).trace =
        [specSeedMode param.cfg.useSeedList param.cfg.useTimeForSeed] ∧
      (seedStage c rank size time seedList garbage param rng).trace.countP
        Action.isSeedStream = 1 ∧
      Action.seedStream ps.1.randomSeed ∈
        (seedStage c rank size time seedList garbage param rng).trace := by
  unfold seedStage at h ⊢
  split at h
  · rename_i hl
    simp only [Option.some.injEq] at h
    subst h
    simp only [hl, if_true]
    by_cases ht : param.cfg.useTimeForSeed = 1
    · simp [ht, modesApplied, Action.seedMode, specSeedMode, hl, Action.isSeedStream,
        List.countP_cons]
    · simp [ht, modesApplied, Action.seedMode, specSeedMode, hl, Action.isSeedStream,
        List.countP_cons]
  · rename_i hl
    simp only [hl, if_false]
    split at h
    · simp at h
    · split at h
      · simp at h
      · rename_i content r hr
        simp only [Option.some.injEq] at h
        subst h
        simp [hr, modesApplied, Action.seedMode, specSeedMode, hl, Action.isSeedStream,
          List.countP_cons]

/-- The seed a passing seed stage stores, by cases on the flags. -/
theorem seedStage_value {R X : Type} (c : Collaborators R X) (rank size time : Int)
    (seedList : Option (List Char)) (garbage : Nat → Nat) (param : Parameters) (rng : R)
    (ps : Parameters × R)
    (h : (seedStage c rank size time seedList garbage param rng).result = some ps) :
    (param.cfg.useSeedList = 0 → param.cfg.useTimeForSeed = 1 →
      ps.1.randomSeed =
        addULL (addULL (toULL time) (mulULL param.cfg.seed 10000)) (toULL (rankOffset rank))) ∧
    (param.cfg.useSeedList = 0 → param.cfg.useTimeForSeed ≠ 1 →
      ps.1.randomSeed = addULL (param.cfg.seed % ULLMOD) (toULL (rankOffset rank))) ∧
    (param.cfg.useSeedList ≠ 0 →
      ∃ content r, seedList = some content ∧
        readSeedLoop size.toNat 0 (IStream.opened content) garbage = some r ∧
        ps.1.randomSeed = r.2 rank.toNat) := by
  unfold seedStage at h
  split at h
  · rename_i hl
    simp only [Option.some.injEq] at h
    subst h
    refine ⟨fun _ ht => ?_, fun _ ht => ?_, fun hne => absurd hl hne⟩
    · simp [ht]
    · simp [ht]
  · rename_i hl
    refine ⟨fun h0 => absurd h0 hl, fun h0 => absurd h0 hl, fun _ => ?_⟩
    split at h
    · simp at h
    · split at h
      · simp at h
      · simp only [Option.some.injEq] at h
        subst h
        exact ⟨_, _, rfl, ‹_›, rfl⟩

theorem seedStage_fatal_list {R X : Type} (c : Collaborators R X) (rank size time : Int)
    (seedList : Option (List Char)) (garbage : Nat → Nat) (param : Parameters) (rng : R)
    (h : (seedStage c rank size time seedList garbage param rng).result = none) :
    param.cfg.useSeedList ≠ 0 := by
  intro hl
  unfold seedStage at h
  simp [hl] at h

/-- C26: the flags select exactly one derivation.  A run either stops in the
seed stage, which happens in seed-list mode only and then nothing is derived or
seeded, or it reports exactly one derivation, the one the flag values select
(seed-list when `useSeedList != 0` whatever `useTimeForSeed` is, time-based when
`useSeedList = 0` and `useTimeForSeed = 1`, direct otherwise), seeds the stream
exactly once in the whole run, with the stored seed, and the stored seed is the
value of that derivation. -/
theorem seed_mode_selection {R X : Type} (c : Collaborators R X) (fuel : Nat)
    (inp : Input R X) :
    ((seedOf c inp).result = none →
      (inp.setup (configPath inp.argv)).useSeedList ≠ 0 ∧
      modesApplied (main c fuel inp).trace = [] ∧
      (main c fuel inp).trace.countP Action.isSeedStream = 0) ∧
    (∀ ps, (seedOf c inp).result = some ps →
      modesApplied (main c fuel inp).trace =
        [specSeedMode (inp.setup (configPath inp.argv)).useSeedList
          (inp.setup (configPath inp.argv)).useTimeForSeed] ∧
      (main c fuel inp).trace.countP Action.isSeedStream = 1 ∧
      Action.seedStream ps.1.randomSeed ∈ (main c fuel inp).trace ∧
      ((inp.setup (configPath inp.argv)).useSeedList = 0 →
        (inp.setup (configPath inp.argv)).useTimeForSeed = 1 →
        ps.1.randomSeed =
          addULL (addULL (toULL inp.time) (mulULL (inp.setup (configPath inp.argv)).seed 10000))
            (toULL (rankOffset inp.rank))) ∧
      ((inp.setup (configPath inp.argv)).useSeedList = 0 →
        (inp.setup (configPath inp.argv)).useTimeForSeed ≠ 1 →
        ps.1.randomSeed =
          addULL ((inp.setup (configPath inp.argv)).seed % ULLMOD)
            (toULL (rankOffset inp.rank))) ∧
      ((inp.setup (configPath inp.argv)).useSeedList ≠ 0 →
        ∃ content r, inp.seedList = some content ∧
          readSeedLoop inp.size.toNat 0 (IStream.opened content) inp.garbage = some r ∧
          ps.1.randomSeed = r.2 inp.rank.toNat)) := by
  refine ⟨fun hfatal => ?_, fun ps hps => ?_⟩
  · refine ⟨seedStage_fatal_list c _ _ _ _ _ _ _ hfatal, ?_, ?_⟩
    · rw [main_fatal c fuel inp hfatal]
      rfl
    · rw [main_fatal c fuel inp hfatal]
      rfl
  · obtain ⟨hm, hc, hmem⟩ := seedStage_modes c inp.rank inp.size inp.time inp.seedList
      inp.garbage (loadedParam inp) inp.rng0 ps hps
    obtain ⟨hv1, hv2, hv3⟩ := seedStage_value c inp.rank inp.size inp.time inp.seedList
      inp.garbage (loadedParam inp) inp.rng0 ps hps
    rcases main_shape c fuel inp with ⟨hnone, _⟩ | ⟨ps2, post, hsome, htr, hpost, _⟩
    · rw [hps] at hnone
      simp at hnone
    · rw [hps] at hsome
      simp only [Option.some.injEq] at hsome
      subst hsome
      have hev1 : modesApplied (eventsOf c fuel inp ps).trace = [] :=
        eventLoop_filterMap c fuel _ _ _ _ _ _ Action.seedMode
          (fun a ha => by cases a <;> first | rfl | simp [Action.isEventAction] at ha)
      have hev2 : (eventsOf c fuel inp ps).trace.countP Action.isSeedStream = 0 := by
        rw [List.countP_eq_zero]
        intro a ha
        have := eventLoop_actions c fuel _ _ _ _ _ _ a ha
        cases a <;>
          first
          | (intro h; simp [Action.isSeedStream] at h; done)
          | simp [Action.isEventAction] at this
      have hp1 : modesApplied post = [] := by
        unfold modesApplied
        rw [List.filterMap_eq_nil_iff]
        intro a ha
        rcases hpost a ha with h | ⟨st, h⟩ <;> (rw [h]; rfl)
      have hp2 : post.countP Action.isSeedStream = 0 := by
        rw [List.countP_eq_zero]
        intro a ha
        rcases hpost a ha with h | ⟨st, h⟩ <;> (rw [h]; simp [Action.isSeedStream])
      refine ⟨?_, ?_, ?_, hv1, hv2, hv3⟩
      · rw [htr]
        unfold modesApplied at hm hev1 hp1 ⊢
        rw [List.filterMap_append, List.filterMap_append, List.filterMap_append, hev1, hp1]
        have hm2 : List.filterMap Action.seedMode (seedOf c inp).trace = _ := hm
        rw [hm2]
        rfl
      · rw [htr]
        have hc2 : (seedOf c inp).trace.countP Action.isSeedStream = 1 := hc
        simp only [List.countP_append, hev2, hp2, hc2]
        rfl
      · rw [htr]
        have hmem2 : Action.seedStream ps.1.randomSeed ∈ (seedOf c inp).trace := hmem
        simp [hmem2]
/-- Witness for `seed_mode_selection`: with `useSeedList = 2` and
`useTimeForSeed = 1` rank 1 of 2 takes its seed from the list. -/
theorem seed_mode_selection_witness :
    (seedOf (retryCollab 0) (sampleInput 1 2 "0" (sampleConfig 5 2 1) (some "10\n20\n".data))).result =
      some ({ sampleParam with cfg := sampleConfig 5 2 1, MPIRank := 1, MPISize := 2,
                               randomSeed := 20 }, 0) ∧
    modesApplied (main (retryCollab 0) 1
      (sampleInput 1 2 "0" (sampleConfig 5 2 1) (some "10\n20\n".data))).trace =
      [SeedMode.seedList] :=
  ⟨by decide,
   ((seed_mode_selection (retryCollab 0) 1
      (sampleInput 1 2 "0" (sampleConfig 5 2 1) (some "10\n20\n".data))).2
      ({ sampleParam with cfg := sampleConfig 5 2 1, MPIRank := 1, MPISize := 2,
                          randomSeed := 20 }, 0) (by decide)).1⟩

/-- The value `atoi` gives for a decimal numeral within `int`. -/
theorem atoi_numeral (l : List Char) (hl : IsNumeral l) (hv : numeralVal l ≤ 2147483647) :
    atoi l = (numeralVal l : Int) := by
  obtain ⟨hne, hdig⟩ := hl
  cases l with
  | nil => exact absurd rfl hne
  | cons c cs =>
    have hc : isDigit c = true := hdig c (by simp)
    have hsp : isSpace c = false := isSpace_of_isDigit c hc
    obtain ⟨hm, hp⟩ := not_sign_of_isDigit c hc
    have htd := takeDigits_numeral (c :: cs) hdig [] (by simp) 0 0
    rw [List.append_nil] at htd
    unfold atoi
    simp only [skipSpace, hsp, Bool.false_eq_true, if_false, hm, hp, decide_False,
      Bool.or_self, htd]
    unfold numeralVal at hv ⊢
    have h0 : (0 : Int) ≤ (List.foldl (fun a c => a * 10 + digitVal c) 0 (c :: cs) : Nat) :=
      Int.ofNat_nonneg _
    have h1 : ((List.foldl (fun a c => a * 10 + digitVal c) 0 (c :: cs) : Nat) : Int)
        ≤ 2147483647 := by exact_mod_cast hv
    generalize ((List.foldl (fun a c => a * 10 + digitVal c) 0 (c :: cs) : Nat) : Int) = v
      at h0 h1 ⊢
    rw [min_eq_left (by omega), max_eq_right (by omega)]
    unfold wrapInt
    rw [Int.emod_eq_of_lt (by omega) (by omega)]
    omega

/-- The value `atoi` gives for a decimal numeral with a leading minus. -/
theorem atoi_minus (l : List Char) (hl : IsNumeral l) (hv : numeralVal l ≤ 2147483648) :
    atoi (Char.ofNat 45 :: l) = -(numeralVal l : Int) := by
  obtain ⟨hne, hdig⟩ := hl
  have htd := takeDigits_numeral l hdig [] (by simp) 0 0
  rw [List.append_nil] at htd
  have hsp : isSpace (Char.ofNat 45) = false := by decide
  unfold atoi
  simp only [skipSpace, hsp, Bool.false_eq_true, if_false, decide_True, Bool.true_or, if_true,
    htd]
  unfold numeralVal at hv ⊢
  have h0 : (0 : Int) ≤ (List.foldl (fun a c => a * 10 + digitVal c) 0 l : Nat) :=
    Int.ofNat_nonneg _
  have h1 : ((List.foldl (fun a c => a * 10 + digitVal c) 0 l : Nat) : Int)
      ≤ 2147483648 := by exact_mod_cast hv
  generalize ((List.foldl (fun a c => a * 10 + digitVal c) 0 l : Nat) : Int) = v
    at h0 h1 ⊢
  rw [min_eq_left (by omega), max_eq_right (by omega)]
  unfold wrapInt
  rw [Int.emod_eq_of_lt (by omega) (by omega)]
  omega

/-- The event ids of a run whose seed stage passes and whose attempt loops all
end: those of the indices 0, 1, ... below the requested event count, in
order. -/
theorem main_eventIds {R X : Type} (c : Collaborators R X) (fuel : Nat) (inp : Input R X)
    (ps : Parameters × R) (hps : (seedOf c inp).result = some ps)
    (hend : (eventsOf c fuel inp ps).ended = true) :
    eventIds (main c fuel inp).trace =
      (List.range (requestedEvents inp.argv).toNat).map
        (fun j => eventIdOf inp.rank inp.size (j : Nat)) := by
  rcases main_filterMap c fuel inp Action.eventIdSet
    (fun a ha => by cases a <;> first | rfl | simp [Action.isStartup] at ha)
    (fun _ => rfl) rfl (fun _ => rfl) with ⟨hnone, _⟩ | ⟨ps2, hps2, he⟩
  · rw [hps] at hnone
    simp at hnone
  · rw [hps] at hps2
    simp only [Option.some.injEq] at hps2
    subst hps2
    obtain ⟨m, _, h1, _, h3⟩ := eventLoop_ids c fuel inp.rank inp.size
      (requestedEvents inp.argv).toNat 0
      { rng := ps.2, ext := inp.ext0, param := ps.1, nextId := 0 } 0
    have he' : eventIds (main c fuel inp).trace =
        (List.range m).map (fun j => eventIdOf inp.rank inp.size (0 + (j : Nat))) :=
      he.trans h1
    rw [he', h3 hend]
    simp

/-- C23: the configuration path is the first argument when there is one and
`"input"` otherwise; the requested event count is `atoi` of the second argument
when there are exactly two and 1 otherwise, which for a decimal numeral within
`int` (with or without a leading minus) is its value.  `readInput` loads the
configuration of that path, and a run whose seed stage passes and whose attempt
loops all end sets the event ids of the indices 0, 1, ... below the count, in
that order: as many iterations as requested, none for a count `<= 0`. -/
theorem cli_arguments {R X : Type} (c : Collaborators R X) (fuel : Nat) (inp : Input R X) :
    (∀ prog, inp.argv = [prog] →
      configPath inp.argv = "input" ∧ requestedEvents inp.argv = 1) ∧
    (∀ prog a1, inp.argv = [prog, a1] →
      configPath inp.argv = a1 ∧ requestedEvents inp.argv = 1) ∧
    (∀ prog a1 a2, inp.argv = [prog, a1, a2] →
      configPath inp.argv = a1 ∧ requestedEvents inp.argv = atoi a2.data ∧
      (IsNumeral a2.data → numeralVal a2.data ≤ 2147483647 →
        requestedEvents inp.argv = (numeralVal a2.data : Int)) ∧
      (∀ l, a2.data = Char.ofNat 45 :: l → IsNumeral l → numeralVal l ≤ 2147483648 →
        requestedEvents inp.argv = -(numeralVal l : Int))) ∧
    (loadedParam inp).cfg = inp.setup (configPath inp.argv) ∧
    (∀ ps, (seedOf c inp).result = some ps → (eventsOf c fuel inp ps).ended = true →
      eventIds (main c fuel inp).trace =
        (List.range (requestedEvents inp.argv).toNat).map
          (fun j => eventIdOf inp.rank inp.size (j : Nat)) ∧
      (requestedEvents inp.argv ≤ 0 → eventIds (main c fuel inp).trace = [])) := by
  refine ⟨?_, ?_, ?_, rfl, ?_⟩
  · intro prog h
    rw [h]
    exact ⟨rfl, rfl⟩
  · intro prog a1 h
    rw [h]
    exact ⟨rfl, rfl⟩
  · intro prog a1 a2 h
    rw [h]
    have hreq : requestedEvents [prog, a1, a2] = atoi a2.data := rfl
    refine ⟨rfl, hreq, ?_, ?_⟩
    · intro hl hv
      rw [hreq, atoi_numeral _ hl hv]
    · intro l hd hl hv
      rw [hreq, hd, atoi_minus l hl hv]
  · intro ps hps hend
    have hids := main_eventIds c fuel inp ps hps hend
    refine ⟨hids, fun hle => ?_⟩
    rw [hids, Int.toNat_of_nonpos hle]
    rfl

/-- Witness for `cli_arguments`: with arguments `input 2` the count is 2 and a
run on rank 1 of 4 sets the event ids 1 and 5. -/
theorem cli_arguments_witness :
    IsNumeral "2".data ∧
    requestedEvents (sampleInput 1 4 "2" exportConfig none).argv = 2 ∧
    configPath (sampleInput 1 4 "2" exportConfig none).argv = "input" ∧
    eventIds (main (retryCollab 0) 1 (sampleInput 1 4 "2" exportConfig none)).trace =
      [eventIdOf 1 4 0, eventIdOf 1 4 1] :=
  ⟨by decide,
   ((cli_arguments (retryCollab 0) 1 (sampleInput 1 4 "2" exportConfig none)).2.2.1
      "ipglasma" "input" "2" rfl).2.2.1 (by decide) (by decide),
   ((cli_arguments (retryCollab 0) 1 (sampleInput 1 4 "2" exportConfig none)).2.2.1
      "ipglasma" "input" "2" rfl).1,
   ((cli_arguments (retryCollab 0) 1 (sampleInput 1 4 "2" exportConfig none)).2.2.2.2
      _ rfl exportRun_ends).1⟩
/-! ## Event ids across workers -/

theorem numeralVal_foldl (l : List Char) :
    ∀ acc : Nat, l.foldl (fun a c => a * 10 + digitVal c) acc =
      acc * 10 ^ l.length + numeralVal l := by
  unfold numeralVal
  induction l with
  | nil =>
    intro acc
    simp
  | cons c cs ih =>
    intro acc
    simp only [List.foldl_cons, List.length_cons]
    rw [ih (acc * 10 + digitVal c), ih (0 * 10 + digitVal c)]
    ring

theorem digitVal_digitChar (k : Nat) (hk : k < 10) :
    digitVal (Nat.digitChar k) = k ∧ isDigit (Nat.digitChar k) = true := by
  interval_cases k <;> exact ⟨by decide, by decide⟩

/-- The digits `Nat.toDigitsCore` produces in base 10 read back as the number. -/
theorem toDigitsCore_val : ∀ (fuel n : Nat) (ds : List Char), n < fuel →
    numeralVal (Nat.toDigitsCore 10 fuel n ds) = n * 10 ^ ds.length + numeralVal ds ∧
    ∀ c ∈ Nat.toDigitsCore 10 fuel n ds, c ∈ ds ∨ isDigit c = true := by
  intro fuel
  induction fuel with
  | zero =>
    intro n ds h
    omega
  | succ fuel ih =>
    intro n ds h
    obtain ⟨hd1, hd2⟩ := digitVal_digitChar (n % 10) (Nat.mod_lt _ (by norm_num))
    have hcons : numeralVal (Nat.digitChar (n % 10) :: ds) =
        (n % 10) * 10 ^ ds.length + numeralVal ds := by
      have := numeralVal_foldl ds (0 * 10 + digitVal (Nat.digitChar (n % 10)))
      unfold numeralVal at this ⊢
      simp only [List.foldl_cons]
      rw [this, hd1]
      simp
    unfold Nat.toDigitsCore
    simp only
    by_cases h0 : n / 10 = 0
    · simp only [h0, if_true]
      have hn : n % 10 = n := by omega
      refine ⟨by rw [hcons, hn], ?_⟩
      intro c hc
      simp only [List.mem_cons] at hc
      rcases hc with h | h
      · right; rw [h]; exact hd2
      · left; exact h
    · simp only [h0, if_false]
      obtain ⟨ih1, ih2⟩ := ih (n / 10) (Nat.digitChar (n % 10) :: ds) (by omega)
      refine ⟨?_, ?_⟩
      · rw [ih1, hcons, List.length_cons, pow_succ]
        have hn : n * 10 ^ ds.length = (10 * (n / 10) + n % 10) * 10 ^ ds.length := by
          rw [Nat.div_add_mod]
        rw [hn]
        ring
      · intro c hc
        rcases ih2 c hc with h | h
        · simp only [List.mem_cons] at h
          rcases h with h | h
          · right; rw [h]; exact hd2
          · left; exact h
        · right; exact h

theorem toDigits_val (n : Nat) :
    numeralVal (Nat.toDigits 10 n) = n ∧ ∀ c ∈ Nat.toDigits 10 n, isDigit c = true := by
  obtain ⟨h1, h2⟩ := toDigitsCore_val (n + 1) n [] (by omega)
  refine ⟨by simpa [numeralVal] using h1, ?_⟩
  intro c hc
  rcases h2 c hc with h | h
  · simp at h
  · exact h

/-- Decimal rendering of an `int`, as `operator<<` writes it, is injective. -/
theorem toString_int_injective (a b : Int) (h : toString a = toString b) : a = b := by
  have hnat : ∀ m : Nat, (toString m).data = Nat.toDigits 10 m := fun _ => rfl
  have hpos : ∀ m : Nat, (toString (Int.ofNat m)).data = Nat.toDigits 10 m := fun _ => rfl
  have hneg : ∀ m : Nat, (toString (Int.negSucc m)).data =
      Char.ofNat 45 :: Nat.toDigits 10 (m + 1) := fun _ => rfl
  have hd := congrArg String.data h
  cases a with
  | ofNat m =>
    cases b with
    | ofNat k =>
      rw [hpos, hpos] at hd
      have := congrArg numeralVal hd
      rw [(toDigits_val m).1, (toDigits_val k).1] at this
      rw [this]
    | negSucc k =>
      rw [hpos, hneg] at hd
      have hmem : Char.ofNat 45 ∈ Nat.toDigits 10 m := by rw [hd]; simp
      exact absurd ((toDigits_val m).2 _ hmem) (by decide)
  | negSucc m =>
    cases b with
    | ofNat k =>
      rw [hpos, hneg] at hd
      have hmem : Char.ofNat 45 ∈ Nat.toDigits 10 k := by rw [← hd]; simp
      exact absurd ((toDigits_val k).2 _ hmem) (by decide)
    | negSucc k =>
      rw [hneg, hneg] at hd
      simp only [List.cons.injEq, true_and] at hd
      have := congrArg numeralVal hd
      rw [(toDigits_val (m + 1)).1, (toDigits_val (k + 1)).1] at this
      have hmk : m = k := by omega
      rw [hmk]

theorem auditName_injective (a b : Int) (h : auditName a = auditName b) : a = b := by
  apply toString_int_injective
  have hd := congrArg String.data h
  unfold auditName at hd
  simp only [String.data_append] at hd
  have h2 := List.append_cancel_right hd
  have h3 := List.append_cancel_left h2
  exact String.ext h3

/-- Event ids and audit targets of any run of `main`: those of the indices
0, 1, ... of the iterations begun, which are at most the requested count. -/
theorem main_ids_begun {R X : Type} (c : Collaborators R X) (fuel : Nat) (inp : Input R X) :
    ∃ m : Nat, m ≤ (requestedEvents inp.argv).toNat ∧
      eventIds (main c fuel inp).trace =
        (List.range m).map (fun j => eventIdOf inp.rank inp.size (j : Nat)) ∧
      auditTargets (main c fuel inp).trace =
        (List.range m).map (fun j => auditName (eventIdOf inp.rank inp.size (j : Nat))) := by
  have hm1 := main_filterMap c fuel inp Action.eventIdSet
    (fun a ha => by cases a <;> first | rfl | simp [Action.isStartup] at ha)
    (fun _ => rfl) rfl (fun _ => rfl)
  have hm2 := main_filterMap c fuel inp Action.auditTarget
    (fun a ha => by cases a <;> first | rfl | simp [Action.isStartup] at ha)
    (fun _ => rfl) rfl (fun _ => rfl)
  rcases hm1 with ⟨hnone, hnil⟩ | ⟨ps, hps, he⟩
  · rcases hm2 with ⟨_, hnil2⟩ | ⟨ps2, hps2, _⟩
    · exact ⟨0, Nat.zero_le _, hnil, hnil2⟩
    · rw [hnone] at hps2
      simp at hps2
  · rcases hm2 with ⟨hnone, _⟩ | ⟨ps2, hps2, ha⟩
    · rw [hps] at hnone
      simp at hnone
    · rw [hps] at hps2
      simp only [Option.some.injEq] at hps2
      subst hps2
      obtain ⟨m, hm, h1, h2, _⟩ := eventLoop_ids c fuel inp.rank inp.size
        (requestedEvents inp.argv).toNat 0
        { rng := ps.2, ext := inp.ext0, param := ps.1, nextId := 0 } 0
      refine ⟨m, hm, ?_, ?_⟩
      · have := he.trans h1
        simpa using this
      · have := ha.trans h2
        simpa using this

/-- Within the range of `int` the id of event index `k` on rank `r` of `W`
workers is `r + k*W`, and it lies below `n*W` when `k < n`. -/
theorem eventIdOf_below (r W n : Int) (k : Nat) (hr0 : 0 ≤ r) (hrW : r < W)
    (hk : (k : Int) < n) (hrange : n * W ≤ 2147483648) :
    eventIdOf r W k = r + k * W ∧ 0 ≤ r + (k : Int) * W ∧ r + (k : Int) * W < n * W := by
  have hW : 0 ≤ W := by omega
  have hk0 : (0 : Int) ≤ k := Int.ofNat_nonneg k
  have hmul : ((k : Int) + 1) * W ≤ n * W := Int.mul_le_mul_of_nonneg_right (by omega) hW
  have hkW : (0 : Int) ≤ k * W := mul_nonneg hk0 hW
  have hlt : r + (k : Int) * W < n * W := by
    have : ((k : Int) + 1) * W = k * W + W := by ring
    omega
  refine ⟨eventIdOf_in_range r W k hr0 hW (by unfold INT_MAX; omega), by omega, hlt⟩

theorem index_of_id (r1 r2 W : Int) (k1 k2 : Nat) (h1 : 0 ≤ r1) (h1W : r1 < W)
    (h2 : 0 ≤ r2) (h2W : r2 < W) (h : r1 + (k1 : Int) * W = r2 + (k2 : Int) * W) :
    r1 = r2 ∧ k1 = k2 := by
  have hW : W ≠ 0 := by omega
  have e1 : (r1 + (k1 : Int) * W) % W = r1 := by
    rw [Int.add_mul_emod_self, Int.emod_eq_of_lt h1 h1W]
  have e2 : (r2 + (k2 : Int) * W) % W = r2 := by
    rw [Int.add_mul_emod_self, Int.emod_eq_of_lt h2 h2W]
  have hr : r1 = r2 := by rw [← e1, ← e2, h]
  subst hr
  have hk : (k1 : Int) * W = k2 * W := by omega
  have := Int.eq_of_mul_eq_mul_right hW hk
  exact ⟨rfl, by exact_mod_cast this⟩

set_option maxHeartbeats 4000000 in
/-- C27 (as stated, refuted): with 65536 workers and 65537 requested events,
worker 0 sets for its event of index 65536 the event id 0 and appends to
`usedParameters0.dat`, as for its event of index 0: the `int` product
`iev*size` = 65536*65536 wraps to 0. -/
theorem event_id_collision :
    eventIds (eventHead (retryCollab 0) 1 0 65536 65536 sampleState).2.1 = [0] ∧
    eventIds (eventHead (retryCollab 0) 1 0 65536 0 sampleState).2.1 = [0] ∧
    auditTargets (eventHead (retryCollab 0) 1 0 65536 65536 sampleState).2.1 =
      ["usedParameters0.dat"] ∧
    auditTargets (eventHead (retryCollab 0) 1 0 65536 0 sampleState).2.1 =
      ["usedParameters0.dat"] ∧
    (0 : Int) ≠ 0 + 65536 * 65536 := by
  refine ⟨?_, ?_, ?_, ?_, ?_⟩ <;> decide

/-- C27 (amended): for `W >= 1` workers and a requested event count `n` with
`n*W` within the range of `int` (`n*W <= 2^31`), take the runs of two workers of
ranks below `W` with the same arguments.  An event id set by one of them at
index `k1` and by the other at index `k2` is set by the same rank at the same
index, and so is an audit resource both append to; every id set is
`rank + k*W` and lies in `0 .. n*W - 1`; and every number in `0 .. n*W - 1` is
the id of one rank below `W` and one index below `n`. -/
theorem event_ids_partition {R X : Type} (c1 c2 : Collaborators R X) (fuel1 fuel2 : Nat)
    (inp1 inp2 : Input R X) (W : Int) (hW : 1 ≤ W)
    (hs1 : inp1.size = W) (hs2 : inp2.size = W) (hargv : inp1.argv = inp2.argv)
    (hr1 : 0 ≤ inp1.rank ∧ inp1.rank < W) (hr2 : 0 ≤ inp2.rank ∧ inp2.rank < W)
    (hrange : requestedEvents inp1.argv * W ≤ 2147483648) :
    (∀ (k1 k2 : Nat) (e : Int), (eventIds (main c1 fuel1 inp1).trace)[k1]? = some e →
      (eventIds (main c2 fuel2 inp2).trace)[k2]? = some e →
      inp1.rank = inp2.rank ∧ k1 = k2) ∧
    (∀ (k1 k2 : Nat) (name : String), (auditTargets (main c1 fuel1 inp1).trace)[k1]? = some name →
      (auditTargets (main c2 fuel2 inp2).trace)[k2]? = some name →
      inp1.rank = inp2.rank ∧ k1 = k2) ∧
    (∀ (k : Nat) (e : Int), (eventIds (main c1 fuel1 inp1).trace)[k]? = some e →
      e = inp1.rank + (k : Int) * W ∧ 0 ≤ e ∧ e < requestedEvents inp1.argv * W) ∧
    (∀ e : Int, 0 ≤ e → e < requestedEvents inp1.argv * W →
      ∃ (r : Int) (i : Nat), 0 ≤ r ∧ r < W ∧ (i : Int) < requestedEvents inp1.argv ∧
        eventIdOf r W i = e) := by
  obtain ⟨m1, hm1, he1, ha1⟩ := main_ids_begun c1 fuel1 inp1
  obtain ⟨m2, hm2, he2, ha2⟩ := main_ids_begun c2 fuel2 inp2
  rw [hs1] at he1 ha1
  rw [hs2] at he2 ha2
  rw [← hargv] at hm2
  -- an index of an iteration begun is below the requested count
  have hidx : ∀ (m k : Nat), m ≤ (requestedEvents inp1.argv).toNat → k < m →
      (k : Int) < requestedEvents inp1.argv := by
    intro m k hm hk
    omega
  -- the id at an index of the list of ids
  have hget : ∀ (r : Int) (m k : Nat) (e : Int),
      ((List.range m).map (fun j => eventIdOf r W (j : Nat)))[k]? = some e →
      k < m ∧ e = eventIdOf r W (k : Nat) := by
    intro r m k e h
    rw [List.getElem?_map] at h
    have hkm : k < m := by
      by_contra hcon
      rw [List.getElem?_eq_none (by simpa using hcon)] at h
      simp at h
    rw [List.getElem?_range hkm] at h
    simp only [Option.map_some', Option.some.injEq] at h
    exact ⟨hkm, h.symm⟩
  have hgetA : ∀ (r : Int) (m k : Nat) (name : String),
      ((List.range m).map (fun j => auditName (eventIdOf r W (j : Nat))))[k]? = some name →
      k < m ∧ name = auditName (eventIdOf r W (k : Nat)) := by
    intro r m k name h
    rw [List.getElem?_map] at h
    have hkm : k < m := by
      by_contra hcon
      rw [List.getElem?_eq_none (by simpa using hcon)] at h
      simp at h
    rw [List.getElem?_range hkm] at h
    simp only [Option.map_some', Option.some.injEq] at h
    exact ⟨hkm, h.symm⟩
  refine ⟨?_, ?_, ?_, ?_⟩
  · intro k1 k2 e h1 h2
    rw [he1] at h1
    rw [he2] at h2
    obtain ⟨hk1, e1⟩ := hget _ _ _ _ h1
    obtain ⟨hk2, e2⟩ := hget _ _ _ _ h2
    obtain ⟨i1, _, _⟩ := eventIdOf_below inp1.rank W _ k1 hr1.1 hr1.2 (hidx m1 k1 hm1 hk1) hrange
    obtain ⟨i2, _, _⟩ := eventIdOf_below inp2.rank W _ k2 hr2.1 hr2.2 (hidx m2 k2 hm2 hk2) hrange
    exact index_of_id _ _ W k1 k2 hr1.1 hr1.2 hr2.1 hr2.2 (by rw [← i1, ← i2, ← e1, ← e2])
  · intro k1 k2 name h1 h2
    rw [ha1] at h1
    rw [ha2] at h2
    obtain ⟨hk1, e1⟩ := hgetA _ _ _ _ h1
    obtain ⟨hk2, e2⟩ := hgetA _ _ _ _ h2
    have hid : eventIdOf inp1.rank W k1 = eventIdOf inp2.rank W k2 :=
      auditName_injective _ _ (by rw [← e1, ← e2])
    obtain ⟨i1, _, _⟩ := eventIdOf_below inp1.rank W _ k1 hr1.1 hr1.2 (hidx m1 k1 hm1 hk1) hrange
    obtain ⟨i2, _, _⟩ := eventIdOf_below inp2.rank W _ k2 hr2.1 hr2.2 (hidx m2 k2 hm2 hk2) hrange
    exact index_of_id _ _ W k1 k2 hr1.1 hr1.2 hr2.1 hr2.2 (by rw [← i1, ← i2, hid])
  · intro k e h
    rw [he1] at h
    obtain ⟨hk, e1⟩ := hget _ _ _ _ h
    obtain ⟨i1, i2, i3⟩ := eventIdOf_below inp1.rank W _ k hr1.1 hr1.2 (hidx m1 k hm1 hk) hrange
    rw [e1, i1]
    exact ⟨rfl, i2, i3⟩
  · intro e h0 hlt
    have hWpos : 0 < W := by omega
    have hmod0 : 0 ≤ e % W := Int.emod_nonneg e (by omega)
    have hmodW : e % W < W := Int.emod_lt_of_pos e hWpos
    have hdiv0 : 0 ≤ e / W := Int.ediv_nonneg h0 (by omega)
    have hdecomp : e % W + (e / W) * W = e := by
      have := Int.emod_add_ediv e W
      rw [mul_comm] at this
      exact this
    have hdivn : e / W < requestedEvents inp1.argv := by
      by_contra hcon
      have hge : requestedEvents inp1.argv ≤ e / W := by omega
      have := Int.mul_le_mul_of_nonneg_right hge (show 0 ≤ W by omega)
      omega
    refine ⟨e % W, (e / W).toNat, hmod0, hmodW, ?_, ?_⟩
    · rw [Int.toNat_of_nonneg hdiv0]
      exact hdivn
    · have hb := eventIdOf_below (e % W) W _ (e / W).toNat hmod0 hmodW
        (by rw [Int.toNat_of_nonneg hdiv0]; exact hdivn) hrange
      rw [hb.1, Int.toNat_of_nonneg hdiv0, hdecomp]

/-- Witness for `event_ids_partition`: on rank 1 of 4 workers with 2 requested
events the id set at index 1 is 5 = 1 + 1*4, below 2*4. -/
theorem event_ids_partition_witness :
    requestedEvents (sampleInput 1 4 "2" (sampleConfig 5 0 0) none).argv * 4 ≤ 2147483648 ∧
    (eventIds (main (retryCollab 0) 1
      (sampleInput 1 4 "2" (sampleConfig 5 0 0) none)).trace)[1]? = some 5 ∧
    ((5 : Int) = (sampleInput 1 4 "2" (sampleConfig 5 0 0) none).rank + ((1 : Nat) : Int) * 4 ∧
      (0 : Int) ≤ 5 ∧
      (5 : Int) < requestedEvents (sampleInput 1 4 "2" (sampleConfig 5 0 0) none).argv * 4) :=
  ⟨by decide, by rw [twoEventRun_ids]; rfl,
   (event_ids_partition (retryCollab 0) (retryCollab 0) 1 1
      (sampleInput 1 4 "2" (sampleConfig 5 0 0) none)
      (sampleInput 1 4 "2" (sampleConfig 5 0 0) none) 4 (by decide) rfl rfl rfl
      ⟨by decide, by decide⟩ ⟨by decide, by decide⟩ (by decide)).2.2.1 1 5
      (by rw [twoEventRun_ids]; rfl)⟩

/-! ## Fragmentation functions: the claims -/

/-- The value `dh[0]` by selector: half the pion, kaon or proton gluon function
for the selectors 1 to 6, their sum for every other selector. -/
theorem kkpSelect_gluon {F : Type} [LinearOrderedField F] (ih : Int)
    (dpg dpu dps dpc dpb dkg dku dkd dkc dkb dprg dpru dprs dprc dprb : F) :
    (kkpSelect ih dpg dpu dps dpc dpb dkg dku dkd dkc dkb dprg dpru dprs dprc dprb).getD 0 0 =
      if ih = 1 ∨ ih = 5 then dpg / 2
      else if ih = 2 ∨ ih = 3 then dkg / 2
      else if ih = 4 ∨ ih = 6 then dprg / 2
      else dpg + dkg + dprg := by
  unfold kkpSelect
  by_cases h1 : ih = 1
  · simp [h1]
  by_cases h2 : ih = 2
  · simp [h2]
  by_cases h3 : ih = 3
  · simp [h3]
  by_cases h4 : ih = 4
  · simp [h4]
  by_cases h5 : ih = 5
  · simp [h5]
  by_cases h6 : ih = 6
  · simp [h6]
  simp [h1, h2, h3, h4, h5, h6]

/-- The three gluon functions a call of `kkp` computes at the clamped scale. -/
theorem kkp_eq {F : Type} [LinearOrderedField F] (m : Cmath F) (rmcc rmbb : F)
    (ih iset : Int) (x qs : F) :
    (kkpRun m rmcc rmbb ih iset x qs).dh.getD 0 0 =
      if ih = 1 ∨ ih = 5 then
        (if iset = 0 then
          kkpLO m (kkpScale m 0.088 (m.sqrt 2) (if qs < m.sqrt 2 then m.sqrt 2 else qs)) 0 0 x
         else
          kkpNLO m (kkpScale m 0.213 (m.sqrt 2) (if qs < m.sqrt 2 then m.sqrt 2 else qs)) 0 0 x
        ).dpg / 2
      else if ih = 2 ∨ ih = 3 then
        (if iset = 0 then
          kkpLO m (kkpScale m 0.088 (m.sqrt 2) (if qs < m.sqrt 2 then m.sqrt 2 else qs)) 0 0 x
         else
          kkpNLO m (kkpScale m 0.213 (m.sqrt 2) (if qs < m.sqrt 2 then m.sqrt 2 else qs)) 0 0 x
        ).dkg / 2
      else if ih = 4 ∨ ih = 6 then
        (if iset = 0 then
          kkpLO m (kkpScale m 0.088 (m.sqrt 2) (if qs < m.sqrt 2 then m.sqrt 2 else qs)) 0 0 x
         else
          kkpNLO m (kkpScale m 0.213 (m.sqrt 2) (if qs < m.sqrt 2 then m.sqrt 2 else qs)) 0 0 x
        ).dprg / 2
      else
        (if iset = 0 then
          kkpLO m (kkpScale m 0.088 (m.sqrt 2) (if qs < m.sqrt 2 then m.sqrt 2 else qs)) 0 0 x
         else
          kkpNLO m (kkpScale m 0.213 (m.sqrt 2) (if qs < m.sqrt 2 then m.sqrt 2 else qs)) 0 0 x
        ).dpg +
        (if iset = 0 then
          kkpLO m (kkpScale m 0.088 (m.sqrt 2) (if qs < m.sqrt 2 then m.sqrt 2 else qs)) 0 0 x
         else
          kkpNLO m (kkpScale m 0.213 (m.sqrt 2) (if qs < m.sqrt 2 then m.sqrt 2 else qs)) 0 0 x
        ).dkg +
        (if iset = 0 then
          kkpLO m (kkpScale m 0.088 (m.sqrt 2) (if qs < m.sqrt 2 then m.sqrt 2 else qs)) 0 0 x
         else
          kkpNLO m (kkpScale m 0.213 (m.sqrt 2) (if qs < m.sqrt 2 then m.sqrt 2 else qs)) 0 0 x
        ).dprg := by
  unfold kkpRun
  simp only [kkpSelect_gluon]
  by_cases h : iset = 0 <;> simp only [h, if_true, if_false] <;> rfl

/-- C24: for the selector 7 the value `kkp` returns is the sum of the pion,
kaon and proton gluon functions, twice the sum of what the selectors 1, 2 and 4
return, for every `iset`, `x` and `qs`. -/
theorem charged_hadrons_sum {F : Type} [LinearOrderedField F] (m : Cmath F) (iset : Int)
    (x qs : F) :
    kkp m 7 iset x qs = 2 * (kkp m 1 iset x qs + kkp m 2 iset x qs + kkp m 4 iset x qs) := by
  unfold kkp
  rw [kkp_eq, kkp_eq, kkp_eq, kkp_eq]
  norm_num
  ring

/-- C25 (failing input): for `iset = 2` the call writes the message
"iset must be 0 (LO) or 1 (NLO)" to `cerr` and goes on: it returns the value it
returns for `iset = 1`, computed from the next-to-leading-order set, for every
selector, `x` and `qs`; nothing tells the caller that the value is not to be
used. -/
theorem bad_iset_not_rejected {F : Type} [LinearOrderedField F] (m : Cmath F) (ih : Int)
    (x qs : F) :
    kkpCerr m ih 2 x qs = ["ERROR [Fragmentation::kkp]: iset must be 0 (LO) or 1 (NLO)"] ∧
    kkpCerr m ih 1 x qs = [] ∧
    kkp m ih 2 x qs = kkp m ih 1 x qs ∧
    (kkpRun m 2.9788 9.46037 ih 2 x qs).dh = (kkpRun m 2.9788 9.46037 ih 1 x qs).dh := by
  refine ⟨rfl, rfl, ?_, ?_⟩
  · unfold kkp kkpRun
    rfl
  · unfold kkpRun
    rfl

/-- C30: `kkp` returns the gluon part only, which the selectors 5 and 1, 3 and
2, 6 and 4 share: the values are equal for every `iset`, `x` and `qs`; and
with any other pair of charm and bottom thresholds the value returned is the
same, for every selector. -/
theorem gluon_part_shared {F : Type} [LinearOrderedField F] (m : Cmath F) (iset : Int)
    (x qs : F) :
    kkp m 5 iset x qs = kkp m 1 iset x qs ∧
    kkp m 3 iset x qs = kkp m 2 iset x qs ∧
    kkp m 6 iset x qs = kkp m 4 iset x qs ∧
    (∀ ih, kkp m ih iset x qs = (kkpRun m 2.9788 9.46037 ih iset x qs).dh.getD 0 0) ∧
    (∀ (ih : Int) (rmcc rmbb : F),
      (kkpRun m rmcc rmbb ih iset x qs).dh.getD 0 0 = kkp m ih iset x qs) := by
  refine ⟨?_, ?_, ?_, fun _ => rfl, ?_⟩
  · unfold kkp
    rw [kkp_eq, kkp_eq]
    norm_num
  · unfold kkp
    rw [kkp_eq, kkp_eq]
    norm_num
  · unfold kkp
    rw [kkp_eq, kkp_eq]
    norm_num
  · intro ih rmcc rmbb
    unfold kkp
    rw [kkp_eq, kkp_eq]

/-- C29: below `q0 = sqrt(2.)` the scale is raised to `q0`: for every selector,
`iset`, `x` and every `qs < sqrt(2.)` the value is that at `qs = sqrt(2.)`.
With a logarithm for which `log(1) = 0` and `log(q0*q0/(rlam*rlam))` is not 0
the evolution variable is then 0, and for `0 < x < 1` the leading-order pion
value is the input parametrisation
`(6.04510/2) * pow(x, -0.71378) * pow(1 - x, 2.92133)`. -/
theorem scale_clamped {F : Type} [LinearOrderedField F] (m : Cmath F) (x qs : F)
    (hqs : qs < m.sqrt 2) (hlog : m.log 1 = 0)
    (hq0 : m.log (m.sqrt 2 * m.sqrt 2 / (0.088 * 0.088)) ≠ 0) (hx0 : 0 < x) (hx1 : x < 1) :
    (∀ ih iset, kkp m ih iset x qs = kkp m ih iset x (m.sqrt 2)) ∧
    kkpScale m 0.088 (m.sqrt 2) (m.sqrt 2) = 0 ∧
    kkp m 1 0 x qs = (6.04510 / 2) * m.pow x (-0.71378) * m.pow (1 - x) 2.92133 := by
  have _hx : 0 < x ∧ x < 1 := ⟨hx0, hx1⟩
  have hs : kkpScale m 0.088 (m.sqrt 2) (m.sqrt 2) = 0 := by
    unfold kkpScale
    rw [div_self hq0, hlog]
  refine ⟨?_, hs, ?_⟩
  · intro ih iset
    unfold kkp
    rw [kkp_eq, kkp_eq]
    simp only [hqs, if_true, lt_irrefl, if_false]
  · unfold kkp
    rw [kkp_eq]
    simp only [hqs, if_true, true_or, hs]
    unfold kkpLO kkpTerm
    simp only [mul_zero, add_zero, zero_div]
    ring

/-- Witness for `scale_clamped`: the real numbers with the logarithm, power and
square root of analysis, `x = 1/2` and `qs = 1`. -/
theorem scale_clamped_witness :
    (1 : ℝ) < Real.sqrt 2 ∧
    kkp (Cmath.mk Real.log (fun a b => a ^ b) Real.sqrt) 1 0 (1 / 2 : ℝ) 1 =
      (6.04510 / 2) * (1 / 2 : ℝ) ^ (-0.71378 : ℝ) * (1 - 1 / 2 : ℝ) ^ (2.92133 : ℝ) := by
  have h1 : (1 : ℝ) < Real.sqrt 2 := by
    rw [Real.lt_sqrt (by norm_num)]
    norm_num
  have h2 : Real.log (Real.sqrt 2 * Real.sqrt 2 / (0.088 * 0.088)) ≠ 0 := by
    rw [Real.mul_self_sqrt (by norm_num)]
    exact ne_of_gt (Real.log_pos (by norm_num))
  exact ⟨h1, (scale_clamped (Cmath.mk Real.log (fun a b => a ^ b) Real.sqrt) (1 / 2) 1
    h1 Real.log_one h2 (by norm_num) (by norm_num)).2.2⟩

/-! ## Workers and the barrier: one worker -/

theorem phases_append {R : Type} (a b : List (Action R)) :
    phases (a ++ b) = phases a ++ phases b := by
  unfold phases
  rw [List.filterMap_append]

/-- The stages of an attempt loop that ends: the evolver runs, at least once
when the loop is entered with the flag at 0. -/
theorem attemptLoop_phases {R X : Type} (c : Collaborators R X) (i g fuel : Nat)
    (s : St R X) :
    (attemptLoop c i g fuel s).1 = true →
      ∃ r : Nat, phases (attemptLoop c i g fuel s).2.1 = List.replicate r Phase.evolved ∧
        (s.param.success = 0 → 1 ≤ r) := by
  refine attemptLoop_induction c i g
    (fun s res => res.1 = true →
      ∃ r : Nat, phases res.2.1 = List.replicate r Phase.evolved ∧
        (s.param.success = 0 → 1 ≤ r))
    ?_ ?_ ?_ ?_ fuel s
  · intro s hs _
    exact ⟨0, rfl, fun h => absurd h hs⟩
  · intro s _ h
    simp at h
  · intro s res _ hout ih hres
    obtain ⟨r, hr, hpos⟩ := ih hres
    have h0 : (failStep c s).param.success = 0 := by
      rw [failStep_success]
      exact hout
    refine ⟨r, ?_, fun _ => hpos h0⟩
    show phases (failCycle c i s ++ res.2.1) = _
    rw [phases_append, hr]
    rfl
  · intro s res _ _ ih hres
    obtain ⟨r, hr, _⟩ := ih hres
    refine ⟨r + 1, ?_, fun _ => Nat.succ_pos r⟩
    show phases (successCycle c i g s ++ res.2.1) = _
    rw [phases_append, hr]
    rfl

theorem eventHead_phases {R X : Type} (c : Collaborators R X) (fuel : Nat)
    (rank size iev : Int) (s : St R X) (hend : (eventHead c fuel rank size iev s).1 = true) :
    ∃ r : Nat, 1 ≤ r ∧
      phases (eventHead c fuel rank size iev s).2.1 =
        Phase.start (eventIdOf rank size iev) :: List.replicate r Phase.evolved := by
  rw [eventHead_eq] at hend ⊢
  obtain ⟨r, hr, hpos⟩ := attemptLoop_phases c _ _ fuel (loopEntry c rank size iev s) hend
  refine ⟨r, hpos (loopEntry_success c rank size iev s), ?_⟩
  show phases (preamble rank size iev s ++ _) = _
  rw [phases_append, hr]
  unfold preamble
  by_cases h : s.param.cfg.readMultFromFile = 1 <;> simp [h, phases, Action.phase, eventIdOf]

theorem eventTail_phases {R X : Type} (c : Collaborators R X) (rank : Int) (first : Nat)
    (s : St R X) (h5Flag : Int) :
    phases (eventTail c rank first s h5Flag).1 =
      Phase.barrier ::
        (if s.param.cfg.writeOutputsToHDF5 = 1 then
          [Phase.spawn (collectCommand rank s.param.eventId)] else []) := by
  unfold eventTail
  by_cases h : s.param.cfg.writeOutputsToHDF5 = 1 <;> simp [h, phases, Action.phase]

/-- The stages of an event loop whose attempt loops all end. -/
theorem eventLoop_phases {R X : Type} (c : Collaborators R X)
    (fuel : Nat) (rank size : Int) :
    ∀ (n : Nat) (iev : Int) (s : St R X) (h5Flag : Int),
      (eventLoop c fuel rank size n iev s h5Flag).ended = true →
      EventPhases rank size n iev (phases (eventLoop c fuel rank size n iev s h5Flag).trace) ∧
      (eventLoop c fuel rank size n iev s h5Flag).trace.countP Action.isBarrier = n := by
  intro n
  induction n with
  | zero =>
    intro iev s h5Flag _
    exact ⟨rfl, rfl⟩
  | succ n ih =>
    intro iev s h5Flag
    have htail := eventTail_phases c rank s.nextId (eventHead c fuel rank size iev s).2.2 h5Flag
    have hheadB : (eventHead c fuel rank size iev s).2.1.countP Action.isBarrier = 0 := by
      rw [List.countP_eq_zero]
      intro a ha
      have hnone : (eventHead c fuel rank size iev s).2.1.filterMap
          (fun a => if Action.isBarrier a then some () else none) = [] := by
        rw [eventHead_filterMap c fuel rank size iev s _ (fun _ _ => rfl) (fun _ _ => rfl)
          (fun _ _ _ _ _ => rfl) (fun _ _ => rfl) rfl rfl]
        rfl
      rw [List.filterMap_eq_nil_iff] at hnone
      have := hnone a ha
      by_cases hb : Action.isBarrier a = true
      · simp [hb] at this
      · exact hb
    have htailB : (eventTail c rank s.nextId (eventHead c fuel rank size iev s).2.2
        h5Flag).1.countP Action.isBarrier = 1 := by
      unfold eventTail
      by_cases h : (eventHead c fuel rank size iev s).2.2.param.cfg.writeOutputsToHDF5 = 1 <;>
        simp [h, List.countP_cons, Action.isBarrier]
    unfold eventLoop
    simp only
    split
    · rename_i hh
      intro hend
      obtain ⟨r, hr1, hr⟩ := eventHead_phases c fuel rank size iev s hh
      obtain ⟨ih1, ih2⟩ := ih (iev + 1) _ _ hend
      refine ⟨?_, ?_⟩
      · refine ⟨r,
          (if (eventHead c fuel rank size iev s).2.2.param.cfg.writeOutputsToHDF5 = 1 then
            [Phase.spawn (collectCommand rank
              (eventHead c fuel rank size iev s).2.2.param.eventId)] else []),
          _, hr1, ?_, ?_, ih1⟩
        · by_cases h : (eventHead c fuel rank size iev s).2.2.param.cfg.writeOutputsToHDF5 = 1
          · right; rw [if_pos h]; exact ⟨_, rfl⟩
          · left; rw [if_neg h]
        · show phases (_ ++ _ ++ _) = _
          rw [phases_append, phases_append, hr, htail]
      · show List.countP _ (_ ++ _ ++ _) = _
        rw [List.countP_append, List.countP_append, hheadB, htailB, ih2]
        omega
    · intro hend
      simp at hend

/-- The stages of a run of `main` whose seed stage passes and whose attempt
loops all end: those of the requested events, one barrier each, and after them
at most the run-level merge. -/
theorem main_phases {R X : Type} (c : Collaborators R X)
    (fuel : Nat) (inp : Input R X) (ps : Parameters × R)
    (hps : (seedOf c inp).result = some ps)
    (hend : (eventsOf c fuel inp ps).ended = true) :
    ∃ (evs tail : List Phase),
      phases (main c fuel inp).trace = evs ++ tail ∧
      EventPhases inp.rank inp.size (requestedEvents inp.argv).toNat 0 evs ∧
      (tail = [] ∨ tail = [Phase.spawn combineCommand]) ∧
      (main c fuel inp).trace.countP Action.isBarrier = (requestedEvents inp.argv).toNat := by
  obtain ⟨h1, h2⟩ := eventLoop_phases c fuel inp.rank inp.size
    (requestedEvents inp.argv).toNat 0
    { rng := ps.2, ext := inp.ext0, param := ps.1, nextId := 0 } 0 hend
  have hsd : phases (seedOf c inp).trace = [] :=
    seedStage_filterMap c _ _ _ _ _ _ _ Action.phase
      (fun a h _ => by cases a <;> first | rfl | simp [Action.isStartup] at h) (fun _ => rfl)
  have hsdB : (seedOf c inp).trace.countP Action.isBarrier = 0 := by
    rw [List.countP_eq_zero]
    intro a ha
    have hnone : (seedOf c inp).trace.filterMap
        (fun a => if Action.isBarrier a then some () else none) = [] :=
      seedStage_filterMap c _ _ _ _ _ _ _ _
        (fun a h _ => by cases a <;> first | rfl | simp [Action.isStartup] at h) (fun _ => rfl)
    rw [List.filterMap_eq_nil_iff] at hnone
    have := hnone a ha
    by_cases hb : Action.isBarrier a = true
    · simp [hb] at this
    · exact hb
  rw [main_ended c fuel inp ps hps hend]
  refine ⟨phases (eventsOf c fuel inp ps).trace,
    if (eventsOf c fuel inp ps).h5Flag = 1 ∧ inp.rank = 0 then [Phase.spawn combineCommand]
    else [], ?_, h1, ?_, ?_⟩
  · rw [phases_append, phases_append, phases_append, phases_append, hsd]
    by_cases hf : (eventsOf c fuel inp ps).h5Flag = 1 ∧ inp.rank = 0
    · rw [if_pos hf, if_pos hf]
      simp [phases, Action.phase]
    · rw [if_neg hf, if_neg hf]
      simp [phases, Action.phase]
  · by_cases hf : (eventsOf c fuel inp ps).h5Flag = 1 ∧ inp.rank = 0
    · right; rw [if_pos hf]
    · left; rw [if_neg hf]
  · have h2' : (eventsOf c fuel inp ps).trace.countP Action.isBarrier =
        (requestedEvents inp.argv).toNat := h2
    simp only [List.countP_append, hsdB, h2']
    by_cases hf : (eventsOf c fuel inp ps).h5Flag = 1 ∧ inp.rank = 0
    · rw [if_pos hf]
      simp [List.countP_cons, Action.isBarrier]
    · rw [if_neg hf]
      simp [List.countP_cons, Action.isBarrier]

/-! ## Workers and the barrier: all workers -/

theorem getD_set_nat (pos : List Nat) (w v x : Nat) (hw : w < pos.length) :
    (pos.set w x).getD v 0 = if v = w then x else pos.getD v 0 := by
  rw [List.getD_eq_getElem?_getD, List.getD_eq_getElem?_getD, List.getElem?_set]
  by_cases h : w = v
  · subst h
    simp [hw]
  · have h2 : ¬ v = w := fun e => h e.symm
    simp [h, h2]

theorem barriersReached_at {R : Type} (tr : List (Action R)) (p : Nat) (a : Action R)
    (h : tr[p]? = some a) :
    barriersReached tr p = barriersPassed tr p + (if a.isBarrier then 1 else 0) := by
  unfold barriersReached barriersPassed
  rw [List.take_succ, h, List.countP_append]
  by_cases hb : a.isBarrier = true <;> simp [hb, List.countP_cons]

theorem barriersPassed_le {R : Type} (tr : List (Action R)) (p : Nat) :
    barriersPassed tr p ≤ barriersPassed tr (p + 1) := by
  unfold barriersPassed
  rw [List.take_succ, List.countP_append]
  omega

/-- What `mayStep` requires of a worker that may step. -/
theorem mayStep_true {R : Type} (traces : List (List (Action R))) (pos : List Nat) (w : Nat)
    (h : mayStep traces pos w = true) :
    ∃ a, (traces.getD w [])[pos.getD w 0]? = some a ∧ w < traces.length ∧
      (a.isBarrier = true → ∀ v, v < traces.length →
        barriersPassed (traces.getD w []) (pos.getD w 0) + 1 ≤
          barriersReached (traces.getD v []) (pos.getD v 0)) := by
  unfold mayStep at h
  split at h
  · simp at h
  · rename_i a ha
    refine ⟨a, ha, ?_, ?_⟩
    · by_contra hw
      have : traces.getD w [] = [] := by
        rw [List.getD_eq_getElem?_getD, List.getElem?_eq_none (by omega)]
        rfl
      rw [this] at ha
      simp at ha
    · intro hb v hv
      simp only [hb, if_true, List.all_eq_true, List.mem_range, decide_eq_true_eq] at h
      exact h v hv

/-- A step keeps the workers aligned. -/
theorem stepWorker_aligned {R : Type} (traces : List (List (Action R))) (pos pos2 : List Nat)
    (w : Nat) (hstep : stepWorker traces pos w = some pos2) (hal : Aligned traces pos) :
    Aligned traces pos2 := by
  unfold stepWorker at hstep
  split at hstep
  · rename_i hm
    simp only [Option.some.injEq] at hstep
    subst hstep
    obtain ⟨a, ha, hw, hbar⟩ := mayStep_true traces pos w hm
    obtain ⟨hlen, hinv⟩ := hal
    have hwp : w < pos.length := by omega
    refine ⟨by rw [List.length_set]; exact hlen, ?_⟩
    intro u v hu hv
    rw [getD_set_nat pos w u _ hwp, getD_set_nat pos w v _ hwp]
    have hreach := barriersReached_at _ _ a ha
    have hmono : ∀ (tr : List (Action R)) (p : Nat),
        barriersReached tr p ≤ barriersReached tr (p + 1) :=
      fun tr p => barriersPassed_le tr (p + 1)
    have hpr : ∀ (tr : List (Action R)) (p : Nat), barriersPassed tr p ≤ barriersReached tr p :=
      fun tr p => barriersPassed_le tr p
    have hstepw : barriersPassed (traces.getD w []) (pos.getD w 0 + 1) =
        barriersReached (traces.getD w []) (pos.getD w 0) := rfl
    by_cases huw : u = w
    · subst huw
      simp only [if_true]
      rw [hstepw]
      by_cases hvw : v = u
      · subst hvw
        simp only [if_true]
        exact hmono _ _
      · simp only [hvw, if_false]
        by_cases hb : a.isBarrier = true
        · have := hbar hb v hv
          rw [hreach]
          simp only [hb, if_true]
          exact this
        · have := hinv u v hu hv
          rw [hreach]
          simp only [hb, if_false]
          simpa using this
    · simp only [huw, if_false]
      by_cases hvw : v = w
      · subst hvw
        simp only [if_true]
        exact le_trans (hinv u v hu hv) (hmono _ _)
      · simp only [hvw, if_false]
        exact hinv u v hu hv
  · simp at hstep

theorem runSchedule_aligned {R : Type} (traces : List (List (Action R))) :
    ∀ (sched : List Nat) (pos pos2 : List Nat),
      runSchedule traces sched pos = some pos2 → Aligned traces pos → Aligned traces pos2 := by
  intro sched
  induction sched with
  | nil =>
    intro pos pos2 h hal
    simp only [runSchedule, Option.some.injEq] at h
    rw [← h]
    exact hal
  | cons w ws ih =>
    intro pos pos2 h hal
    unfold runSchedule at h
    split at h
    · simp at h
    · rename_i pos1 h1
      exact ih pos1 pos2 h (stepWorker_aligned traces pos pos1 w h1 hal)

theorem aligned_start {R : Type} (traces : List (List (Action R))) :
    Aligned traces (List.replicate traces.length 0) := by
  refine ⟨by simp, ?_⟩
  intro w v hw _
  have : (List.replicate traces.length 0).getD w 0 = 0 := by
    rw [List.getD_eq_getElem?_getD]
    simp [hw]
  rw [this]
  simp [barriersPassed]

/-- A worker standing at a barrier that some worker has not reached may not
step. -/
theorem blocked_at_barrier {R : Type} (traces : List (List (Action R))) (pos : List Nat)
    (w v : Nat) (hv : v < traces.length)
    (hat : (traces.getD w [])[pos.getD w 0]? = some Action.barrier)
    (hlate : barriersReached (traces.getD v []) (pos.getD v 0) ≤
      barriersPassed (traces.getD w []) (pos.getD w 0)) :
    stepWorker traces pos w = none := by
  unfold stepWorker
  have : mayStep traces pos w = false := by
    by_contra hm
    have hm2 : mayStep traces pos w = true := by simpa using hm
    obtain ⟨a, ha, _, hbar⟩ := mayStep_true traces pos w hm2
    rw [hat] at ha
    simp only [Option.some.injEq] at ha
    subst ha
    have := hbar rfl v hv
    omega
  simp [this]

set_option maxHeartbeats 4000000 in
/-- The traces of the two workers of `raceInputs`. -/
theorem raceTraces_eq :
    workerTraces (retryCollab 0) 1 raceInputs =
      [[Action.writeDump 0, Action.logDirect 5, Action.setRandomSeed 5, Action.seedStream 5,
        Action.construct Obj.myEigen 0, Action.setEventId 0, Action.appendAudit 0 0 5,
        Action.construct Obj.init 1, Action.construct Obj.group 2,
        Action.construct Obj.glauber 3, Action.initGlauber, Action.construct Obj.evolution 4,
        Action.construct Obj.lattice 5, Action.construct Obj.bufferLattice 6,
        Action.initCall 1 5 0 1 1, Action.destroy Obj.init 1, Action.destroy Obj.glauber 3,
        Action.run 5 6, Action.destroy Obj.bufferLattice 6, Action.destroy Obj.lattice 5,
        Action.barrier, Action.system (collectCommand 0 0) 0, Action.destroy Obj.group 2,
        Action.destroy Obj.evolution 4, Action.destroy Obj.myEigen 0,
        Action.system combineCommand 0, Action.finalize],
       [Action.writeDump 0, Action.logDirect 1005, Action.setRandomSeed 1005,
        Action.seedStream 1005, Action.construct Obj.myEigen 0, Action.setEventId 1,
        Action.appendAudit 1 1 1005, Action.construct Obj.init 1,
        Action.construct Obj.group 2, Action.construct Obj.glauber 3, Action.initGlauber,
        Action.construct Obj.evolution 4, Action.construct Obj.lattice 5,
        Action.construct Obj.bufferLattice 6, Action.initCall 1 5 0 1 1,
        Action.destroy Obj.init 1, Action.destroy Obj.glauber 3, Action.run 5 6,
        Action.destroy Obj.bufferLattice 6, Action.destroy Obj.lattice 5, Action.barrier,
        Action.system (collectCommand 1 1) 0, Action.destroy Obj.group 2,
        Action.destroy Obj.evolution 4, Action.destroy Obj.myEigen 0, Action.finalize]] := by
  decide

set_option maxHeartbeats 4000000 in
/-- C21 (failing interleaving): two workers, one event each, export enabled.
Worker 0 runs up to its barrier call, worker 1 runs up to and through the
barrier, then worker 0 passes the barrier, runs its per-event export, deletes
its helper objects and spawns the combine-only merge.  At that moment worker 1
stands at position 21 of its trace, before its own per-event export of the
event: nothing between the last barrier and the run-level merge makes worker 0
wait for it. -/
theorem combine_races_export :
    runSchedule (workerTraces (retryCollab 0) 1 raceInputs)
      (List.replicate 20 0 ++ List.replicate 21 1 ++ List.replicate 6 0) [0, 0] =
      some [26, 21] ∧
    ((workerTraces (retryCollab 0) 1 raceInputs).getD 0 [])[25]? =
      some (Action.system combineCommand 0) ∧
    ((workerTraces (retryCollab 0) 1 raceInputs).getD 1 [])[21]? =
      some (Action.system (collectCommand 1 1) 0) ∧
    barriersPassed ((workerTraces (retryCollab 0) 1 raceInputs).getD 1 []) 21 = 1 := by
  rw [raceTraces_eq]
  refine ⟨?_, ?_, ?_, ?_⟩ <;> decide

/-- C22: in a run of `main` whose seed stage passes and whose attempt loops all
end, each requested event has its stages in this order: the event id is set,
the evolver runs, the barrier is called once, and only then the per-event export
is spawned, if at all; so the worker calls the barrier exactly once per event.
With the barrier of the specification, whatever the order in which the workers
step, no worker has passed more barriers than any worker has reached, and a
worker standing at a barrier that some worker has not reached cannot step. -/
theorem barrier_once_per_event {R X : Type} (c : Collaborators R X) (fuel : Nat)
    (inputs : List (Input R X)) (sched pos : List Nat)
    (hrun : runSchedule (workerTraces c fuel inputs) sched
      (List.replicate inputs.length 0) = some pos) :
    (∀ inp ∈ inputs, ∀ ps, (seedOf c inp).result = some ps →
      (eventsOf c fuel inp ps).ended = true →
      ∃ (evs tail : List Phase),
        phases (main c fuel inp).trace = evs ++ tail ∧
        EventPhases inp.rank inp.size (requestedEvents inp.argv).toNat 0 evs ∧
        (tail = [] ∨ tail = [Phase.spawn combineCommand]) ∧
        (main c fuel inp).trace.countP Action.isBarrier = (requestedEvents inp.argv).toNat) ∧
    (∀ w v, w < inputs.length → v < inputs.length →
      barriersPassed ((workerTraces c fuel inputs).getD w []) (pos.getD w 0) ≤
        barriersReached ((workerTraces c fuel inputs).getD v []) (pos.getD v 0)) ∧
    (∀ w v, w < inputs.length → v < inputs.length →
      ((workerTraces c fuel inputs).getD w [])[pos.getD w 0]? = some Action.barrier →
      barriersReached ((workerTraces c fuel inputs).getD v []) (pos.getD v 0) ≤
        barriersPassed ((workerTraces c fuel inputs).getD w []) (pos.getD w 0) →
      stepWorker (workerTraces c fuel inputs) pos w = none) := by
  have hlen : (workerTraces c fuel inputs).length = inputs.length := by
    simp [workerTraces]
  have hal : Aligned (workerTraces c fuel inputs) pos := by
    refine runSchedule_aligned _ sched _ pos ?_ (aligned_start _)
    rw [hlen]
    exact hrun
  refine ⟨?_, ?_, ?_⟩
  · intro inp _ ps hps hend
    exact main_phases c fuel inp ps hps hend
  · intro w v hw hv
    exact hal.2 w v (by rw [hlen]; exact hw) (by rw [hlen]; exact hv)
  · intro w v _ hv hat hlate
    exact blocked_at_barrier _ pos w v (by rw [hlen]; exact hv) hat hlate

set_option maxHeartbeats 4000000 in
/-- Witness for `barrier_once_per_event`: of the two workers of `raceInputs`,
worker 0 has run up to its barrier call and worker 1 has not started; worker 0
cannot step. -/
theorem barrier_once_per_event_witness :
    runSchedule (workerTraces (retryCollab 0) 1 raceInputs) (List.replicate 20 0)
      (List.replicate raceInputs.length 0) = some [20, 0] ∧
    stepWorker (workerTraces (retryCollab 0) 1 raceInputs) [20, 0] 0 = none :=
  ⟨by rw [raceTraces_eq]; decide,
   (barrier_once_per_event (retryCollab 0) 1 raceInputs (List.replicate 20 0) [20, 0]
      (by rw [raceTraces_eq]; decide)).2.2 0 1 (by decide) (by decide)
      (by rw [raceTraces_eq]; decide) (by rw [raceTraces_eq]; decide)⟩
end IPGlasma
